import Mathlib

/-!
Verification development for the `behave` compiler core
(https://github.com/Synaptic-Simulations/behave).

This file shallowly embeds the parts of the source needed to settle the
frozen claims:

* `src/behave/src/output/xml.rs` — the streaming XML writer (`XMLWriter`),
  its escape iterator (`EscapeIterator`) and indent iterator.
* `src/behave/src/evaluation/runtime.rs` — the tree-walking expression
  evaluator (`ExpressionEvaluator`) with its four-way control-flow outcome
  (`Flow`), restricted to the expression forms exercised by the claims
  (literals, function literals, code literals, blocks, arrays, accesses,
  calls, switches, return/break, template `use`, components, visibility).
  Expression forms not needed by any claim (maps, indexing, assignment,
  unary/binary operators, if-chains, struct literals, while/for, animation,
  emissive) are omitted from the embedded grammar; every embedded form is
  translated faithfully from the source.
* `src/behave/src/resolve.rs` — the item-insertion half of the resolver
  (`Resolver::add_items`), which is what claim C5 is about.

Parts of the repository referenced by `runtime.rs` but not present under
`src/` (`value.rs` with `Value`/`CallStack`, `diagnostic.rs`, `items.rs`,
`rpn.rs`) are modelled from the spec; each such definition carries a doc
comment starting with `Modelled from the spec:`.

Modelling conventions:
* Rust `f64` numbers are modelled as `Int`; no verified claim depends on
  non-integral or rounding behaviour of floating point.
* Rust panics (`unwrap` on empty stacks, `unreachable!`, out-of-range item
  ids) and fuel exhaustion of the evaluator are both modelled as `none`:
  theorems are conditioned on the run having a defined result.
* Source-location values (`Location`, `Range<usize>`) are modelled as a
  single byte range; the file component plays no role in any claim.
* The random `Uuid::new_v4()` in `XMLWriter::start` is modelled as an
  explicit `guid` input, so the writer's dependence on it is visible.
-/

/-- Byte range of a source span (`Range<usize>` in the source). -/
structure SrcRange where
  start : Nat
  stop : Nat
deriving DecidableEq, Repr

/-- Modelled from the spec: diagnostic severity levels (`diagnostic.rs` is not
under `src/`; §6 lists `Error`, `Warning`, `Info`, `Help`, `Note`). -/
inductive Level where
  | error
  | warning
  | info
  | help
  | note
deriving DecidableEq, Repr

/-- Modelled from the spec: a diagnostic label has a style (primary or
secondary), a message and a source range. -/
structure Label where
  isPrimary : Bool
  message : String
  range : SrcRange
deriving DecidableEq, Repr

/-- Modelled from the spec: a diagnostic record with a level, a headline
message, an ordered list of labels and optional free-form notes. -/
structure Diagnostic where
  level : Level
  message : String
  labels : List Label
  notes : List String
deriving DecidableEq, Repr

/-- `Label::primary(message, range)`. -/
def Label.primary (message : String) (range : SrcRange) : Label :=
  ⟨true, message, range⟩

/-- `Label::secondary(message, range)`. -/
def Label.secondary (message : String) (range : SrcRange) : Label :=
  ⟨false, message, range⟩

/-- `Diagnostic::new(level, message)`. -/
def Diagnostic.new (level : Level) (message : String) : Diagnostic :=
  ⟨level, message, [], []⟩

/-- `Diagnostic::add_label` appends a label. -/
def Diagnostic.add_label (d : Diagnostic) (l : Label) : Diagnostic :=
  { d with labels := d.labels ++ [l] }

/-- `Diagnostic::add_note` appends a note. -/
def Diagnostic.add_note (d : Diagnostic) (n : String) : Diagnostic :=
  { d with notes := d.notes ++ [n] }

/-!  ## XML writer (`src/behave/src/output/xml.rs`)  -/

/-- `EscapeMode` from `xml.rs`: the state of the escape iterator, counting
how many characters of the current entity have been produced. -/
inductive EscapeMode where
  | normal
  | lessThan (val : Nat)
  | greaterThan (val : Nat)
  | ampersand (val : Nat)
  | quote (val : Nat)
deriving DecidableEq, Repr

/-- One `next()` step of `EscapeIterator`: from the current mode and the
remaining input characters, produce the next output character and the new
state, or `none` when the iterator is exhausted (or, for the impossible
overflowed counters, the source's `unreachable!`). -/
def escapeNext : EscapeMode → List Char → Option (Char × EscapeMode × List Char)
  | .normal, [] => none
  | .normal, c :: rest =>
    if c = ('<' : Char) then some (('&' : Char), .lessThan 0, rest)
    else if c = ('>' : Char) then some (('&' : Char), .greaterThan 0, rest)
    else if c = ('&' : Char) then some (('&' : Char), .ampersand 0, rest)
    else if c = ('"' : Char) then some (('&' : Char), .quote 0, rest)
    else some (c, .normal, rest)
  | .lessThan val, cs =>
    if val + 1 = 1 then some (('l' : Char), .lessThan (val + 1), cs)
    else if val + 1 = 2 then some (('t' : Char), .lessThan (val + 1), cs)
    else if val + 1 = 3 then some ((';' : Char), .normal, cs)
    else none
  | .greaterThan val, cs =>
    if val + 1 = 1 then some (('g' : Char), .greaterThan (val + 1), cs)
    else if val + 1 = 2 then some (('t' : Char), .greaterThan (val + 1), cs)
    else if val + 1 = 3 then some ((';' : Char), .normal, cs)
    else none
  | .ampersand val, cs =>
    if val + 1 = 1 then some (('a' : Char), .ampersand (val + 1), cs)
    else if val + 1 = 2 then some (('m' : Char), .ampersand (val + 1), cs)
    else if val + 1 = 3 then some (('p' : Char), .ampersand (val + 1), cs)
    else if val + 1 = 4 then some ((';' : Char), .normal, cs)
    else none
  | .quote val, cs =>
    if val + 1 = 1 then some (('q' : Char), .quote (val + 1), cs)
    else if val + 1 = 2 then some (('u' : Char), .quote (val + 1), cs)
    else if val + 1 = 3 then some (('o' : Char), .quote (val + 1), cs)
    else if val + 1 = 4 then some (('t' : Char), .quote (val + 1), cs)
    else if val + 1 = 5 then some ((';' : Char), .normal, cs)
    else none

/-- Driving `EscapeIterator` to exhaustion, collecting its output.  The
`fuel` argument bounds the number of `next()` calls; `none` means the fuel
ran out (the iterator itself always terminates, see
`escapeRun_normal_eq_escapeList`). -/
def escapeRun : Nat → EscapeMode → List Char → Option (List Char)
  | 0, _, _ => none
  | fuel + 1, mode, cs =>
    match escapeNext mode cs with
    | none => some []
    | some (c, mode2, cs2) => (escapeRun fuel mode2 cs2).map (fun out => c :: out)

/-- The per-character escape map that `EscapeIterator` computes: the four
XML-special characters become entities, all others pass through. -/
def escChar (c : Char) : List Char :=
  if c = ('<' : Char) then [('&' : Char), ('l' : Char), ('t' : Char), (';' : Char)]
  else if c = ('>' : Char) then [('&' : Char), ('g' : Char), ('t' : Char), (';' : Char)]
  else if c = ('&' : Char) then [('&' : Char), ('a' : Char), ('m' : Char), ('p' : Char), (';' : Char)]
  else if c = ('"' : Char) then [('&' : Char), ('q' : Char), ('u' : Char), ('o' : Char), ('t' : Char), (';' : Char)]
  else [c]

/-- Character-list form of the escape function. -/
def escapeList (cs : List Char) : List Char :=
  cs.flatMap escChar

/-- `String::from_iter(EscapeIterator::new(s))` as a total function. -/
def escape (s : String) : String :=
  ⟨escapeList s.data⟩

/-- `IndentIterator { indentation = n }`: `n` tab characters. -/
def indentStr (n : Nat) : String :=
  ⟨List.replicate n ('\t' : Char)⟩

/-- The `XMLWriter` struct: an output buffer, a tab-indent counter and a
stack of (escaped) open element names.  The stack's most recently pushed
name is the list head (the source uses `Vec` push/pop at the back). -/
structure XMLWriter where
  data : String
  indent : Nat
  elementStack : List String
deriving DecidableEq, Repr

/-- The document prologue written by `XMLWriter::start`, up to and
excluding the generated guid (byte-exact from the `format!` literal in the
source; `\x7b` is the literal opening brace around the guid). -/
def xmlProloguePre : String :=
  "<?xml version=\"1.0\" encoding=\"utf-8\"?>\n\n<!-- \n\tThis XML file was generated by the behave compiler.\n\t\t\t\n\tManual changes to this file may cause unexpected behavior.\n\tManual changes will be lost if the behave project is recompiled.\n-->\n\t\t\t\n<ModelInfo version=\"1.0\" guid=\"\x7b"

/-- The rest of the prologue after the guid. -/
def xmlProloguePost : String :=
  "\x7d\">\n"

/-- `XMLWriter::start`.  The source calls `Uuid::new_v4()` here — a freshly
generated random uuid; it is modelled as the explicit `guid` input. -/
def XMLWriter.start (guid : String) : XMLWriter :=
  { data := xmlProloguePre ++ guid ++ xmlProloguePost
    indent := 1
    elementStack := [] }

/-- `XMLWriter::start_element`. -/
def XMLWriter.start_element (w : XMLWriter) (name : String) : XMLWriter :=
  { data := w.data ++ indentStr w.indent ++ "<" ++ escape name ++ ">\n"
    indent := w.indent + 1
    elementStack := escape name :: w.elementStack }

/-- The attribute text ` k="v"` (both sides escaped) for one attribute. -/
def attribText (kv : String × String) : String :=
  " " ++ escape kv.1 ++ "=\"" ++ escape kv.2 ++ "\""

/-- All attribute text of an attribute list. -/
def attribsText (attrs : List (String × String)) : String :=
  String.join (attrs.map attribText)

/-- `XMLWriter::start_element_attrib`. -/
def XMLWriter.start_element_attrib (w : XMLWriter) (name : String)
    (attrs : List (String × String)) : XMLWriter :=
  { data := w.data ++ indentStr w.indent ++ "<" ++ escape name ++ attribsText attrs ++ ">\n"
    indent := w.indent + 1
    elementStack := escape name :: w.elementStack }

/-- `XMLWriter::element` (self-closing; does not touch the element stack or
the indent counter). -/
def XMLWriter.element (w : XMLWriter) (name : String)
    (attrs : List (String × String)) : XMLWriter :=
  { w with data := w.data ++ indentStr w.indent ++ "<" ++ escape name ++ attribsText attrs ++ "/>\n" }

/-- `XMLWriter::data` (named `write_data` here because the struct field is
already called `data`): indents and appends the text verbatim — no
escaping. -/
def XMLWriter.write_data (w : XMLWriter) (text : String) : XMLWriter :=
  { w with data := w.data ++ indentStr w.indent ++ text ++ "\n" }

/-- `XMLWriter::end_element`: decrements the indent, writes the indent,
pops the most recently pushed name and emits its closer.  The source calls
`.pop().unwrap()` — an empty element stack panics, modelled as `none`. -/
def XMLWriter.end_element (w : XMLWriter) : Option XMLWriter :=
  match w.elementStack with
  | [] => none
  | name :: rest =>
    some { data := w.data ++ indentStr (w.indent - 1) ++ "</" ++ name ++ ">\n"
           indent := w.indent - 1
           elementStack := rest }

/-- `XMLWriter::end`: the final document string. -/
def XMLWriter.end_doc (w : XMLWriter) : String :=
  w.data ++ "</ModelInfo>\n"

/-- One emit operation against the writer, for stating trace properties. -/
inductive XMLOp where
  | startEl (name : String)
  | startElAttrib (name : String) (attrs : List (String × String))
  | elementOp (name : String) (attrs : List (String × String))
  | dataOp (text : String)
  | endEl
deriving DecidableEq, Repr

/-- Apply one operation; `none` models the `end_element` panic. -/
def applyOp (w : XMLWriter) : XMLOp → Option XMLWriter
  | .startEl name => some (w.start_element name)
  | .startElAttrib name attrs => some (w.start_element_attrib name attrs)
  | .elementOp name attrs => some (w.element name attrs)
  | .dataOp text => some (w.write_data text)
  | .endEl => w.end_element

/-- Run a list of operations left to right. -/
def runOps (w : XMLWriter) : List XMLOp → Option XMLWriter
  | [] => some w
  | op :: rest =>
    match applyOp w op with
    | none => none
    | some w2 => runOps w2 rest

/-- Number of element-opening operations in a trace. -/
def countStarts (ops : List XMLOp) : Nat :=
  ops.countP (fun op =>
    match op with
    | .startEl _ => true
    | .startElAttrib _ _ => true
    | _ => false)

/-- Number of `end_element` operations in a trace. -/
def countEnds (ops : List XMLOp) : Nat :=
  ops.countP (fun op =>
    match op with
    | .endEl => true
    | _ => false)

/-!  ## Evaluator data model (`runtime.rs` and the spec-modelled `value.rs`)  -/

/-- Modelled from the spec: `EnumType` (`value.rs`/`ast.rs` ids) — either the
single built-in `MouseEvent` enum or a user enum referenced by id. -/
inductive EnumId where
  | inbuiltMouseEvent
  | user (id : Nat)
deriving DecidableEq, Repr

/-- `InbuiltFunction` — `format` is the only built-in function. -/
inductive InbuiltFunction where
  | format
deriving DecidableEq, Repr

/-- `FunctionAccess`: a user function id or a built-in function. -/
inductive FunctionAccess where
  | user (id : Nat)
  | inbuilt (f : InbuiltFunction)
deriving DecidableEq, Repr

/-- `GlobalAccess`: a pre-resolved global — a function or an enum variant
(`EnumAccess { id, value }`). -/
inductive GlobalAccess where
  | function (f : FunctionAccess)
  | enumAccess (id : EnumId) (value : Nat)
deriving DecidableEq, Repr

/-- `ResolvedAccess`: the resolver's annotation on an identifier access. -/
inductive ResolvedAccess where
  | global (g : GlobalAccess)
  | localAccess
deriving DecidableEq, Repr

/-- Modelled from the spec: `RuntimeType` (`value.rs` is not under `src/`):
the static types `num`, `str`, `bool`, `code`, `array<T>`, user enums, and
the degenerate types of function and template values.  Structs, maps,
optionals and sum types are not needed by any claim and are omitted. -/
inductive RuntimeType where
  | noneT
  | num
  | str
  | bool
  | code
  | array (ty : RuntimeType)
  | enumT (id : EnumId)
  | functionT
  | templateT
deriving DecidableEq, Repr

/-- Modelled from the spec: the `Display` form of a runtime type used inside
diagnostic messages; the spec writes the primitive types as `num`, `str`,
`bool`, `code` and arrays as `array<T>`.  No verified claim displays an
enum, function or template type. -/
def typeName : RuntimeType → String
  | .noneT => "none"
  | .num => "num"
  | .str => "str"
  | .bool => "bool"
  | .code => "code"
  | .array ty => "array<" ++ typeName ty ++ ">"
  | .enumT .inbuiltMouseEvent => "MouseEvent"
  | .enumT (.user id) => "enum#" ++ toString id
  | .functionT => "function"
  | .templateT => "template"

/-- The type-annotation grammar (`TypeType` in `ast.rs`), restricted to the
constructors convertible by the embedded evaluator. -/
inductive TypeAst where
  | num
  | str
  | bool
  | code
  | array (ty : TypeAst)
deriving DecidableEq, Repr

/-- Modelled from the spec: `RuntimeType::from(item_map, ty)` — conversion
of a declared type annotation to a runtime type. -/
def rtFromType : TypeAst → RuntimeType
  | .num => .num
  | .str => .str
  | .bool => .bool
  | .code => .code
  | .array ty => .array (rtFromType ty)

/-- Modelled from the spec: template values (`value.rs`): blocks, components
(scene-node name, optional node with its source range, nested items),
animations, and visibility/emissive RPN streams.  RPN opcodes are opaque
tokens. -/
inductive TemplateValue where
  | block (values : List TemplateValue)
  | component (name : String) (node : Option (String × SrcRange)) (items : List TemplateValue)
  | animation (name : String) (nameRange : SrcRange) (lag : Int) (length : Int) (value : List String)
  | visibility (rpn : List String)
  | emissive (rpn : List String)

mutual

/-- The embedded expression grammar, one constructor per `ExpressionType`
variant used by the claims; each carries the expression's source range as
its last argument (`Expression(ExpressionType, Range)` in `ast.rs`). -/
inductive Expression where
  | noneE (range : SrcRange)
  | stringE (s : String) (range : SrcRange)
  | numberE (n : Int) (range : SrcRange)
  | booleanE (b : Bool) (range : SrcRange)
  | functionE (f : FunctionLit) (range : SrcRange)
  | codeE (ty : RuntimeType) (rpn : List String) (range : SrcRange)
  | blockE (b : Block) (range : SrcRange)
  | arrayE (values : List Expression) (range : SrcRange)
  | accessE (resolved : ResolvedAccess) (name : String) (nameRange : SrcRange) (range : SrcRange)
  | callE (callee : Expression) (args : List Expression) (range : SrcRange)
  | switchE (disc : Expression) (cases : List Case) (range : SrcRange)
  | returnE (e : Option Expression) (range : SrcRange)
  | breakE (e : Option Expression) (range : SrcRange)
  | useE (templateId : Nat) (args : List UseArg) (range : SrcRange)
  | componentE (name : Expression) (node : Option Expression) (body : List Statement) (range : SrcRange)
  | visibleE (e : Expression) (range : SrcRange)

/-- A statement: a `let` declaration (`Variable`; the declared type is not
consulted by the evaluator and is omitted) or an expression statement. -/
inductive Statement where
  | decl (name : String) (nameRange : SrcRange) (value : Option Expression) (range : SrcRange)
  | exprS (e : Expression) (range : SrcRange)

/-- `Block { statements, expression }` plus the block's own location
(`block.loc` is used by `evaluate_call` for fallback label ranges). -/
inductive Block where
  | mk (statements : List Statement) (expression : Option Expression) (loc : SrcRange)

/-- A function or template parameter (`VarEntry { name, ty, default }`). -/
inductive VarEntry where
  | mk (name : String) (nameRange : SrcRange) (ty : TypeAst) (tyRange : SrcRange) (default : Option Expression)

/-- A function literal (`Function { args, ret, block }`; `ret` carries the
annotation's source range). -/
inductive FunctionLit where
  | mk (args : List VarEntry) (ret : Option (TypeAst × SrcRange)) (block : Block)

/-- One `switch` case (`Case { value, code }`). -/
inductive Case where
  | mk (value : Expression) (code : Expression)

/-- One named argument of a template `use` (`(Ident, Expression)`). -/
inductive UseArg where
  | mk (name : String) (nameRange : SrcRange) (value : Expression)

end

/-- Statements of a `Block`. -/
def Block.statements : Block → List Statement
  | .mk stmts _ _ => stmts

/-- Trailing expression of a `Block`. -/
def Block.expression : Block → Option Expression
  | .mk _ e _ => e

/-- Location of a `Block`. -/
def Block.loc : Block → SrcRange
  | .mk _ _ l => l

/-- Parameters of a function literal. -/
def FunctionLit.args : FunctionLit → List VarEntry
  | .mk a _ _ => a

/-- Declared return type of a function literal. -/
def FunctionLit.ret : FunctionLit → Option (TypeAst × SrcRange)
  | .mk _ r _ => r

/-- Body of a function literal. -/
def FunctionLit.block : FunctionLit → Block
  | .mk _ _ b => b

/-- Name of a parameter entry. -/
def VarEntry.name : VarEntry → String
  | .mk n _ _ _ _ => n

/-- Source range of a parameter entry's name. -/
def VarEntry.nameRange : VarEntry → SrcRange
  | .mk _ r _ _ _ => r

/-- Declared type of a parameter entry. -/
def VarEntry.ty : VarEntry → TypeAst
  | .mk _ _ t _ _ => t

/-- Source range of a parameter entry's type annotation. -/
def VarEntry.tyRange : VarEntry → SrcRange
  | .mk _ _ _ r _ => r

/-- Default expression of a parameter entry. -/
def VarEntry.default : VarEntry → Option Expression
  | .mk _ _ _ _ d => d

/-- Value expression of a switch case. -/
def Case.value : Case → Expression
  | .mk v _ => v

/-- Code expression of a switch case. -/
def Case.code : Case → Expression
  | .mk _ c => c

/-- Name of a use-argument. -/
def UseArg.name : UseArg → String
  | .mk n _ _ => n

/-- Source range of a use-argument's name. -/
def UseArg.nameRange : UseArg → SrcRange
  | .mk _ r _ => r

/-- Value expression of a use-argument. -/
def UseArg.value : UseArg → Expression
  | .mk _ _ v => v

/-- The source range of an expression (`expr.1` in the source). -/
def Expression.range : Expression → SrcRange
  | .noneE r => r
  | .stringE _ r => r
  | .numberE _ r => r
  | .booleanE _ r => r
  | .functionE _ r => r
  | .codeE _ _ r => r
  | .blockE _ r => r
  | .arrayE _ r => r
  | .accessE _ _ _ r => r
  | .callE _ _ r => r
  | .switchE _ _ r => r
  | .returnE _ r => r
  | .breakE _ r => r
  | .useE _ _ r => r
  | .componentE _ _ _ r => r
  | .visibleE _ r => r

/-- `FunctionValue`: a user function literal or a built-in. -/
inductive FunctionValue where
  | user (f : FunctionLit)
  | inbuilt (f : InbuiltFunction)

/-- Modelled from the spec: runtime values (`value.rs`): `None`, numbers
(modelled as `Int`), booleans, strings, typed arrays, enum variants,
functions, compiled `Code` values (result type plus RPN stream) and
template values.  Maps and struct objects are not needed by any claim. -/
inductive Value where
  | none
  | number (n : Int)
  | boolean (b : Bool)
  | string (s : String)
  | array (ty : RuntimeType) (values : List Value)
  | enumValue (id : EnumId) (value : Nat)
  | function (f : FunctionValue)
  | code (ty : RuntimeType) (rpn : List String)
  | template (t : TemplateValue)

/-- Modelled from the spec: `Value::get_type` — the runtime type witnessed
by a value. -/
def Value.getType : Value → RuntimeType
  | .none => .noneT
  | .number _ => .num
  | .boolean _ => .bool
  | .string _ => .str
  | .array ty _ => .array ty
  | .enumValue id _ => .enumT id
  | .function _ => .functionT
  | .code _ _ => .code
  | .template _ => .templateT

mutual

/-- Modelled from the spec: the structural `PartialEq` on values used by
`evaluate_switch` (`on == value`): equality is structural on `None`,
numbers, booleans, strings, arrays (type and elements) and enum variants
(enum id and tag); function and template values — never compared by any
claim — compare unequal except for identical built-ins. -/
def valueEq : Value → Value → Bool
  | .none, .none => true
  | .number a, .number b => a = b
  | .boolean a, .boolean b => a = b
  | .string a, .string b => a = b
  | .array ty1 vs1, .array ty2 vs2 => ty1 = ty2 && valueListEq vs1 vs2
  | .enumValue id1 v1, .enumValue id2 v2 => id1 = id2 && v1 = v2
  | .function (.inbuilt a), .function (.inbuilt b) => a = b
  | .code ty1 rpn1, .code ty2 rpn2 => ty1 = ty2 && rpn1 = rpn2
  | _, _ => false

/-- Pairwise equality of value lists. -/
def valueListEq : List Value → List Value → Bool
  | [], [] => true
  | a :: as1, b :: bs1 => valueEq a b && valueListEq as1 bs1
  | _, _ => false

end

/-- Modelled from the spec: one scope — a mapping from identifier to value
(insertion at the head; lookup finds the most recent binding). -/
abbrev Scope := List (String × Value)

/-- Modelled from the spec: one call frame — a stack of scopes (head is the
innermost scope). -/
abbrev Frame := List Scope

/-- Modelled from the spec: the call stack — a stack of frames (head is the
top frame).  `CallStack::new` starts with one empty frame. -/
abbrev CallStack := List Frame

/-- Modelled from the spec: `CallStack::new`. -/
def CallStack.new : CallStack := [[]]

/-- Modelled from the spec: `stack.scope()` pushes an empty scope onto the
top frame (a scope push on a frameless stack is a no-op; it never occurs on
runs started from `CallStack.new`). -/
def CallStack.scope : CallStack → CallStack
  | [] => []
  | f :: rest => ([] :: f) :: rest

/-- Modelled from the spec: `stack.end_scope()` pops the top frame's
innermost scope. -/
def CallStack.end_scope : CallStack → CallStack
  | [] => []
  | f :: rest => f.tail :: rest

/-- Modelled from the spec: `stack.call(args)` pushes a new frame holding
one scope bound to the argument map. -/
def CallStack.call (args : Scope) (cs : CallStack) : CallStack :=
  [args] :: cs

/-- Modelled from the spec: `stack.end_call()` pops the top frame. -/
def CallStack.end_call : CallStack → CallStack
  | [] => []
  | _ :: rest => rest

/-- Modelled from the spec: `stack.new_var(name, value)` binds a name in
the top frame's innermost scope. -/
def CallStack.new_var (name : String) (v : Value) : CallStack → CallStack
  | [] => []
  | [] :: rest => [] :: rest
  | (sc :: scs) :: rest => (((name, v) :: sc) :: scs) :: rest

/-- Lookup of a name in one scope (most recent binding first). -/
def scopeLookup (name : String) : Scope → Option Value
  | [] => none
  | (n, v) :: rest => if n = name then some v else scopeLookup name rest

/-- Lookup over a list of scopes, trying each in order. -/
def scopesLookup (name : String) : List Scope → Option Value
  | [] => none
  | sc :: rest =>
    match scopeLookup name sc with
    | some v => some v
    | none => scopesLookup name rest

/-- Modelled from the spec: `stack.var(name)` walks the current call
frame's scopes outer-to-inner (top frame only, no closure over outer
frames). -/
def CallStack.var (name : String) : CallStack → Option Value
  | [] => none
  | f :: _ => scopesLookup name f.reverse

/-- `ContextualInfo`: the evaluator's two context flags. -/
structure ContextualInfo where
  is_in_component : Bool
  component_has_node : Bool
deriving DecidableEq, Repr

/-- The mutable state of `ExpressionEvaluator`: its call stack and context
flags (the item map is read-only and passed separately). -/
structure EvalState where
  stack : CallStack
  info : ContextualInfo

/-- `Flow`: the four-way tagged outcome of every evaluator operation
(named `EvalFlow` here because Mathlib already declares `Flow`). -/
inductive EvalFlow where
  | ok (v : Value)
  | ret (loc : SrcRange) (v : Value)
  | brk (loc : SrcRange) (v : Option Value)
  | err (diags : List Diagnostic)

/-- A template declaration (`Template { name, args, block }` held in the
item map). -/
structure TemplateDecl where
  name : String
  nameRange : SrcRange
  args : List VarEntry
  block : List Statement

/-- An enum variant as stored in the item map (name and integer tag). -/
structure EnumVariantDecl where
  name : String
  value : Nat

/-- An enum declaration held in the item map. -/
structure EnumDecl where
  name : String
  nameRange : SrcRange
  variants : List EnumVariantDecl

/-- A struct declaration held in the item map (the resolver only reads its
name). -/
structure StructDecl where
  name : String
  nameRange : SrcRange

/-- Modelled from the spec: the `ItemMap` — per-kind arenas keyed by ids;
lookups with an out-of-range id (`get_function` etc. panic in the source)
yield `none`. -/
structure ItemMap where
  functions : List FunctionLit
  templates : List TemplateDecl
  enums : List EnumDecl
  structs : List StructDecl

/-- `item_map.get_function(id)`. -/
def ItemMap.get_function (im : ItemMap) (id : Nat) : Option FunctionLit :=
  im.functions.get? id

/-- `item_map.get_template(id)`. -/
def ItemMap.get_template (im : ItemMap) (id : Nat) : Option TemplateDecl :=
  im.templates.get? id

/-!  ## Diagnostic builders used by the evaluator  -/

/-- The label message `expression result is of type `T``. -/
def exprResultOfTypeMsg (v : Value) : String :=
  "expression result is of type `" ++ typeName v.getType ++ "`"

/-- The `evaluate!` macro's type-mismatch diagnostic. -/
def typeMismatchDiag (errMsg : String) (v : Value) (r : SrcRange) : Diagnostic :=
  (Diagnostic.new .error errMsg).add_label (Label.primary (exprResultOfTypeMsg v) r)

/-- The "unexpected return" diagnostic (the label text is the literal
unformatted string from the source, braces included). -/
def unexpectedReturnDiag (loc : SrcRange) : Diagnostic :=
  (Diagnostic.new .error ("unexpected return")).add_label
    (Label.primary ("return expression here `\x7b\x7d`") loc)

/-- The "unexpected break" diagnostic. -/
def unexpectedBreakDiag (loc : SrcRange) : Diagnostic :=
  (Diagnostic.new .error ("unexpected break")).add_label
    (Label.primary ("break expression here `\x7b\x7d`") loc)

/-- Modelled from the spec: the diagnostic produced by `stack.var` for an
unbound local name (`value.rs` is not under `src/`). -/
def varNotFoundDiag (r : SrcRange) : Diagnostic :=
  (Diagnostic.new .error ("variable does not exist")).add_label
    (Label.primary ("variable not found in scope") r)

/-- The per-element "mismatched array types" diagnostic of
`evaluate_array`. -/
def arrayMismatchDiag (elemTy : RuntimeType) (elemRange : SrcRange)
    (expTy : RuntimeType) (expRange : SrcRange) : Diagnostic :=
  ((Diagnostic.new .error ("mismatched array types")).add_label
    (Label.primary ("expression has type `" ++ typeName elemTy ++ "`...") elemRange)).add_label
    (Label.secondary ("...but expected type `" ++ typeName expTy ++ "`") expRange)

/-- The "can only call function" diagnostic of `evaluate_call`. -/
def canOnlyCallFunctionDiag (v : Value) (r : SrcRange) : Diagnostic :=
  (Diagnostic.new .error ("can only call function")).add_label
    (Label.primary (exprResultOfTypeMsg v) r)

/-- The "mismatched argument types" diagnostic of `evaluate_call`. -/
def mismatchedArgTypesDiag (actual should : RuntimeType) (argRange tyRange : SrcRange) : Diagnostic :=
  ((Diagnostic.new .error ("mismatched argument types")).add_label
    (Label.primary ("this expression result is of type `" ++ typeName actual ++ "`...") argRange)).add_label
    (Label.secondary ("...but type `" ++ typeName should ++ "` is expected") tyRange)

/-- The "mismatched return type" diagnostic of `evaluate_call`. -/
def mismatchedReturnTypeDiag (returns should : RuntimeType) (loc shouldRange : SrcRange) : Diagnostic :=
  ((Diagnostic.new .error ("mismatched return type")).add_label
    (Label.primary ("function returns type `" ++ typeName returns ++ "`...") loc)).add_label
    (Label.secondary ("...but should return type `" ++ typeName should ++ "`") shouldRange)

/-- The "field type mismatch" diagnostic of `evaluate_use` for provided
arguments. -/
def useFieldTypeMismatchDiag (ty should : RuntimeType) (exprRange tyRange : SrcRange) : Diagnostic :=
  ((Diagnostic.new .error ("field type mismatch")).add_label
    (Label.primary ("this expression has a result of type `" ++ typeName ty ++ "`...") exprRange)).add_label
    (Label.secondary ("...but field has a type `" ++ typeName should ++ "`") tyRange)

/-- The "argument type mismatch" diagnostic of `evaluate_use` for default
expressions. -/
def useDefaultTypeMismatchDiag (ty should : RuntimeType) (exprRange tyRange : SrcRange) : Diagnostic :=
  ((Diagnostic.new .error ("argument type mismatch")).add_label
    (Label.primary ("this default expression has a result of type `" ++ typeName ty ++ "`...") exprRange)).add_label
    (Label.secondary ("...but argument has a type `" ++ typeName should ++ "`") tyRange)

/-- The "argument does not exist" diagnostic of `evaluate_use`. -/
def useArgDoesNotExistDiag (templateName : String) (r : SrcRange) : Diagnostic :=
  (Diagnostic.new .error ("argument does not exist")).add_label
    (Label.primary ("this argument does not exist on template `" ++ templateName ++ "`") r)

/-- The "argument missing" diagnostic of `evaluate_use`. -/
def useArgMissingDiag (r : SrcRange) : Diagnostic :=
  (Diagnostic.new .error ("argument missing")).add_label
    (Label.primary ("this argument is missing") r)

/-- The "visibility condition has no node" diagnostic of
`evaluate_visibility`. -/
def visibilityNoNodeDiag (r : SrcRange) : Diagnostic :=
  (Diagnostic.new .error ("visibility condition has no node")).add_label
    (Label.primary ("this visibility condition is located outside of a component or in a component without a node") r)

/-- The "visibility condition must result in a `bool`" diagnostic. -/
def visibilityNotBoolDiag (ty : RuntimeType) (r : SrcRange) : Diagnostic :=
  (Diagnostic.new .error ("visibility condition must result in a `bool`")).add_label
    (Label.primary ("this code results in type `" ++ typeName ty ++ "`") r)

/-- The "missing format string" diagnostic of `evaluate_format`. -/
def missingFormatStringDiag (loc : SrcRange) : Diagnostic :=
  (Diagnostic.new .error ("missing format string")).add_label
    (Label.primary ("in this invocation of `format`") loc)

/-- The "format string must be of type `str`" diagnostic. -/
def formatStringNotStrDiag (v : Value) (loc : SrcRange) : Diagnostic :=
  (Diagnostic.new .error ("format string must be of type `str`")).add_label
    (Label.primary ("expression has a result of type `" ++ typeName v.getType ++ "`") loc)

/-- The "incorrect number of format arguments" diagnostic. -/
def formatArityDiag (arity found : Nat) (loc : SrcRange) : Diagnostic :=
  (Diagnostic.new .error ("incorrect number of format arguments")).add_label
    (Label.primary ("expected " ++ toString arity ++ " arguments, found " ++ toString found) loc)

/-- The "can only format primitive types" diagnostic. -/
def formatNonPrimitiveDiag (v : Value) (r : SrcRange) : Diagnostic :=
  (Diagnostic.new .error ("can only format primitive types")).add_label
    (Label.primary ("this expression has a result of type `" ++ typeName v.getType ++ "`") r)

/-!  ## Helpers for the `format` built-in  -/

/-- The opening brace character (written with an escape throughout). -/
def openBrace : Char := '\x7b'

/-- The closing brace character. -/
def closeBrace : Char := '\x7d'

/-- Rust's `s.matches("\x7b\x7d").count()`: non-overlapping left-to-right
occurrences of the two-character brace pattern. -/
def countBracesL : List Char → Nat
  | c1 :: c2 :: rest =>
    if c1 = openBrace ∧ c2 = closeBrace then countBracesL rest + 1
    else countBracesL (c2 :: rest)
  | _ => 0

/-- Rust's `s.replacen("\x7b\x7d", repl, 1)`: replace the leftmost brace
pair, if any. -/
def replaceBracesL (repl : List Char) : List Char → List Char
  | c1 :: c2 :: rest =>
    if c1 = openBrace ∧ c2 = closeBrace then repl ++ rest
    else c1 :: replaceBracesL repl (c2 :: rest)
  | other => other

/-- String form of `countBracesL`. -/
def countBraces (s : String) : Nat := countBracesL s.data

/-- String form of `replaceBracesL`. -/
def replaceBraces (s repl : String) : String := ⟨replaceBracesL repl.data s.data⟩

/-!  ## Pure pieces of `evaluate_array` and `evaluate_call`  -/

/-- The `filter_map` pass of `evaluate_array`: successful elements are kept
and update the running element type and its location to this element's;
return/break flows become "unexpected" diagnostics; error flows merge their
diagnostics. -/
def arrayFilterAux :
    List (SrcRange × EvalFlow) → List (SrcRange × Value) → List Diagnostic →
    RuntimeType → Option SrcRange →
    List (SrcRange × Value) × List Diagnostic × RuntimeType × Option SrcRange
  | [], items, errs, ty, tyLoc => (items, errs, ty, tyLoc)
  | (r, f) :: rest, items, errs, ty, tyLoc =>
    match f with
    | .ok v => arrayFilterAux rest (items ++ [(r, v)]) errs v.getType (some r)
    | .ret loc _ => arrayFilterAux rest items (errs ++ [unexpectedReturnDiag loc]) ty tyLoc
    | .brk loc _ => arrayFilterAux rest items (errs ++ [unexpectedBreakDiag loc]) ty tyLoc
    | .err ds => arrayFilterAux rest items (errs ++ ds) ty tyLoc

/-- The mismatch pass of `evaluate_array`: one diagnostic per kept element
whose type differs from the inferred element type. -/
def arrayMismatches (items : List (SrcRange × Value)) (ty : RuntimeType)
    (tyLoc : SrcRange) : List Diagnostic :=
  items.filterMap (fun rv =>
    if rv.2.getType = ty then none
    else some (arrayMismatchDiag rv.2.getType rv.1 ty tyLoc))

/-- The zip-and-`all` argument type check of `evaluate_call`: the first
mismatching parameter/argument pair, if any (`Iterator::all` stops at the
first mismatch, so only one diagnostic is produced). -/
def firstArgMismatch : List VarEntry → List Value → Nat → Option (Nat × RuntimeType × RuntimeType)
  | [], _, _ => none
  | _, [], _ => none
  | p :: ps, v :: vs, i =>
    if rtFromType p.ty = v.getType then firstArgMismatch ps vs (i + 1)
    else some (i, rtFromType p.ty, v.getType)

/-- Whether an argument map already contains a key
(`HashMap::contains_key`). -/
def scopeContains (m : Scope) (k : String) : Bool :=
  (scopeLookup k m).isSome

/-- `HashMap::insert` on the argument map: replace an existing binding or
append a new one. -/
def scopeInsert (m : Scope) (k : String) (v : Value) : Scope :=
  if scopeContains m k then m.map (fun p => if p.1 = k then (k, v) else p)
  else m ++ [(k, v)]

/-!  ## Loop outcome types for the evaluator's statement loops  -/

/-- Outcome of the statement loop of `evaluate_block`: an early
control-flow exit (which skips `end_scope`) or normal completion with the
accumulated diagnostics. -/
inductive StmtLoopRes where
  | early (f : EvalFlow) (s : EvalState)
  | done (errs : List Diagnostic) (s : EvalState)

/-- Outcome of the statement loop of `evaluate_template_block`. -/
inductive TplLoopRes where
  | early (f : EvalFlow) (s : EvalState)
  | done (errs : List Diagnostic) (values : List TemplateValue) (s : EvalState)

/-- Outcome of the argument loop of `evaluate_format`. -/
inductive FormatLoopRes where
  | early (f : EvalFlow) (s : EvalState)
  | done (out : String) (errs : List Diagnostic) (s : EvalState)

/-- Outcome of the defaults loop of `evaluate_use` (whose `?` on a default
expression propagates any non-`Ok` flow out of the whole call). -/
inductive UseLoopRes where
  | early (f : EvalFlow) (s : EvalState)
  | done (args : Scope) (errs : List Diagnostic) (s : EvalState)

/-!  ## The expression evaluator (`ExpressionEvaluator` in `runtime.rs`)

Every function takes a fuel argument and returns `none` when the fuel runs
out (or a panic path is hit); fuel is decremented on every recursive call,
so any terminating source computation is reproduced by a large enough
fuel. -/

/-- `evaluate_access` (lines 322–336): pre-resolved globals are returned
directly; local accesses look the (single-segment) path up in the current
call frame.  An out-of-range user-function id models the `get_function`
panic. -/
def evaluate_access (im : ItemMap) (res : ResolvedAccess) (name : String)
    (nameRange : SrcRange) (s : EvalState) : Option (EvalFlow × EvalState) :=
  match res with
  | .global (.function (.user id)) =>
    match im.get_function id with
    | some f => some (.ok (.function (.user f)), s)
    | none => none
  | .global (.function (.inbuilt f)) => some (.ok (.function (.inbuilt f)), s)
  | .global (.enumAccess id v) => some (.ok (.enumValue id v), s)
  | .localAccess =>
    match s.stack.var name with
    | some v => some (.ok v, s)
    | none => some (.err [varNotFoundDiag nameRange], s)

mutual

/-- `evaluate_expression` (lines 191–228), dispatching on the expression
form; literals, function literals and compiled code literals succeed
immediately (`compile_code` is modelled as the code literal carrying its
compiled result type and RPN stream, since `rpn.rs` is not under
`src/`). -/
def evaluate_expression (im : ItemMap) : Nat → Expression → EvalState → Option (EvalFlow × EvalState)
  | 0, _, _ => none
  | fuel + 1, e, s =>
    match e with
    | .noneE _ => some (.ok .none, s)
    | .stringE str _ => some (.ok (.string str), s)
    | .numberE n _ => some (.ok (.number n), s)
    | .booleanE b _ => some (.ok (.boolean b), s)
    | .functionE f _ => some (.ok (.function (.user f)), s)
    | .codeE ty rpn _ => some (.ok (.code ty rpn), s)
    | .blockE b _ => evaluate_block im fuel b s
    | .arrayE values _ => evaluate_array im fuel values s
    | .accessE res name nameRange _ => evaluate_access im res name nameRange s
    | .callE callee args _ => evaluate_call im fuel callee args s
    | .switchE disc cases _ =>
      match evaluate_expression im fuel disc s with
      | none => none
      | some (.ok v, s1) => evaluate_switch_cases im fuel v cases s1
      | some (f, s1) => some (f, s1)
    | .returnE oe r =>
      match oe with
      | some e2 =>
        match evaluate_expression im fuel e2 s with
        | none => none
        | some (.ok v, s1) => some (.ret r v, s1)
        | some (f, s1) => some (f, s1)
      | none => some (.ret r .none, s)
    | .breakE oe r =>
      match oe with
      | some e2 =>
        match evaluate_expression im fuel e2 s with
        | none => none
        | some (.ok v, s1) => some (.brk r (some v), s1)
        | some (f, s1) => some (f, s1)
      | none => some (.brk r none, s)
    | .useE tid args _ => evaluate_use im fuel tid args s
    | .componentE nameE nodeE body _ => evaluate_component im fuel nameE nodeE body s
    | .visibleE e2 _ => evaluate_visibility im fuel e2 s

/-- `evaluate_block` (lines 230–277): push a scope, run the statements
(an early return/break flow from a statement exits without `end_scope` —
see the C2 theorems), evaluate the trailing expression, pop the scope, and
fail if any statement diagnostics accumulated. -/
def evaluate_block (im : ItemMap) : Nat → Block → EvalState → Option (EvalFlow × EvalState)
  | 0, _, _ => none
  | fuel + 1, b, s =>
    let s1 : EvalState := { s with stack := s.stack.scope }
    match evaluate_block_stmts im fuel b.statements [] s1 with
    | none => none
    | some (.early f s2) => some (f, s2)
    | some (.done errs s2) =>
      match (match b.expression with
             | some e => evaluate_expression im fuel e s2
             | none => some (.ok .none, s2)) with
      | none => none
      | some (retF, s3) =>
        let s4 : EvalState := { s3 with stack := s3.stack.end_scope }
        if errs = [] then some (retF, s4) else some (.err errs, s4)

/-- The statement loop of `evaluate_block`: declarations bind (skipping the
binding when the initializer fails, accumulating its diagnostics);
expression statements accumulate diagnostics; any return/break flow is
returned as-is (`return flow` in the source). -/
def evaluate_block_stmts (im : ItemMap) : Nat → List Statement → List Diagnostic → EvalState → Option StmtLoopRes
  | 0, _, _, _ => none
  | _ + 1, [], errs, s => some (.done errs s)
  | fuel + 1, stmt :: rest, errs, s =>
    match stmt with
    | .decl name _ value _ =>
      match value with
      | some e =>
        match evaluate_expression im fuel e s with
        | none => none
        | some (.ok v, s1) =>
          evaluate_block_stmts im fuel rest errs { s1 with stack := s1.stack.new_var name v }
        | some (.err ds, s1) => evaluate_block_stmts im fuel rest (errs ++ ds) s1
        | some (f, s1) => some (.early f s1)
      | none => evaluate_block_stmts im fuel rest errs { s with stack := s.stack.new_var name .none }
    | .exprS e _ =>
      match evaluate_expression im fuel e s with
      | none => none
      | some (.ok _, s1) => evaluate_block_stmts im fuel rest errs s1
      | some (.err ds, s1) => evaluate_block_stmts im fuel rest (errs ++ ds) s1
      | some (f, s1) => some (.early f s1)

/-- `evaluate_template_block` (lines 1333–1381): like `evaluate_block` but
collecting the template values of expression statements; an expression
statement producing a non-template value is the source's `unreachable!`. -/
def evaluate_template_block (im : ItemMap) : Nat → List Statement → EvalState → Option (EvalFlow × EvalState)
  | 0, _, _ => none
  | fuel + 1, stmts, s =>
    let s1 : EvalState := { s with stack := s.stack.scope }
    match evaluate_tpl_stmts im fuel stmts [] [] s1 with
    | none => none
    | some (.early f s2) => some (f, s2)
    | some (.done errs values s2) =>
      let s3 : EvalState := { s2 with stack := s2.stack.end_scope }
      if errs = [] then some (.ok (.template (.block values)), s3) else some (.err errs, s3)

/-- The statement loop of `evaluate_template_block`. -/
def evaluate_tpl_stmts (im : ItemMap) : Nat → List Statement → List Diagnostic → List TemplateValue → EvalState → Option TplLoopRes
  | 0, _, _, _, _ => none
  | _ + 1, [], errs, values, s => some (.done errs values s)
  | fuel + 1, stmt :: rest, errs, values, s =>
    match stmt with
    | .decl name _ value _ =>
      match value with
      | some e =>
        match evaluate_expression im fuel e s with
        | none => none
        | some (.ok v, s1) =>
          evaluate_tpl_stmts im fuel rest errs values { s1 with stack := s1.stack.new_var name v }
        | some (.err ds, s1) => evaluate_tpl_stmts im fuel rest (errs ++ ds) values s1
        | some (f, s1) => some (.early f s1)
      | none => evaluate_tpl_stmts im fuel rest errs values { s with stack := s.stack.new_var name .none }
    | .exprS e _ =>
      match evaluate_expression im fuel e s with
      | none => none
      | some (.ok (.template v), s1) => evaluate_tpl_stmts im fuel rest errs (values ++ [v]) s1
      | some (.ok _, _) => none
      | some (.err ds, s1) => evaluate_tpl_stmts im fuel rest (errs ++ ds) values s1
      | some (f, s1) => some (.early f s1)

/-- `evaluate_array` (lines 568–622): evaluate every element (phase 1),
filter the flows updating the running element type per successful element,
then diagnose every kept element whose type differs from the final running
type.  When a mismatch exists at least one element succeeded, so the
running type location is present (`ty_loc.as_ref().unwrap()`); the `getD`
default is unreachable. -/
def evaluate_array (im : ItemMap) : Nat → List Expression → EvalState → Option (EvalFlow × EvalState)
  | 0, _, _ => none
  | fuel + 1, values, s =>
    match evaluate_array_elems im fuel values s with
    | none => none
    | some (pairs, s1) =>
      match arrayFilterAux pairs [] [] .noneT none with
      | (items, errs, ty, tyLoc) =>
        let errs2 := errs ++ arrayMismatches items ty (tyLoc.getD ⟨0, 0⟩)
        if errs2 = [] then some (.ok (.array ty (items.map (fun rv => rv.2))), s1)
        else some (.err errs2, s1)

/-- Phase 1 of `evaluate_array`: evaluate all elements in order, pairing
each flow with the element's source range (the source `collect`s all
evaluations before filtering). -/
def evaluate_array_elems (im : ItemMap) : Nat → List Expression → EvalState → Option (List (SrcRange × EvalFlow) × EvalState)
  | 0, _, _ => none
  | _ + 1, [], s => some ([], s)
  | fuel + 1, e :: rest, s =>
    match evaluate_expression im fuel e s with
    | none => none
    | some (f, s1) =>
      match evaluate_array_elems im fuel rest s1 with
      | none => none
      | some (pairs, s2) => some ((e.range, f) :: pairs, s2)

/-- The case loop of `evaluate_switch` (lines 1406–1415): evaluate each
case's value in source order (propagating non-`Ok` flows); on the first
value equal to the discriminant, evaluate and return that case's code; with
no match the result is `Ok(None)`. -/
def evaluate_switch_cases (im : ItemMap) : Nat → Value → List Case → EvalState → Option (EvalFlow × EvalState)
  | 0, _, _, _ => none
  | _ + 1, _, [], s => some (.ok .none, s)
  | fuel + 1, v, c :: rest, s =>
    match evaluate_expression im fuel c.value s with
    | none => none
    | some (.ok v2, s1) =>
      if valueEq v v2 then evaluate_expression im fuel c.code s1
      else evaluate_switch_cases im fuel v rest s1
    | some (f, s1) => some (f, s1)

/-- `evaluate_call` (lines 958–1095): evaluate the callee (propagating
non-`Ok`), evaluate all arguments collecting values and diagnostics, then
dispatch: user functions go through `evaluate_user_call`; the built-in
`format` re-evaluates the raw argument expressions (the collected argument
diagnostics are dropped, as in the source); a non-function callee appends
its diagnostic to the collected ones. -/
def evaluate_call (im : ItemMap) : Nat → Expression → List Expression → EvalState → Option (EvalFlow × EvalState)
  | 0, _, _, _ => none
  | fuel + 1, callee, args, s =>
    match evaluate_expression im fuel callee s with
    | none => none
    | some (.ok calleeV, s1) =>
      match evaluate_call_args im fuel args s1 with
      | none => none
      | some (vals, errs, s2) =>
        match calleeV with
        | .function (.user f) => evaluate_user_call im fuel f args vals errs s2
        | .function (.inbuilt .format) => evaluate_format im fuel callee.range args s2
        | other => some (.err (errs ++ [canOnlyCallFunctionDiag other callee.range]), s2)
    | some (f, s1) => some (f, s1)

/-- The argument loop of `evaluate_call`: `filter_map` collecting values
and accumulating diagnostics for return/break/error flows. -/
def evaluate_call_args (im : ItemMap) : Nat → List Expression → EvalState → Option (List Value × List Diagnostic × EvalState)
  | 0, _, _ => none
  | _ + 1, [], s => some ([], [], s)
  | fuel + 1, e :: rest, s =>
    match evaluate_expression im fuel e s with
    | none => none
    | some (f, s1) =>
      match evaluate_call_args im fuel rest s1 with
      | none => none
      | some (vals, errs, s2) =>
        match f with
        | .ok v => some (v :: vals, errs, s2)
        | .ret loc _ => some (vals, unexpectedReturnDiag loc :: errs, s2)
        | .brk loc _ => some (vals, unexpectedBreakDiag loc :: errs, s2)
        | .err ds => some (vals, ds ++ errs, s2)

/-- The user-function branch of `evaluate_call` (lines 989–1081): with no
argument diagnostics, zip-check argument types against declared parameter
types (`all` stops at the first mismatch); on success push a call frame
binding parameters to arguments, evaluate the body, pop the frame
unconditionally, absorb a `Return` flow, diagnose a `Break`, and check the
result type against the declared return type.  More argument values than
parameters panics at `f.args[arg.0]` (modelled as `none`). -/
def evaluate_user_call (im : ItemMap) : Nat → FunctionLit → List Expression → List Value → List Diagnostic → EvalState → Option (EvalFlow × EvalState)
  | 0, _, _, _, _, _ => none
  | fuel + 1, f, argEs, vals, errs, s =>
    if errs = [] then
      match firstArgMismatch f.args vals 0 with
      | some (i, should, actual) =>
        match argEs.get? i, f.args.get? i with
        | some argE, some p =>
          some (.err [mismatchedArgTypesDiag actual should argE.range p.tyRange], s)
        | _, _ => none
      | none =>
        if f.args.length < vals.length then none
        else
          let binds : Scope := (f.args.zip vals).map (fun pv => (pv.1.name, pv.2))
          let s1 : EvalState := { s with stack := s.stack.call binds }
          match evaluate_block im fuel f.block s1 with
          | none => none
          | some (blockRes, s2) =>
            let s3 : EvalState := { s2 with stack := s2.stack.end_call }
            match blockRes with
            | .ok retV =>
              let loc : SrcRange :=
                match f.block.expression with
                | some e => e.range
                | none => ⟨f.block.loc.stop - 1, f.block.loc.stop⟩
              evaluate_return_check f loc retV s3
            | .ret loc retV => evaluate_return_check f loc retV s3
            | .brk loc _ => some (.err [unexpectedBreakDiag loc], s3)
            | .err ds => some (.err ds, s3)
    else some (.err errs, s)

/-- The return-type check at the end of `evaluate_call`'s user branch. -/
def evaluate_return_check (f : FunctionLit) (loc : SrcRange) (retV : Value) (s : EvalState) : Option (EvalFlow × EvalState) :=
  let returns := retV.getType
  let should : RuntimeType × SrcRange :=
    match f.ret with
    | some tyR => (rtFromType tyR.1, tyR.2)
    | none => (.noneT, ⟨f.block.loc.start, f.block.loc.start + 1⟩)
  if should.1 = returns then some (.ok retV, s)
  else some (.err [mismatchedReturnTypeDiag returns should.1 loc should.2], s)

/-- `evaluate_use` (lines 1105–1203): fetch the template (a bad id models
the `resolved.unwrap`/`get_template` panic), evaluate the provided
arguments against the declared parameters, fill in defaults (whose `?`
propagates any non-`Ok` flow immediately), then push a call frame with the
argument map, evaluate the template's statement list as a template block
and pop the frame. -/
def evaluate_use (im : ItemMap) : Nat → Nat → List UseArg → EvalState → Option (EvalFlow × EvalState)
  | 0, _, _, _ => none
  | fuel + 1, tid, uargs, s =>
    match im.get_template tid with
    | none => none
    | some tpl =>
      match evaluate_use_args im fuel tpl uargs [] [] s with
      | none => none
      | some (argsMap, errs, s1) =>
        match evaluate_use_defaults im fuel tpl.args argsMap errs s1 with
        | none => none
        | some (.early f s2) => some (f, s2)
        | some (.done argsMap2 errs2 s2) =>
          if errs2 = [] then
            let s3 : EvalState := { s2 with stack := s2.stack.call argsMap2 }
            match evaluate_template_block im fuel tpl.block s3 with
            | none => none
            | some (f, s4) => some (f, { s4 with stack := s4.stack.end_call })
          else some (.err errs2, s2)

/-- The provided-argument loop of `evaluate_use`. -/
def evaluate_use_args (im : ItemMap) : Nat → TemplateDecl → List UseArg → Scope → List Diagnostic → EvalState → Option (Scope × List Diagnostic × EvalState)
  | 0, _, _, _, _, _ => none
  | _ + 1, _, [], argsMap, errs, s => some (argsMap, errs, s)
  | fuel + 1, tpl, ua :: rest, argsMap, errs, s =>
    match tpl.args.find? (fun entry => entry.name = ua.name) with
    | some p =>
      match evaluate_expression im fuel ua.value s with
      | none => none
      | some (.ok v, s1) =>
        if v.getType = rtFromType p.ty then
          evaluate_use_args im fuel tpl rest (scopeInsert argsMap ua.name v) errs s1
        else
          evaluate_use_args im fuel tpl rest argsMap
            (errs ++ [useFieldTypeMismatchDiag v.getType (rtFromType p.ty) ua.value.range p.tyRange]) s1
      | some (.ret loc _, s1) =>
        evaluate_use_args im fuel tpl rest argsMap (errs ++ [unexpectedReturnDiag loc]) s1
      | some (.brk loc _, s1) =>
        evaluate_use_args im fuel tpl rest argsMap (errs ++ [unexpectedBreakDiag loc]) s1
      | some (.err ds, s1) => evaluate_use_args im fuel tpl rest argsMap (errs ++ ds) s1
    | none =>
      evaluate_use_args im fuel tpl rest argsMap
        (errs ++ [useArgDoesNotExistDiag tpl.name ua.nameRange]) s

/-- The defaults loop of `evaluate_use`. -/
def evaluate_use_defaults (im : ItemMap) : Nat → List VarEntry → Scope → List Diagnostic → EvalState → Option UseLoopRes
  | 0, _, _, _, _ => none
  | _ + 1, [], argsMap, errs, s => some (.done argsMap errs s)
  | fuel + 1, p :: rest, argsMap, errs, s =>
    if scopeContains argsMap p.name then
      evaluate_use_defaults im fuel rest argsMap errs s
    else
      match p.default with
      | some d =>
        match evaluate_expression im fuel d s with
        | none => none
        | some (.ok v, s1) =>
          if v.getType = rtFromType p.ty then
            evaluate_use_defaults im fuel rest (scopeInsert argsMap p.name v) errs s1
          else
            evaluate_use_defaults im fuel rest argsMap
              (errs ++ [useDefaultTypeMismatchDiag v.getType (rtFromType p.ty) d.range p.tyRange]) s1
        | some (f, s1) => some (.early f s1)
      | none =>
        evaluate_use_defaults im fuel rest argsMap (errs ++ [useArgMissingDiag p.nameRange]) s

/-- The `evaluate!` macro's accumulating String form (used for component
name and node): a non-string result, return, break or error pushes a
diagnostic and yields the default empty string. -/
def evaluate_as_string_acc (im : ItemMap) : Nat → Expression → String → EvalState → Option (String × List Diagnostic × EvalState)
  | 0, _, _, _ => none
  | fuel + 1, e, errMsg, s =>
    match evaluate_expression im fuel e s with
    | none => none
    | some (.ok (.string str), s1) => some (str, [], s1)
    | some (.ok v, s1) => some ("", [typeMismatchDiag errMsg v e.range], s1)
    | some (.ret loc _, s1) => some ("", [unexpectedReturnDiag loc], s1)
    | some (.brk loc _, s1) => some ("", [unexpectedBreakDiag loc], s1)
    | some (.err ds, s1) => some ("", ds, s1)

/-- The `evaluate!` macro's `Result` form specialized to `Code` (used by
`evaluate_visibility`). -/
def evaluate_as_code (im : ItemMap) : Nat → Expression → String → EvalState → Option (Except (List Diagnostic) (RuntimeType × List String) × EvalState)
  | 0, _, _, _ => none
  | fuel + 1, e, errMsg, s =>
    match evaluate_expression im fuel e s with
    | none => none
    | some (.ok (.code ty rpn), s1) => some (.ok (ty, rpn), s1)
    | some (.ok v, s1) => some (.error [typeMismatchDiag errMsg v e.range], s1)
    | some (.ret loc _, s1) => some (.error [unexpectedReturnDiag loc], s1)
    | some (.brk loc _, s1) => some (.error [unexpectedBreakDiag loc], s1)
    | some (.err ds, s1) => some (.error ds, s1)

/-- `evaluate_component` (lines 1205–1238): save the context flags, enable
"in component", evaluate the name (accumulating errors), set "has node"
according to the optional node and evaluate it (accumulating errors), then
evaluate the body as a template block — whose `?` propagates any non-`Ok`
flow *without restoring the flags*; on the remaining paths the flags are
restored before the error check. -/
def evaluate_component (im : ItemMap) : Nat → Expression → Option Expression → List Statement → EvalState → Option (EvalFlow × EvalState)
  | 0, _, _, _, _ => none
  | fuel + 1, nameE, nodeE, body, s =>
    let old := s.info
    let s1 : EvalState := { s with info := { s.info with is_in_component := true } }
    match evaluate_as_string_acc im fuel nameE ("component name must be of type `str`") s1 with
    | none => none
    | some (nameStr, errs1, s2) =>
      match (match nodeE with
             | some ne =>
               let s3 : EvalState := { s2 with info := { s2.info with component_has_node := true } }
               match evaluate_as_string_acc im fuel ne ("node name must be of type `str`") s3 with
               | none => none
               | some (nodeStr, errs2, s4) => some (some (nodeStr, ne.range), errs1 ++ errs2, s4)
             | none =>
               some (none, errs1, { s2 with info := { s2.info with component_has_node := false } })) with
      | none => none
      | some (node, errs, s5) =>
        match evaluate_template_block im fuel body s5 with
        | none => none
        | some (.ok (.template (.block items)), s6) =>
          let s7 : EvalState := { s6 with info := old }
          if errs = [] then some (.ok (.template (.component nameStr node items)), s7)
          else some (.err errs, s7)
        | some (.ok _, _) => none
        | some (f, s6) => some (f, s6)

/-- `evaluate_visibility` (lines 1279–1303): outside a noded component the
single "has no node" diagnostic; otherwise the expression must be a code
value of result type `bool`, yielding `TemplateValue::Visibility` carrying
its RPN stream. -/
def evaluate_visibility (im : ItemMap) : Nat → Expression → EvalState → Option (EvalFlow × EvalState)
  | 0, _, _ => none
  | fuel + 1, e, s =>
    if s.info.is_in_component ∧ s.info.component_has_node then
      match evaluate_as_code im fuel e ("visibility condition must be of type `code`") s with
      | none => none
      | some (.error ds, s1) => some (.err ds, s1)
      | some (.ok c, s1) =>
        if c.1 = RuntimeType.bool then some (.ok (.template (.visibility c.2)), s1)
        else some (.err [visibilityNotBoolDiag c.1 e.range], s1)
    else some (.err [visibilityNoNodeDiag e.range], s)

/-- `evaluate_format` (lines 1421–1483): a missing first argument, a
non-string first argument and a brace-count/argument-count mismatch are
their own diagnostics; otherwise each further argument is evaluated (its
`?` propagates non-`Ok` flows), must be a string, number or boolean, and its
textual form replaces the leftmost remaining brace pair. -/
def evaluate_format (im : ItemMap) : Nat → SrcRange → List Expression → EvalState → Option (EvalFlow × EvalState)
  | 0, _, _, _ => none
  | fuel + 1, loc, args, s =>
    match args with
    | [] => some (.err [missingFormatStringDiag loc], s)
    | arg0 :: rest =>
      match evaluate_expression im fuel arg0 s with
      | none => none
      | some (.ok (.string fstr), s1) =>
        let arity := countBraces fstr
        if arity = rest.length then
          match evaluate_format_args im fuel rest fstr [] s1 with
          | none => none
          | some (.early f s2) => some (f, s2)
          | some (.done out errs s2) =>
            if errs = [] then some (.ok (.string out), s2) else some (.err errs, s2)
        else some (.err [formatArityDiag arity rest.length loc], s1)
      | some (.ok v, s1) => some (.err [formatStringNotStrDiag v loc], s1)
      | some (f, s1) => some (f, s1)

/-- The argument loop of `evaluate_format`. -/
def evaluate_format_args (im : ItemMap) : Nat → List Expression → String → List Diagnostic → EvalState → Option FormatLoopRes
  | 0, _, _, _, _ => none
  | _ + 1, [], out, errs, s => some (.done out errs s)
  | fuel + 1, e :: rest, out, errs, s =>
    match evaluate_expression im fuel e s with
    | none => none
    | some (.ok v, s1) =>
      match v with
      | .string str => evaluate_format_args im fuel rest (replaceBraces out str) errs s1
      | .number n => evaluate_format_args im fuel rest (replaceBraces out (toString n)) errs s1
      | .boolean b => evaluate_format_args im fuel rest (replaceBraces out (if b then "true" else "false")) errs s1
      | _ => evaluate_format_args im fuel rest out (errs ++ [formatNonPrimitiveDiag v e.range]) s1
    | some (f, s1) => some (.early f s1)

end

/-!  ## Resolver item insertion (`Resolver::add_items` in `resolve.rs`)  -/

/-- `ResolvedType`: a type name resolves to an enum or a struct. -/
inductive ResolvedType where
  | enumRT (id : EnumId)
  | structRT (id : Nat)
deriving DecidableEq, Repr

/-- One item of a secondary file, as matched by `add_items` (`ItemType`):
enums, structs and templates are referenced by id into the item map;
functions carry their name identifier directly. -/
inductive ItemR where
  | enumItem (id : Nat)
  | structItem (id : Nat)
  | templateItem (id : Nat)
  | functionItem (name : String) (nameRange : SrcRange) (id : Nat)
deriving DecidableEq, Repr

/-- The mutable state of `Resolver` relevant to `add_items`: the three
name-to-id tables (separate namespaces for types, templates and
functions), the enum-variant table, and the diagnostics sink.  The
`HashMap`s are modelled as association lists with first-match lookup. -/
structure ResolverState where
  types : List (List String × ResolvedType)
  templates : List (List String × Nat)
  functions : List (List String × Nat)
  enumVariants : List (List String × (EnumId × Nat))
  diagnostics : List Diagnostic

/-- First-match association lookup (`HashMap::get`). -/
def alistLookup {α : Type} (m : List (List String × α)) (k : List String) : Option α :=
  match m with
  | [] => none
  | (k2, v) :: rest => if k2 = k then some v else alistLookup rest k

/-- The "type redeclaration" diagnostic (one primary label only). -/
def typeRedeclarationDiag (r : SrcRange) : Diagnostic :=
  (Diagnostic.new .error ("type redeclaration")).add_label
    (Label.primary ("a type with the same name is already in scope") r)

/-- The "template redefinition" diagnostic: a primary label at the new
declaration and a secondary label at the previous declaration. -/
def templateRedefinitionDiag (newRange prevRange : SrcRange) : Diagnostic :=
  ((Diagnostic.new .error ("template redefinition")).add_label
    (Label.primary ("a template with the same name is already in scope") newRange)).add_label
    (Label.secondary ("template previously defined here") prevRange)

/-- The "function redefinition" diagnostic (one primary label only). -/
def functionRedefinitionDiag (r : SrcRange) : Diagnostic :=
  (Diagnostic.new .error ("function redefinition")).add_label
    (Label.primary ("a function with the same name is already in scope") r)

/-- One iteration of the `add_items` loop (lines 144–232): check the item's
name (under the path prefix) against the table of its own kind; on
collision record the kind's redeclaration diagnostic and skip the
insertion; otherwise insert.  Enum variants are inserted unconditionally
(`HashMap::insert`, modelled by prepending, which shadows older entries on
lookup).  Out-of-range item-map ids model the `get_enum`/`get_struct`/
`get_template` panics. -/
def addItem (im : ItemMap) (st : ResolverState) (path : List String) : ItemR → Option ResolverState
  | .enumItem e =>
    match im.enums.get? e with
    | none => none
    | some en =>
      let path2 := path ++ [en.name]
      let st1 :=
        if (alistLookup st.types path2).isSome then
          { st with diagnostics := st.diagnostics ++ [typeRedeclarationDiag en.nameRange] }
        else
          { st with types := (path2, ResolvedType.enumRT (.user e)) :: st.types }
      some { st1 with
             enumVariants :=
               (en.variants.map (fun v => (path2 ++ [v.name], (EnumId.user e, v.value)))).reverse
                 ++ st1.enumVariants }
  | .structItem sid =>
    match im.structs.get? sid with
    | none => none
    | some stDecl =>
      let path2 := path ++ [stDecl.name]
      if (alistLookup st.types path2).isSome then
        some { st with diagnostics := st.diagnostics ++ [typeRedeclarationDiag stDecl.nameRange] }
      else
        some { st with types := (path2, ResolvedType.structRT sid) :: st.types }
  | .templateItem t =>
    match im.get_template t with
    | none => none
    | some te =>
      let path2 := path ++ [te.name]
      match alistLookup st.templates path2 with
      | some prev =>
        match im.get_template prev with
        | none => none
        | some prevT =>
          some { st with
                 diagnostics := st.diagnostics ++ [templateRedefinitionDiag te.nameRange prevT.nameRange] }
      | none => some { st with templates := (path2, t) :: st.templates }
  | .functionItem name nameRange fid =>
    let path2 := path ++ [name]
    if (alistLookup st.functions path2).isSome then
      some { st with diagnostics := st.diagnostics ++ [functionRedefinitionDiag nameRange] }
    else
      some { st with functions := (path2, fid) :: st.functions }

/-- `add_items`: fold `addItem` over the item list of a secondary file. -/
def addItems (im : ItemMap) (st : ResolverState) (path : List String) : List ItemR → Option ResolverState
  | [] => some st
  | item :: rest =>
    match addItem im st path item with
    | none => none
    | some st1 => addItems im st1 path rest

/-!  ## Auxiliary definitions for the claim statements  -/

/-- An item map with no declarations. -/
def emptyItemMap : ItemMap := ⟨[], [], [], []⟩

/-- The evaluator's initial state: a fresh call stack and cleared context
flags (`ExpressionEvaluator::new`). -/
def initState : EvalState := ⟨CallStack.new, ⟨false, false⟩⟩

/-- Number of scopes in the top call frame. -/
def topScopesOf (s : EvalState) : Nat := (s.stack.headD []).length

/-- The textual form a value takes inside `format` output: strings
verbatim, numbers and booleans via their display form, nothing else. -/
def primText : Value → Option String
  | .string s => some s
  | .number n => some (toString n)
  | .boolean b => some (if b then "true" else "false")
  | _ => none

/-- A run of switch cases none of whose values (evaluated in order,
threading the state) equals the discriminant. -/
inductive NoMatchSeq (im : ItemMap) : Nat → Value → List Case → EvalState → EvalState → Prop where
  | nil (n : Nat) (v : Value) (s : EvalState) : NoMatchSeq im n v [] s s
  | cons (n : Nat) (v : Value) (c : Case) (rest : List Case) (s s1 s2 : EvalState) (v2 : Value)
      (heval : evaluate_expression im n c.value s = some (.ok v2, s1))
      (hne : valueEq v v2 = false)
      (hrest : NoMatchSeq im n v rest s1 s2) :
      NoMatchSeq im (n + 1) v (c :: rest) s s2

/-- A run of `format` arguments that all evaluate to primitive values,
folding each one's textual form into the format string by replacing its
leftmost brace pair. -/
inductive PrimSeq (im : ItemMap) : Nat → List Expression → String → EvalState → String → EvalState → Prop where
  | nil (n : Nat) (out : String) (s : EvalState) : PrimSeq im n [] out s out s
  | cons (n : Nat) (e : Expression) (rest : List Expression) (out : String) (s : EvalState)
      (v : Value) (str : String) (s1 : EvalState) (out2 : String) (s2 : EvalState)
      (heval : evaluate_expression im n e s = some (.ok v, s1))
      (hprim : primText v = some str)
      (hrest : PrimSeq im n rest (replaceBraces out str) s1 out2 s2) :
      PrimSeq im (n + 1) (e :: rest) out s out2 s2

/-- A literal of one of the three primitive types, for stating the array
claim over arbitrary literal element lists. -/
inductive Lit where
  | numL (n : Int)
  | strL (s : String)
  | boolL (b : Bool)
deriving DecidableEq, Repr

/-- The literal as an expression at a given range. -/
def Lit.toExpr : Lit → SrcRange → Expression
  | .numL n, r => .numberE n r
  | .strL s, r => .stringE s r
  | .boolL b, r => .booleanE b r

/-- The literal's value. -/
def Lit.val : Lit → Value
  | .numL n => .number n
  | .strL s => .string s
  | .boolL b => .boolean b

/-- The literal's runtime type. -/
def Lit.rty (l : Lit) : RuntimeType := l.val.getType

/-!  ## Stack-balance predicates (claim C2)

Each predicate states, for one evaluator function at one fuel, that a run
from a stack `f :: t` ends in a stack `f2 :: t` with the same frames below
the top (so every call frame pushed during the run was popped again and
frames other than the top one are untouched), that the top frame never has
more scopes popped than were pushed (its scope count never decreases), and
that error outcomes carry at least one diagnostic. -/

/-- Frames below the top restored exactly; the top frame's scope count
never decreased. -/
def StackLe (t : List Frame) (f : Frame) (s2 : EvalState) : Prop :=
  ∃ f2, s2.stack = f2 :: t ∧ f.length ≤ f2.length

/-- `StackLe` together with nonemptiness of error diagnostics. -/
def StackOk (t : List Frame) (f : Frame) (r : EvalFlow) (s2 : EvalState) : Prop :=
  StackLe t f s2 ∧ (∀ ds, r = EvalFlow.err ds → ds ≠ [])

/-- Balance of `evaluate_expression`. -/
def BalExpr (im : ItemMap) (n : Nat) : Prop :=
  ∀ e s f t r s2, s.stack = f :: t → evaluate_expression im n e s = some (r, s2) → StackOk t f r s2

/-- Balance of `evaluate_block`. -/
def BalBlock (im : ItemMap) (n : Nat) : Prop :=
  ∀ b s f t r s2, s.stack = f :: t → evaluate_block im n b s = some (r, s2) → StackOk t f r s2

/-- Balance of the `evaluate_block` statement loop. -/
def BalBlockStmts (im : ItemMap) (n : Nat) : Prop :=
  ∀ stmts errs s f t res, s.stack = f :: t → evaluate_block_stmts im n stmts errs s = some res →
    (∀ fl s2, res = StmtLoopRes.early fl s2 → StackOk t f fl s2)
    ∧ (∀ errs2 s2, res = StmtLoopRes.done errs2 s2 → StackLe t f s2)

/-- Balance of `evaluate_template_block`. -/
def BalTplBlock (im : ItemMap) (n : Nat) : Prop :=
  ∀ stmts s f t r s2, s.stack = f :: t → evaluate_template_block im n stmts s = some (r, s2) → StackOk t f r s2

/-- Balance of the `evaluate_template_block` statement loop. -/
def BalTplStmts (im : ItemMap) (n : Nat) : Prop :=
  ∀ stmts errs values s f t res, s.stack = f :: t → evaluate_tpl_stmts im n stmts errs values s = some res →
    (∀ fl s2, res = TplLoopRes.early fl s2 → StackOk t f fl s2)
    ∧ (∀ errs2 values2 s2, res = TplLoopRes.done errs2 values2 s2 → StackLe t f s2)

/-- Balance of `evaluate_array`. -/
def BalArray (im : ItemMap) (n : Nat) : Prop :=
  ∀ values s f t r s2, s.stack = f :: t → evaluate_array im n values s = some (r, s2) → StackOk t f r s2

/-- Balance of the element pass of `evaluate_array`. -/
def BalArrayElems (im : ItemMap) (n : Nat) : Prop :=
  ∀ es s f t pairs s2, s.stack = f :: t → evaluate_array_elems im n es s = some (pairs, s2) →
    StackLe t f s2 ∧ (∀ p ∈ pairs, ∀ ds, p.2 = EvalFlow.err ds → ds ≠ [])

/-- Balance of the `evaluate_switch` case loop. -/
def BalSwitchCases (im : ItemMap) (n : Nat) : Prop :=
  ∀ v cases s f t r s2, s.stack = f :: t → evaluate_switch_cases im n v cases s = some (r, s2) → StackOk t f r s2

/-- Balance of `evaluate_call`. -/
def BalCall (im : ItemMap) (n : Nat) : Prop :=
  ∀ callee args s f t r s2, s.stack = f :: t → evaluate_call im n callee args s = some (r, s2) → StackOk t f r s2

/-- Balance of the `evaluate_call` argument loop. -/
def BalCallArgs (im : ItemMap) (n : Nat) : Prop :=
  ∀ es s f t vals errs s2, s.stack = f :: t → evaluate_call_args im n es s = some (vals, errs, s2) →
    StackLe t f s2

/-- Balance of the user-function branch of `evaluate_call`. -/
def BalUserCall (im : ItemMap) (n : Nat) : Prop :=
  ∀ fl argEs vals errs s f t r s2, s.stack = f :: t →
    evaluate_user_call im n fl argEs vals errs s = some (r, s2) → StackOk t f r s2

/-- Balance of `evaluate_use`. -/
def BalUse (im : ItemMap) (n : Nat) : Prop :=
  ∀ tid uargs s f t r s2, s.stack = f :: t → evaluate_use im n tid uargs s = some (r, s2) → StackOk t f r s2

/-- Balance of the provided-argument loop of `evaluate_use`. -/
def BalUseArgs (im : ItemMap) (n : Nat) : Prop :=
  ∀ tpl uargs argsMap errs s f t args2 errs2 s2, s.stack = f :: t →
    evaluate_use_args im n tpl uargs argsMap errs s = some (args2, errs2, s2) → StackLe t f s2

/-- Balance of the defaults loop of `evaluate_use`. -/
def BalUseDefaults (im : ItemMap) (n : Nat) : Prop :=
  ∀ params argsMap errs s f t res, s.stack = f :: t →
    evaluate_use_defaults im n params argsMap errs s = some res →
    (∀ fl s2, res = UseLoopRes.early fl s2 → StackOk t f fl s2)
    ∧ (∀ args2 errs2 s2, res = UseLoopRes.done args2 errs2 s2 → StackLe t f s2)

/-- Balance of the accumulating string form of the `evaluate!` macro. -/
def BalAsString (im : ItemMap) (n : Nat) : Prop :=
  ∀ e msg s f t str ds s2, s.stack = f :: t →
    evaluate_as_string_acc im n e msg s = some (str, ds, s2) → StackLe t f s2

/-- Balance of the `Result` code form of the `evaluate!` macro. -/
def BalAsCode (im : ItemMap) (n : Nat) : Prop :=
  ∀ e msg s f t res s2, s.stack = f :: t →
    evaluate_as_code im n e msg s = some (res, s2) →
    StackLe t f s2 ∧ (∀ ds, res = Except.error ds → ds ≠ [])

/-- Balance of `evaluate_component`. -/
def BalComponent (im : ItemMap) (n : Nat) : Prop :=
  ∀ nameE nodeE body s f t r s2, s.stack = f :: t →
    evaluate_component im n nameE nodeE body s = some (r, s2) → StackOk t f r s2

/-- Balance of `evaluate_visibility`. -/
def BalVisibility (im : ItemMap) (n : Nat) : Prop :=
  ∀ e s f t r s2, s.stack = f :: t → evaluate_visibility im n e s = some (r, s2) → StackOk t f r s2

/-- Balance of `evaluate_format`. -/
def BalFormat (im : ItemMap) (n : Nat) : Prop :=
  ∀ loc args s f t r s2, s.stack = f :: t → evaluate_format im n loc args s = some (r, s2) → StackOk t f r s2

/-- Balance of the argument loop of `evaluate_format`. -/
def BalFormatArgs (im : ItemMap) (n : Nat) : Prop :=
  ∀ es out errs s f t res, s.stack = f :: t →
    evaluate_format_args im n es out errs s = some res →
    (∀ fl s2, res = FormatLoopRes.early fl s2 → StackOk t f fl s2)
    ∧ (∀ out2 errs2 s2, res = FormatLoopRes.done out2 errs2 s2 → StackLe t f s2)

/-- All balance predicates at one fuel. -/
structure BalAll (im : ItemMap) (n : Nat) : Prop where
  expr : BalExpr im n
  block : BalBlock im n
  blockStmts : BalBlockStmts im n
  tplBlock : BalTplBlock im n
  tplStmts : BalTplStmts im n
  array : BalArray im n
  arrayElems : BalArrayElems im n
  switchCases : BalSwitchCases im n
  call : BalCall im n
  callArgs : BalCallArgs im n
  userCall : BalUserCall im n
  use : BalUse im n
  useArgs : BalUseArgs im n
  useDefaults : BalUseDefaults im n
  asString : BalAsString im n
  asCode : BalAsCode im n
  component : BalComponent im n
  visibility : BalVisibility im n
  format : BalFormat im n
  formatArgs : BalFormatArgs im n

/-!  ## Theorems about the XML writer (claims C1, C9, C10)  -/

/-- Stepping the escape iterator through the `&lt;` entity. -/
theorem escapeRun_lessThan (f : Nat) (cs : List Char) :
    escapeRun (f + 3) (.lessThan 0) cs
      = (escapeRun f .normal cs).map (fun out => ('l' : Char) :: ('t' : Char) :: (';' : Char) :: out) := by
  cases h : escapeRun f EscapeMode.normal cs <;> simp [escapeRun, escapeNext, h]

/-- Stepping the escape iterator through the `&gt;` entity. -/
theorem escapeRun_greaterThan (f : Nat) (cs : List Char) :
    escapeRun (f + 3) (.greaterThan 0) cs
      = (escapeRun f .normal cs).map (fun out => ('g' : Char) :: ('t' : Char) :: (';' : Char) :: out) := by
  cases h : escapeRun f EscapeMode.normal cs <;> simp [escapeRun, escapeNext, h]

/-- Stepping the escape iterator through the `&amp;` entity. -/
theorem escapeRun_ampersand (f : Nat) (cs : List Char) :
    escapeRun (f + 4) (.ampersand 0) cs
      = (escapeRun f .normal cs).map (fun out => ('a' : Char) :: ('m' : Char) :: ('p' : Char) :: (';' : Char) :: out) := by
  cases h : escapeRun f EscapeMode.normal cs <;> simp [escapeRun, escapeNext, h]

/-- Stepping the escape iterator through the `&quot;` entity. -/
theorem escapeRun_quote (f : Nat) (cs : List Char) :
    escapeRun (f + 5) (.quote 0) cs
      = (escapeRun f .normal cs).map (fun out => ('q' : Char) :: ('u' : Char) :: ('o' : Char) :: ('t' : Char) :: (';' : Char) :: out) := by
  cases h : escapeRun f EscapeMode.normal cs <;> simp [escapeRun, escapeNext, h]

/-- The escape iterator computes exactly the per-character map `escChar`
over its input (with any sufficient fuel). -/
theorem escapeRun_normal_eq_escapeList :
    ∀ (cs : List Char) (fuel : Nat), 6 * cs.length + 1 ≤ fuel →
      escapeRun fuel EscapeMode.normal cs = some (escapeList cs) := by
  intro cs
  induction cs with
  | nil =>
    intro fuel h
    obtain ⟨f, rfl⟩ : ∃ f, fuel = f + 1 := ⟨fuel - 1, by omega⟩
    simp [escapeRun, escapeNext, escapeList]
  | cons c cs ih =>
    intro fuel h
    simp only [List.length_cons] at h
    by_cases h1 : c = ('<' : Char)
    · subst h1
      obtain ⟨f, rfl⟩ : ∃ f, fuel = (f + 3) + 1 := ⟨fuel - 4, by omega⟩
      have step : escapeRun ((f + 3) + 1) EscapeMode.normal (('<' : Char) :: cs)
          = (escapeRun (f + 3) (.lessThan 0) cs).map (fun out => ('&' : Char) :: out) := by
        simp [escapeRun, escapeNext]
      rw [step, escapeRun_lessThan, ih f (by omega)]
      simp [escapeList, escChar]
    · by_cases h2 : c = ('>' : Char)
      · subst h2
        obtain ⟨f, rfl⟩ : ∃ f, fuel = (f + 3) + 1 := ⟨fuel - 4, by omega⟩
        have step : escapeRun ((f + 3) + 1) EscapeMode.normal (('>' : Char) :: cs)
            = (escapeRun (f + 3) (.greaterThan 0) cs).map (fun out => ('&' : Char) :: out) := by
          simp [escapeRun, escapeNext]
        rw [step, escapeRun_greaterThan, ih f (by omega)]
        simp [escapeList, escChar]
      · by_cases h3 : c = ('&' : Char)
        · subst h3
          obtain ⟨f, rfl⟩ : ∃ f, fuel = (f + 4) + 1 := ⟨fuel - 5, by omega⟩
          have step : escapeRun ((f + 4) + 1) EscapeMode.normal (('&' : Char) :: cs)
              = (escapeRun (f + 4) (.ampersand 0) cs).map (fun out => ('&' : Char) :: out) := by
            simp [escapeRun, escapeNext]
          rw [step, escapeRun_ampersand, ih f (by omega)]
          simp [escapeList, escChar]
        · by_cases h4 : c = ('"' : Char)
          · subst h4
            obtain ⟨f, rfl⟩ : ∃ f, fuel = (f + 5) + 1 := ⟨fuel - 6, by omega⟩
            have step : escapeRun ((f + 5) + 1) EscapeMode.normal (('"' : Char) :: cs)
                = (escapeRun (f + 5) (.quote 0) cs).map (fun out => ('&' : Char) :: out) := by
              simp [escapeRun, escapeNext]
            rw [step, escapeRun_quote, ih f (by omega)]
            simp [escapeList, escChar]
          · obtain ⟨f, rfl⟩ : ∃ f, fuel = f + 1 := ⟨fuel - 1, by omega⟩
            have step : escapeRun (f + 1) EscapeMode.normal (c :: cs)
                = (escapeRun f (.normal) cs).map (fun out => c :: out) := by
              simp [escapeRun, escapeNext, h1, h2, h3, h4]
            rw [step, ih f (by omega)]
            simp [escapeList, escChar, h1, h2, h3, h4]

/-- Claim C9 (confirmed): every string written as an element name,
attribute name or attribute value is escaped character-by-character — the
escape iterator computes exactly the map sending `<` to `&lt;`, `>` to
`&gt;`, `&` to `&amp;`, `"` to `&quot;` and leaving every other character
unchanged — while text written via `data()` is emitted unescaped; in
particular `element("node", [("name", "a<b&c")])` emits
`<node name="a&lt;b&amp;c"/>` (after the current indent). -/
theorem c9_xml_escaping :
    (∀ (cs : List Char) (fuel : Nat), 6 * cs.length + 1 ≤ fuel →
      escapeRun fuel EscapeMode.normal cs = some (escapeList cs))
    ∧ escChar ('<' : Char) = ("&lt;").data
    ∧ escChar ('>' : Char) = ("&gt;").data
    ∧ escChar ('&' : Char) = ("&amp;").data
    ∧ escChar ('"' : Char) = ("&quot;").data
    ∧ (∀ c : Char, c ≠ ('<' : Char) → c ≠ ('>' : Char) → c ≠ ('&' : Char) → c ≠ ('"' : Char) →
        escChar c = [c])
    ∧ (∀ (w : XMLWriter) (text : String),
        (w.write_data text).data = w.data ++ (indentStr w.indent ++ (text ++ "\n")))
    ∧ (∀ w : XMLWriter,
        (w.element ("node") [(("name"), ("a<b&c"))]).data
          = w.data ++ (indentStr w.indent ++ "<node name=\"a&lt;b&amp;c\"/>\n")) := by
  refine ⟨escapeRun_normal_eq_escapeList, by decide, by decide, by decide, by decide, ?_, ?_, ?_⟩
  · intro c h1 h2 h3 h4
    simp [escChar, h1, h2, h3, h4]
  · intro w text
    simp [XMLWriter.write_data, String.append_assoc]
  · intro w
    simp only [XMLWriter.element, String.append_assoc]
    congr 2

/-- Witness for C9: the iterator on `"a<b&c"` and an unescaped character. -/
theorem c9_xml_escaping_witness :
    escapeRun 31 EscapeMode.normal (("a<b&c").data) = some (escapeList (("a<b&c").data))
    ∧ escChar ('x' : Char) = [('x' : Char)] :=
  ⟨c9_xml_escaping.1 (("a<b&c").data) 31 (by decide),
   c9_xml_escaping.2.2.2.2.2.1 ('x' : Char) (by decide) (by decide) (by decide) (by decide)⟩

/-- Balance of opens and closes along any successful trace. -/
theorem runOps_counts :
    ∀ (ops : List XMLOp) (w w2 : XMLWriter), runOps w ops = some w2 →
      w2.elementStack.length + countEnds ops = w.elementStack.length + countStarts ops := by
  intro ops
  induction ops with
  | nil =>
    intro w w2 h
    simp [runOps] at h
    subst h
    simp [countEnds, countStarts]
  | cons op rest ih =>
    intro w w2 h
    cases op with
    | startEl name =>
      simp only [runOps, applyOp] at h
      have := ih _ _ h
      simp [countEnds, countStarts, List.countP_cons, XMLWriter.start_element] at this ⊢
      omega
    | startElAttrib name attrs =>
      simp only [runOps, applyOp] at h
      have := ih _ _ h
      simp [countEnds, countStarts, List.countP_cons, XMLWriter.start_element_attrib] at this ⊢
      omega
    | elementOp name attrs =>
      simp only [runOps, applyOp] at h
      have := ih _ _ h
      simp [countEnds, countStarts, List.countP_cons, XMLWriter.element] at this ⊢
      omega
    | dataOp text =>
      simp only [runOps, applyOp] at h
      have := ih _ _ h
      simp [countEnds, countStarts, List.countP_cons, XMLWriter.write_data] at this ⊢
      omega
    | endEl =>
      cases hstk : w.elementStack with
      | nil =>
        simp [runOps, applyOp, XMLWriter.end_element, hstk] at h
      | cons name restStk =>
        simp only [runOps, applyOp, XMLWriter.end_element, hstk] at h
        have := ih _ _ h
        simp [countEnds, countStarts, List.countP_cons, hstk] at this ⊢
        omega

/-- Claim C10 (confirmed): along any defined trace from `start`, the open
count minus the close count equals the element-stack depth; when the prior
closes are strictly fewer than the prior opens, `end_element` succeeds,
popping the most recently opened name and emitting its matching closer;
and on an empty element stack `end_element` panics (`none`) instead of
returning an error. -/
theorem c10_end_element_safety :
    (∀ (guid : String) (ops : List XMLOp) (w : XMLWriter),
      runOps (XMLWriter.start guid) ops = some w →
      w.elementStack.length + countEnds ops = countStarts ops
      ∧ (countEnds ops < countStarts ops →
          ∃ name rest, w.elementStack = name :: rest
            ∧ w.end_element = some { data := w.data ++ indentStr (w.indent - 1) ++ "</" ++ name ++ ">\n",
                                     indent := w.indent - 1, elementStack := rest }))
    ∧ (∀ w : XMLWriter, w.elementStack = [] → w.end_element = none) := by
  constructor
  · intro guid ops w h
    have hc := runOps_counts ops (XMLWriter.start guid) w h
    simp [XMLWriter.start] at hc
    refine ⟨hc, ?_⟩
    intro hlt
    have hpos : 0 < w.elementStack.length := by omega
    cases hstk : w.elementStack with
    | nil => rw [hstk] at hpos; simp at hpos
    | cons name rest => exact ⟨name, rest, rfl, by simp [XMLWriter.end_element, hstk]⟩
  · intro w h
    simp [XMLWriter.end_element, h]

/-- Witness for C10: after one `start_element`, `end_element` succeeds and
emits the matching closer. -/
theorem c10_end_element_safety_witness :
    ∃ name rest,
      ((XMLWriter.start ("g")).start_element ("a")).elementStack = name :: rest
      ∧ ((XMLWriter.start ("g")).start_element ("a")).end_element
          = some { data := ((XMLWriter.start ("g")).start_element ("a")).data
                     ++ indentStr (((XMLWriter.start ("g")).start_element ("a")).indent - 1)
                     ++ "</" ++ name ++ ">\n",
                   indent := ((XMLWriter.start ("g")).start_element ("a")).indent - 1,
                   elementStack := rest } :=
  (c10_end_element_safety.1 ("g") [XMLOp.startEl ("a")]
    ((XMLWriter.start ("g")).start_element ("a")) rfl).2 (by decide)

/-- For a fixed trace of operations, two writers agreeing on indent and
element stack append the same data suffix and end in agreeing states: the
output after the header depends only on the emitted elements. -/
theorem runOps_data_suffix :
    ∀ (ops : List XMLOp) (wA wB : XMLWriter),
      wA.indent = wB.indent → wA.elementStack = wB.elementStack →
      ∀ w2A, runOps wA ops = some w2A →
      ∃ w2B, runOps wB ops = some w2B ∧ w2A.indent = w2B.indent
        ∧ w2A.elementStack = w2B.elementStack
        ∧ ∃ t, w2A.data = wA.data ++ t ∧ w2B.data = wB.data ++ t := by
  intro ops
  induction ops with
  | nil =>
    intro wA wB hi hs w2A h
    simp [runOps] at h
    subst h
    exact ⟨wB, by simp [runOps], hi, hs, "", by simp, by simp⟩
  | cons op rest ih =>
    intro wA wB hi hs w2A h
    cases op with
    | startEl name =>
      simp only [runOps, applyOp] at h
      obtain ⟨w2B, hrunB, hind, hstk2, t2, hA, hB⟩ :=
        ih (wA.start_element name) (wB.start_element name)
          (by simp [XMLWriter.start_element, hi]) (by simp [XMLWriter.start_element, hs]) w2A h
      refine ⟨w2B, by simpa [runOps, applyOp] using hrunB, hind, hstk2,
        indentStr wA.indent ++ ("<" ++ (escape name ++ (">\n" ++ t2))), ?_, ?_⟩
      · simp only [XMLWriter.start_element] at hA
        simp [hA, String.append_assoc]
      · simp only [XMLWriter.start_element] at hB
        rw [hB]
        simp [String.append_assoc, hi]
    | startElAttrib name attrs =>
      simp only [runOps, applyOp] at h
      obtain ⟨w2B, hrunB, hind, hstk2, t2, hA, hB⟩ :=
        ih (wA.start_element_attrib name attrs) (wB.start_element_attrib name attrs)
          (by simp [XMLWriter.start_element_attrib, hi]) (by simp [XMLWriter.start_element_attrib, hs]) w2A h
      refine ⟨w2B, by simpa [runOps, applyOp] using hrunB, hind, hstk2,
        indentStr wA.indent ++ ("<" ++ (escape name ++ (attribsText attrs ++ (">\n" ++ t2)))), ?_, ?_⟩
      · simp only [XMLWriter.start_element_attrib] at hA
        simp [hA, String.append_assoc]
      · simp only [XMLWriter.start_element_attrib] at hB
        rw [hB]
        simp [String.append_assoc, hi]
    | elementOp name attrs =>
      simp only [runOps, applyOp] at h
      obtain ⟨w2B, hrunB, hind, hstk2, t2, hA, hB⟩ :=
        ih (wA.element name attrs) (wB.element name attrs)
          (by simp [XMLWriter.element, hi]) (by simp [XMLWriter.element, hs]) w2A h
      refine ⟨w2B, by simpa [runOps, applyOp] using hrunB, hind, hstk2,
        indentStr wA.indent ++ ("<" ++ (escape name ++ (attribsText attrs ++ ("/>\n" ++ t2)))), ?_, ?_⟩
      · simp only [XMLWriter.element] at hA
        simp [hA, String.append_assoc]
      · simp only [XMLWriter.element] at hB
        rw [hB]
        simp [String.append_assoc, hi]
    | dataOp text =>
      simp only [runOps, applyOp] at h
      obtain ⟨w2B, hrunB, hind, hstk2, t2, hA, hB⟩ :=
        ih (wA.write_data text) (wB.write_data text)
          (by simp [XMLWriter.write_data, hi]) (by simp [XMLWriter.write_data, hs]) w2A h
      refine ⟨w2B, by simpa [runOps, applyOp] using hrunB, hind, hstk2,
        indentStr wA.indent ++ (text ++ ("\n" ++ t2)), ?_, ?_⟩
      · simp only [XMLWriter.write_data] at hA
        simp [hA, String.append_assoc]
      · simp only [XMLWriter.write_data] at hB
        rw [hB]
        simp [String.append_assoc, hi]
    | endEl =>
      cases hstk : wA.elementStack with
      | nil =>
        simp [runOps, applyOp, XMLWriter.end_element, hstk] at h
      | cons name restStk =>
        have hstkB : wB.elementStack = name :: restStk := by rw [← hs, hstk]
        simp only [runOps, applyOp, XMLWriter.end_element, hstk, hstkB] at h
        obtain ⟨w2B, hrunB, hind, hstk2, t2, hA, hB⟩ :=
          ih ⟨wA.data ++ indentStr (wA.indent - 1) ++ "</" ++ name ++ ">\n", wA.indent - 1, restStk⟩
            ⟨wB.data ++ indentStr (wB.indent - 1) ++ "</" ++ name ++ ">\n", wB.indent - 1, restStk⟩
            (by simp [hi]) (by simp) w2A h
        refine ⟨w2B, by simpa [runOps, applyOp, XMLWriter.end_element, hstkB] using hrunB, hind, hstk2,
          indentStr (wA.indent - 1) ++ ("</" ++ (name ++ (">\n" ++ t2))), ?_, ?_⟩
        · simp only at hA
          simp [hA, String.append_assoc]
        · simp only at hB
          rw [hB]
          simp [String.append_assoc, hi]

set_option maxRecDepth 10000 in
/-- Claim C1 counterexample: the document produced by `XMLWriter::start`
followed by `end()` is not a function of the emitted elements only — with
no elements emitted at all, two runs whose freshly generated guids differ
produce different documents. -/
theorem c1_counterexample :
    (XMLWriter.start ("00000000-0000-4000-8000-000000000001")).end_doc
      ≠ (XMLWriter.start ("00000000-0000-4000-8000-000000000002")).end_doc := by
  decide

/-- Claim C1 (amended): the pipeline's XML output is a function of the
emitted elements and of the run's freshly generated root guid
(`Uuid::new_v4()` in `start`): the document of `start`/`end()` is exactly
the fixed prologue around the guid, and for a fixed trace of emitted
elements two runs differ at most in the guid segment of the prologue — the
indent, the element stack and the entire data suffix after the prologue
agree. -/
theorem c1_guid_determinism :
    (∀ guid : String,
      (XMLWriter.start guid).end_doc
        = xmlProloguePre ++ (guid ++ (xmlProloguePost ++ "</ModelInfo>\n")))
    ∧ (∀ (ops : List XMLOp) (g1 g2 : String) (w1 : XMLWriter),
        runOps (XMLWriter.start g1) ops = some w1 →
        ∃ w2, runOps (XMLWriter.start g2) ops = some w2
          ∧ w1.indent = w2.indent ∧ w1.elementStack = w2.elementStack
          ∧ ∃ t, w1.data = (XMLWriter.start g1).data ++ t
              ∧ w2.data = (XMLWriter.start g2).data ++ t) := by
  constructor
  · intro guid
    simp [XMLWriter.end_doc, XMLWriter.start, String.append_assoc]
  · intro ops g1 g2 w1 h
    exact runOps_data_suffix ops (XMLWriter.start g1) (XMLWriter.start g2) rfl rfl w1 h

/-- Witness for C1: instantiating the trace determinism at the empty
trace. -/
theorem c1_guid_determinism_witness :
    ∃ w2, runOps (XMLWriter.start ("b")) [] = some w2
      ∧ (XMLWriter.start ("a")).indent = w2.indent
      ∧ (XMLWriter.start ("a")).elementStack = w2.elementStack
      ∧ ∃ t, (XMLWriter.start ("a")).data = (XMLWriter.start ("a")).data ++ t
          ∧ w2.data = (XMLWriter.start ("b")).data ++ t :=
  c1_guid_determinism.2 [] ("a") ("b") (XMLWriter.start ("a")) rfl

/-!  ## Theorems about resolver item insertion (claim C5)  -/

/-- Claim C5 counterexample: inserting two functions named `f`, the second
insertion records a "function redefinition" diagnostic that has a single
primary label at the *new* declaration and no secondary label carrying the
previous declaration's range (the claim asserts one for every kind); the
later declaration is skipped. -/
theorem c5_counterexample :
    addItems ⟨[], [], [], []⟩ ⟨[], [], [], [], []⟩ []
        [ItemR.functionItem ("f") ⟨10, 11⟩ 0, ItemR.functionItem ("f") ⟨20, 21⟩ 1]
      = some ⟨[], [], [([("f" : String)], 0)], [], [functionRedefinitionDiag ⟨20, 21⟩]⟩
    ∧ (functionRedefinitionDiag ⟨20, 21⟩).labels
        = [Label.primary ("a function with the same name is already in scope") ⟨20, 21⟩] := by
  constructor <;> rfl

/-- Claim C5 (amended): every item insertion colliding with an
already-inserted item of the same kind (types, templates and functions
being separate namespaces) records a redeclaration diagnostic and skips the
later declaration, leaving the earlier binding in the table; but only
*template* collisions carry the previous declaration's source range as a
secondary label — enum, struct and function collisions produce a diagnostic
with a single primary label at the new declaration (and a colliding enum
still registers its variants). -/
theorem c5_redeclaration_behaviour :
    (∀ (im : ItemMap) (st : ResolverState) (path : List String)
        (name : String) (r : SrcRange) (fid : Nat),
      (alistLookup st.functions (path ++ [name])).isSome = true →
      addItem im st path (.functionItem name r fid)
        = some { st with diagnostics := st.diagnostics ++ [functionRedefinitionDiag r] })
    ∧ (∀ (im : ItemMap) (st : ResolverState) (path : List String)
        (tid : Nat) (te : TemplateDecl) (prev : Nat) (prevT : TemplateDecl),
      im.get_template tid = some te →
      alistLookup st.templates (path ++ [te.name]) = some prev →
      im.get_template prev = some prevT →
      addItem im st path (.templateItem tid)
        = some { st with diagnostics := st.diagnostics
                   ++ [templateRedefinitionDiag te.nameRange prevT.nameRange] })
    ∧ (∀ (im : ItemMap) (st : ResolverState) (path : List String)
        (sid : Nat) (sd : StructDecl),
      im.structs.get? sid = some sd →
      (alistLookup st.types (path ++ [sd.name])).isSome = true →
      addItem im st path (.structItem sid)
        = some { st with diagnostics := st.diagnostics ++ [typeRedeclarationDiag sd.nameRange] })
    ∧ (∀ (im : ItemMap) (st : ResolverState) (path : List String)
        (eid : Nat) (en : EnumDecl),
      im.enums.get? eid = some en →
      (alistLookup st.types (path ++ [en.name])).isSome = true →
      addItem im st path (.enumItem eid)
        = some { st with
                 diagnostics := st.diagnostics ++ [typeRedeclarationDiag en.nameRange],
                 enumVariants :=
                   (en.variants.map (fun v => (path ++ [en.name] ++ [v.name], (EnumId.user eid, v.value)))).reverse
                     ++ st.enumVariants }) := by
  refine ⟨?_, ?_, ?_, ?_⟩
  · intro im st path name r fid h
    simp [addItem, h]
  · intro im st path tid te prev prevT h1 h2 h3
    simp [addItem, h1, h2, h3]
  · intro im st path sid sd h1 h2
    rw [List.get?_eq_getElem?] at h1
    simp [addItem, h1, h2]
  · intro im st path eid en h1 h2
    rw [List.get?_eq_getElem?] at h1
    simp [addItem, h1, h2]

/-- Witness for C5: a concrete function collision and a concrete template
collision, with both diagnostics spelled out. -/
theorem c5_redeclaration_behaviour_witness :
    addItem ⟨[], [], [], []⟩ ⟨[], [], [([("f" : String)], 0)], [], []⟩ []
        (.functionItem ("f") ⟨5, 6⟩ 3)
      = some ⟨[], [], [([("f" : String)], 0)], [], [functionRedefinitionDiag ⟨5, 6⟩]⟩
    ∧ addItem ⟨[], [⟨("t"), ⟨1, 2⟩, [], []⟩, ⟨("t"), ⟨7, 8⟩, [], []⟩], [], []⟩
        ⟨[], [([("t" : String)], 0)], [], [], []⟩ [] (.templateItem 1)
      = some ⟨[], [([("t" : String)], 0)], [], [],
              [templateRedefinitionDiag ⟨7, 8⟩ ⟨1, 2⟩]⟩ := by
  constructor
  · exact c5_redeclaration_behaviour.1 ⟨[], [], [], []⟩ ⟨[], [], [([("f" : String)], 0)], [], []⟩ []
      ("f") ⟨5, 6⟩ 3 (by rfl)
  · exact c5_redeclaration_behaviour.2.1 ⟨[], [⟨("t"), ⟨1, 2⟩, [], []⟩, ⟨("t"), ⟨7, 8⟩, [], []⟩], [], []⟩
      ⟨[], [([("t" : String)], 0)], [], [], []⟩ [] 1 ⟨("t"), ⟨7, 8⟩, [], []⟩ 0 ⟨("t"), ⟨1, 2⟩, [], []⟩
      (by rfl) (by rfl) (by rfl)

/-!  ## Theorems about visibility expressions (claim C6)  -/

/-- Claim C6 (confirmed): when the "in-component" and "has-node" flags are
not both set, a visibility expression fails with exactly one Error
diagnostic "visibility condition has no node" (and the expression is not
evaluated — the state is unchanged); otherwise the expression's value must
be a code value (else the macro's type diagnostic) whose result type is
`bool` (else the "must result in a `bool`" diagnostic), and the result is
`TemplateValue::Visibility` carrying the code's RPN stream. -/
theorem c6_visibility_discipline :
    (∀ (im : ItemMap) (fuel : Nat) (e : Expression) (s : EvalState),
      ¬ (s.info.is_in_component ∧ s.info.component_has_node) →
      evaluate_visibility im (fuel + 1) e s = some (.err [visibilityNoNodeDiag e.range], s))
    ∧ (∀ (im : ItemMap) (fuel : Nat) (e : Expression) (s s1 : EvalState) (rpn : List String),
      s.info.is_in_component ∧ s.info.component_has_node →
      evaluate_expression im fuel e s = some (.ok (.code .bool rpn), s1) →
      evaluate_visibility im (fuel + 2) e s = some (.ok (.template (.visibility rpn)), s1))
    ∧ (∀ (im : ItemMap) (fuel : Nat) (e : Expression) (s s1 : EvalState) (ty : RuntimeType) (rpn : List String),
      s.info.is_in_component ∧ s.info.component_has_node →
      ty ≠ .bool →
      evaluate_expression im fuel e s = some (.ok (.code ty rpn), s1) →
      evaluate_visibility im (fuel + 2) e s = some (.err [visibilityNotBoolDiag ty e.range], s1))
    ∧ (∀ (im : ItemMap) (fuel : Nat) (e : Expression) (s s1 : EvalState) (v : Value),
      s.info.is_in_component ∧ s.info.component_has_node →
      (∀ ty rpn, v ≠ .code ty rpn) →
      evaluate_expression im fuel e s = some (.ok v, s1) →
      evaluate_visibility im (fuel + 2) e s
        = some (.err [typeMismatchDiag ("visibility condition must be of type `code`") v e.range], s1)) := by
  refine ⟨?_, ?_, ?_, ?_⟩
  · intro im fuel e s h
    simp [evaluate_visibility, h]
  · intro im fuel e s s1 rpn h heval
    simp [evaluate_visibility, h, evaluate_as_code, heval]
  · intro im fuel e s s1 ty rpn h hty heval
    simp [evaluate_visibility, h, evaluate_as_code, heval, hty]
  · intro im fuel e s s1 v h hv heval
    cases v with
    | code ty rpn => exact absurd rfl (hv ty rpn)
    | none => simp [evaluate_visibility, h, evaluate_as_code, heval]
    | number n => simp [evaluate_visibility, h, evaluate_as_code, heval]
    | boolean b => simp [evaluate_visibility, h, evaluate_as_code, heval]
    | string str => simp [evaluate_visibility, h, evaluate_as_code, heval]
    | array ty vs => simp [evaluate_visibility, h, evaluate_as_code, heval]
    | enumValue id val => simp [evaluate_visibility, h, evaluate_as_code, heval]
    | function fv => simp [evaluate_visibility, h, evaluate_as_code, heval]
    | template t => simp [evaluate_visibility, h, evaluate_as_code, heval]

/-- Witness for C6: a top-level visibility (cleared flags) produces the
"has no node" diagnostic; inside a noded component a boolean code value
yields the visibility template value. -/
theorem c6_visibility_discipline_witness :
    evaluate_visibility emptyItemMap 1 (Expression.codeE .bool [("op")] ⟨0, 5⟩) initState
      = some (.err [visibilityNoNodeDiag ⟨0, 5⟩], initState)
    ∧ evaluate_visibility emptyItemMap 3 (Expression.codeE .bool [("op")] ⟨0, 5⟩)
        ⟨CallStack.new, ⟨true, true⟩⟩
      = some (.ok (.template (.visibility [("op")])), ⟨CallStack.new, ⟨true, true⟩⟩) := by
  constructor
  · exact c6_visibility_discipline.1 emptyItemMap 0 (Expression.codeE .bool [("op")] ⟨0, 5⟩)
      initState (by simp [initState])
  · exact c6_visibility_discipline.2.1 emptyItemMap 1 (Expression.codeE .bool [("op")] ⟨0, 5⟩)
      ⟨CallStack.new, ⟨true, true⟩⟩ ⟨CallStack.new, ⟨true, true⟩⟩ [("op")]
      ⟨rfl, rfl⟩ (by rfl)

/-!  ## Theorems about switch expressions (claim C7)  -/

/-- Running the case loop over a prefix of non-matching cases consumes one
fuel per case and threads the state. -/
theorem switch_cases_front (im : ItemMap) :
    ∀ (n : Nat) (v : Value) (pre : List Case) (s s1 : EvalState),
      NoMatchSeq im n v pre s s1 →
      ∀ more, evaluate_switch_cases im n v (pre ++ more) s
        = evaluate_switch_cases im (n - pre.length) v more s1 := by
  intro n v pre s s1 h
  induction h with
  | nil n v s => intro more; simp
  | cons n v c rest s s1 s2 v2 heval hne hrest ih =>
    intro more
    simp only [List.cons_append, List.length_cons]
    rw [show evaluate_switch_cases im (n + 1) v (c :: (rest ++ more)) s
        = evaluate_switch_cases im n v (rest ++ more) s1 from by
      simp [evaluate_switch_cases, heval, hne]]
    rw [ih more]
    congr 1
    omega

/-- A switch evaluates its discriminant once and hands the value to the
case loop. -/
theorem switch_disc_step (im : ItemMap) (n : Nat) (disc : Expression) (cases : List Case)
    (r : SrcRange) (s s1 : EvalState) (v : Value)
    (h : evaluate_expression im n disc s = some (.ok v, s1)) :
    evaluate_expression im (n + 1) (.switchE disc cases r) s
      = evaluate_switch_cases im n v cases s1 := by
  simp [evaluate_expression, h]

/-- A matching case value makes the loop evaluate that case's code. -/
theorem switch_cases_match (im : ItemMap) (k : Nat) (v v2 : Value) (cval code : Expression)
    (rest : List Case) (s1 s2 : EvalState)
    (heval : evaluate_expression im k cval s1 = some (.ok v2, s2))
    (heq : valueEq v v2 = true) :
    evaluate_switch_cases im (k + 1) v (Case.mk cval code :: rest) s1
      = evaluate_expression im k code s2 := by
  simp [evaluate_switch_cases, Case.value, Case.code, heval, heq]

/-- Claim C7 (confirmed): a switch evaluates its discriminant once and then
each case's value expression in source order; the result is the evaluation
of the first case whose value equals the discriminant (no fallthrough, no
default — the remaining cases are never consulted); when no case matches
the result is `Ok(None)`; and a switch whose (first) case's value equals
the discriminant is equivalent to evaluating that case's code directly. -/
theorem c7_switch_semantics :
    (∀ (im : ItemMap) (n : Nat) (disc : Expression) (cases : List Case) (r : SrcRange)
        (s s1 : EvalState) (v : Value),
      evaluate_expression im n disc s = some (.ok v, s1) →
      evaluate_expression im (n + 1) (.switchE disc cases r) s
        = evaluate_switch_cases im n v cases s1)
    ∧ (∀ (im : ItemMap) (n k : Nat) (v v2 : Value) (pre rest : List Case)
        (cval code : Expression) (s s1 s2 : EvalState),
      NoMatchSeq im n v pre s s1 →
      n - pre.length = k + 1 →
      evaluate_expression im k cval s1 = some (.ok v2, s2) →
      valueEq v v2 = true →
      evaluate_switch_cases im n v (pre ++ Case.mk cval code :: rest) s
        = evaluate_expression im k code s2)
    ∧ (∀ (im : ItemMap) (n : Nat) (v : Value) (cases : List Case) (s s2 : EvalState),
      NoMatchSeq im n v cases s s2 →
      cases.length < n →
      evaluate_switch_cases im n v cases s = some (.ok .none, s2))
    ∧ (∀ (im : ItemMap) (n : Nat) (disc cval code : Expression) (rest : List Case)
        (r : SrcRange) (s s1 s2 : EvalState) (v v2 : Value),
      evaluate_expression im (n + 1) disc s = some (.ok v, s1) →
      evaluate_expression im n cval s1 = some (.ok v2, s2) →
      valueEq v v2 = true →
      evaluate_expression im (n + 2) (.switchE disc (Case.mk cval code :: rest) r) s
        = evaluate_expression im n code s2) := by
  refine ⟨switch_disc_step, ?_, ?_, ?_⟩
  · intro im n k v v2 pre rest cval code s s1 s2 hpre hk heval heq
    rw [switch_cases_front im n v pre s s1 hpre, hk]
    exact switch_cases_match im k v v2 cval code rest s1 s2 heval heq
  · intro im n v cases s s2 h hlen
    have hpre := switch_cases_front im n v cases s s2 h []
    simp at hpre
    rw [hpre]
    obtain ⟨k, hk⟩ : ∃ k, n - cases.length = k + 1 := ⟨n - cases.length - 1, by omega⟩
    rw [hk]
    simp [evaluate_switch_cases]
  · intro im n disc cval code rest r s s1 s2 v v2 hdisc heval heq
    rw [show (n + 2) = (n + 1) + 1 from rfl,
      switch_disc_step im (n + 1) disc (Case.mk cval code :: rest) r s s1 v hdisc,
      switch_cases_match im n v v2 cval code rest s1 s2 heval heq]

/-- Witness for C7: `switch 1 { 1 => "yes" }` evaluates the matching
case's code directly. -/
theorem c7_switch_semantics_witness :
    evaluate_expression emptyItemMap 3
        (.switchE (.numberE 1 ⟨0, 1⟩)
          [Case.mk (.numberE 1 ⟨4, 5⟩) (.stringE ("yes") ⟨9, 14⟩)] ⟨0, 15⟩) initState
      = evaluate_expression emptyItemMap 1 (.stringE ("yes") ⟨9, 14⟩) initState :=
  c7_switch_semantics.2.2.2 emptyItemMap 1 (.numberE 1 ⟨0, 1⟩) (.numberE 1 ⟨4, 5⟩)
    (.stringE ("yes") ⟨9, 14⟩) [] ⟨0, 15⟩ initState initState initState
    (.number 1) (.number 1) rfl rfl rfl

/-!  ## Theorems about the `format` built-in (claim C8)  -/

/-- A run of primitive-valued arguments drives the `evaluate_format`
argument loop to completion with no diagnostics, folding each argument's
textual form into the format string. -/
theorem prim_seq_format_args (im : ItemMap) :
    ∀ (n : Nat) (es : List Expression) (out0 : String) (s : EvalState) (out : String) (s2 : EvalState),
      PrimSeq im n es out0 s out s2 → es.length < n →
      evaluate_format_args im n es out0 [] s = some (.done out [] s2) := by
  intro n es out0 s out s2 h
  induction h with
  | nil n out s =>
    intro hlen
    obtain ⟨k, rfl⟩ : ∃ k, n = k + 1 := ⟨n - 1, by omega⟩
    simp [evaluate_format_args]
  | cons n e rest out s v str s1 out2 s2 heval hprim hrest ih =>
    intro hlen
    simp only [List.length_cons] at hlen
    have hlen2 : rest.length < n := by omega
    cases v with
    | string s0 =>
      simp only [primText, Option.some.injEq] at hprim
      subst hprim
      simp [evaluate_format_args, heval]
      exact ih hlen2
    | number m =>
      simp only [primText, Option.some.injEq] at hprim
      subst hprim
      simp [evaluate_format_args, heval]
      exact ih hlen2
    | boolean b =>
      simp only [primText, Option.some.injEq] at hprim
      subst hprim
      simp [evaluate_format_args, heval]
      exact ih hlen2
    | none => simp [primText] at hprim
    | array ty vs => simp [primText] at hprim
    | enumValue id val => simp [primText] at hprim
    | function fv => simp [primText] at hprim
    | code ty rpn => simp [primText] at hprim
    | template t => simp [primText] at hprim

/-- Claim C8 (confirmed): `format` requires a first argument (else its own
"missing format string" diagnostic) that must evaluate to a string (else a
diagnostic); the number of brace pairs in it must equal the number of
further arguments (else the arity diagnostic); each further argument must
evaluate to a `num`, `bool` or `str`, whose textual forms replace the
leftmost brace pairs in left-to-right order, one per occurrence; in
particular `format("hello \x7b\x7d, you are \x7b\x7d", "world", 42)`
returns "hello world, you are 42". -/
theorem c8_format_builtin :
    (∀ (im : ItemMap) (fuel : Nat) (loc : SrcRange) (s : EvalState),
      evaluate_format im (fuel + 1) loc [] s = some (.err [missingFormatStringDiag loc], s))
    ∧ (∀ (im : ItemMap) (fuel : Nat) (loc : SrcRange) (arg0 : Expression) (rest : List Expression)
        (s s1 : EvalState) (v : Value),
      (∀ str, v ≠ .string str) →
      evaluate_expression im fuel arg0 s = some (.ok v, s1) →
      evaluate_format im (fuel + 1) loc (arg0 :: rest) s
        = some (.err [formatStringNotStrDiag v loc], s1))
    ∧ (∀ (im : ItemMap) (fuel : Nat) (loc : SrcRange) (arg0 : Expression) (rest : List Expression)
        (s s1 : EvalState) (fstr : String),
      evaluate_expression im fuel arg0 s = some (.ok (.string fstr), s1) →
      countBraces fstr ≠ rest.length →
      evaluate_format im (fuel + 1) loc (arg0 :: rest) s
        = some (.err [formatArityDiag (countBraces fstr) rest.length loc], s1))
    ∧ (∀ (im : ItemMap) (fuel : Nat) (loc : SrcRange) (arg0 : Expression) (rest : List Expression)
        (s s1 s2 : EvalState) (fstr out : String),
      evaluate_expression im fuel arg0 s = some (.ok (.string fstr), s1) →
      countBraces fstr = rest.length →
      PrimSeq im fuel rest fstr s1 out s2 →
      rest.length < fuel →
      evaluate_format im (fuel + 1) loc (arg0 :: rest) s = some (.ok (.string out), s2))
    ∧ evaluate_format emptyItemMap 6 ⟨0, 6⟩
        [.stringE ("hello \x7b\x7d, you are \x7b\x7d") ⟨7, 29⟩,
         .stringE ("world") ⟨31, 38⟩, .numberE 42 ⟨40, 42⟩] initState
      = some (.ok (.string ("hello world, you are 42")), initState) := by
  refine ⟨?_, ?_, ?_, ?_, ?_⟩
  · intro im fuel loc s
    simp [evaluate_format]
  · intro im fuel loc arg0 rest s s1 v hv heval
    cases v with
    | string s0 => exact absurd rfl (hv s0)
    | none => simp [evaluate_format, heval]
    | number m => simp [evaluate_format, heval]
    | boolean b => simp [evaluate_format, heval]
    | array ty vs => simp [evaluate_format, heval]
    | enumValue id val => simp [evaluate_format, heval]
    | function fv => simp [evaluate_format, heval]
    | code ty rpn => simp [evaluate_format, heval]
    | template t => simp [evaluate_format, heval]
  · intro im fuel loc arg0 rest s s1 fstr heval hne
    simp [evaluate_format, heval, hne]
  · intro im fuel loc arg0 rest s s1 s2 fstr out heval harity hseq hlen
    have hargs := prim_seq_format_args im fuel rest fstr s1 out s2 hseq hlen
    simp [evaluate_format, heval, harity, hargs]
  · rfl

/-- Witness for C8: `format("hi \x7b\x7d", 7)` returns "hi 7" through the
general success clause. -/
theorem c8_format_builtin_witness :
    evaluate_format emptyItemMap 3 ⟨0, 3⟩
        [.stringE ("hi \x7b\x7d") ⟨4, 9⟩, .numberE 7 ⟨11, 12⟩] initState
      = some (.ok (.string ("hi 7")), initState) :=
  c8_format_builtin.2.2.2.1 emptyItemMap 2 ⟨0, 3⟩ (.stringE ("hi \x7b\x7d") ⟨4, 9⟩)
    [.numberE 7 ⟨11, 12⟩] initState initState initState ("hi \x7b\x7d") ("hi 7")
    rfl rfl
    (PrimSeq.cons 1 (.numberE 7 ⟨11, 12⟩) [] ("hi \x7b\x7d") initState
      (.number 7) ("7") initState ("hi 7") initState rfl rfl
      (PrimSeq.nil 1 ("hi 7") initState))
    (by decide)

/-!  ## Theorems about component flag save/restore (claim C4)  -/

/-- Claim C4 counterexample: a component whose body fails does *not*
restore the context flags — `evaluate_component` propagates the body's
error flow with `?` before `self.info = old_context` runs.  Starting from
cleared flags, a noded component with a failing body (`[1, "x"]`) returns
an error with the flags still set to `(true, true)`. -/
theorem c4_counterexample :
    evaluate_component emptyItemMap 10 (.stringE ("comp") ⟨0, 4⟩)
        (some (.stringE ("node") ⟨5, 9⟩))
        [.exprS (.arrayE [.numberE 1 ⟨12, 13⟩, .stringE ("x") ⟨15, 18⟩] ⟨11, 19⟩) ⟨11, 19⟩]
        initState
      = some (.err [arrayMismatchDiag .num ⟨12, 13⟩ .str ⟨15, 18⟩],
              ⟨CallStack.new, ⟨true, true⟩⟩)
    ∧ (⟨CallStack.new, ⟨true, true⟩⟩ : EvalState).info ≠ initState.info := by
  exact ⟨rfl, by decide⟩

/-- Claim C4 (amended): a component saves the "in-component" and
"has-node" flags on entry and restores them on every *successful* exit
(and on exits whose failure was accumulated from the name or node
evaluations); but when the body's template-block evaluation yields a
diagnostic, return or break, the flow is propagated without restoring the
flags. -/
theorem c4_component_flag_restore :
    ∀ (im : ItemMap) (fuel : Nat) (nameE : Expression) (nodeE : Option Expression)
      (body : List Statement) (s : EvalState) (v : Value) (s2 : EvalState),
      evaluate_component im fuel nameE nodeE body s = some (.ok v, s2) →
      s2.info = s.info := by
  intro im fuel nameE nodeE body s v s2 h
  obtain ⟨k, rfl⟩ : ∃ k, fuel = k + 1 := by
    cases fuel with
    | zero => simp [evaluate_component] at h
    | succ k => exact ⟨k, rfl⟩
  simp only [evaluate_component] at h
  split at h
  · simp at h
  · split at h
    · simp at h
    · split at h
      · simp at h
      · split at h
        · simp only [Option.some.injEq, Prod.mk.injEq] at h
          obtain ⟨-, rfl⟩ := h
          rfl
        · simp at h
      · simp at h
      · rename_i hitems hok htb
        simp only [Option.some.injEq, Prod.mk.injEq] at h
        obtain ⟨rfl, rfl⟩ := h
        exact (hok v rfl).elim

/-- Witness for C4: a successfully evaluated noded component leaves the
flags exactly as they were. -/
theorem c4_component_flag_restore_witness :
    (⟨CallStack.new, ⟨false, false⟩⟩ : EvalState).info = initState.info :=
  c4_component_flag_restore emptyItemMap 6 (.stringE ("c") ⟨0, 1⟩)
    (some (.stringE ("n") ⟨2, 3⟩)) [] initState
    (.template (.component ("c") (some (("n"), ⟨2, 3⟩)) []))
    ⟨CallStack.new, ⟨false, false⟩⟩ rfl

/-!  ## Theorems about array literals (claim C3)  -/

/-- Evaluating a literal expression at any positive fuel yields its value
without touching the state. -/
theorem lit_eval (im : ItemMap) (m : Nat) (l : Lit) (r : SrcRange) (s : EvalState) :
    evaluate_expression im (m + 1) (l.toExpr r) s = some (.ok l.val, s) := by
  cases l <;> simp [Lit.toExpr, Lit.val, evaluate_expression]

/-- The range of a literal expression. -/
theorem lit_range (l : Lit) (r : SrcRange) : (l.toExpr r).range = r := by
  cases l <;> simp [Lit.toExpr, Expression.range]

/-- Phase 1 of `evaluate_array` on a literal element list: every element
evaluates, in order, to its value. -/
theorem array_elems_lits (im : ItemMap) :
    ∀ (ls : List (Lit × SrcRange)) (k : Nat) (s : EvalState),
      evaluate_array_elems im (ls.length + k + 1) (ls.map (fun p => p.1.toExpr p.2)) s
        = some (ls.map (fun p => (p.2, EvalFlow.ok p.1.val)), s) := by
  intro ls
  induction ls with
  | nil => intro k s; simp [evaluate_array_elems]
  | cons p ls ih =>
    intro k s
    have hfuel : (p :: ls).length + k + 1 = (ls.length + k + 1) + 1 := by simp; omega
    rw [hfuel]
    simp only [List.map_cons]
    have h1 := lit_eval im (ls.length + k) p.1 p.2 s
    simp only [evaluate_array_elems, h1]
    rw [ih k s]
    simp [lit_range]

/-- The filter pass of `evaluate_array` over all-successful elements keeps
every element and infers the element type (and its location) from the
*last* element. -/
theorem filter_all_ok :
    ∀ (qs : List (SrcRange × Value)) (q : SrcRange × Value) (items : List (SrcRange × Value))
      (errs : List Diagnostic) (ty : RuntimeType) (tyLoc : Option SrcRange),
      arrayFilterAux ((qs ++ [q]).map (fun p => (p.1, EvalFlow.ok p.2))) items errs ty tyLoc
        = (items ++ (qs ++ [q]), errs, q.2.getType, some q.1) := by
  intro qs
  induction qs with
  | nil =>
    intro q items errs ty tyLoc
    simp [arrayFilterAux]
  | cons p qs ih =>
    intro q items errs ty tyLoc
    simp only [List.cons_append, List.map_cons, arrayFilterAux]
    have := ih q (items ++ [(p.1, p.2)]) errs p.2.getType (some p.1)
    simpa using this

/-- One unfolding step of `evaluate_array` once its element pass is
known. -/
theorem evaluate_array_step (im : ItemMap) (F : Nat) (vs : List Expression) (s : EvalState)
    (pairs : List (SrcRange × EvalFlow)) (s1 : EvalState)
    (h : evaluate_array_elems im F vs s = some (pairs, s1)) :
    evaluate_array im (F + 1) vs s
      = (match arrayFilterAux pairs [] [] .noneT none with
         | (items, errs, ty, tyLoc) =>
           if errs ++ arrayMismatches items ty (tyLoc.getD ⟨0, 0⟩) = []
           then some (.ok (.array ty (items.map (fun rv => rv.2))), s1)
           else some (.err (errs ++ arrayMismatches items ty (tyLoc.getD ⟨0, 0⟩)), s1)) := by
  simp [evaluate_array, h]

set_option maxRecDepth 10000 in
/-- Claim C3 counterexample: for `[1, 2, "x"]` the evaluator infers the
element type from the *last* successful element (`str`) and emits one
diagnostic for each of the two numeric elements — the claim's reading
(infer from the first element, diagnose each other offender) would give
exactly one diagnostic, for `"x"`. -/
theorem c3_counterexample :
    evaluate_expression emptyItemMap 7
        (.arrayE [.numberE 1 ⟨1, 2⟩, .numberE 2 ⟨4, 5⟩, .stringE ("x") ⟨7, 10⟩] ⟨0, 11⟩)
        initState
      = some (.err [arrayMismatchDiag .num ⟨1, 2⟩ .str ⟨7, 10⟩,
                    arrayMismatchDiag .num ⟨4, 5⟩ .str ⟨7, 10⟩], initState) := by
  rfl

set_option maxRecDepth 10000 in
/-- Claim C3 (amended): for an array literal of primitive literals, the
evaluator evaluates each element in order, infers the array's element type
from the *last* successfully evaluated element, and requires every other
element to have that type, emitting one "mismatched array types"
diagnostic per offending element with a label pair — primary: that
element's type at its range; secondary: the expected (last element's) type
at the last element's range.  In particular `[1, "two"]` yields exactly
one Error diagnostic "mismatched array types" with two labels: primary at
the range of `1` (type `num`) and secondary at the range of `"two"`
(expected type `str`). -/
theorem c3_array_element_typing :
    (∀ (im : ItemMap) (init : List (Lit × SrcRange)) (lp : Lit × SrcRange)
        (r0 : SrcRange) (s : EvalState) (k : Nat),
      evaluate_expression im ((init ++ [lp]).length + k + 3)
          (.arrayE ((init ++ [lp]).map (fun p => p.1.toExpr p.2)) r0) s
        = if ∀ p ∈ init ++ [lp], p.1.rty = lp.1.rty
          then some (.ok (.array lp.1.rty ((init ++ [lp]).map (fun p => p.1.val))), s)
          else some (.err ((init ++ [lp]).filterMap (fun p =>
              if p.1.rty = lp.1.rty then none
              else some (arrayMismatchDiag p.1.rty p.2 lp.1.rty lp.2))), s))
    ∧ evaluate_expression emptyItemMap 6
        (.arrayE [.numberE 1 ⟨0, 1⟩, .stringE ("two") ⟨3, 8⟩] ⟨0, 9⟩) initState
      = some (.err [arrayMismatchDiag .num ⟨0, 1⟩ .str ⟨3, 8⟩], initState) := by
  constructor
  · intro im init lp r0 s k
    have h1 : evaluate_expression im ((init ++ [lp]).length + k + 3)
        (.arrayE ((init ++ [lp]).map (fun p => p.1.toExpr p.2)) r0) s
        = evaluate_array im ((init ++ [lp]).length + k + 2)
            ((init ++ [lp]).map (fun p => p.1.toExpr p.2)) s := rfl
    rw [h1]
    rw [show (init ++ [lp]).length + k + 2 = ((init ++ [lp]).length + k + 1) + 1 from rfl]
    rw [evaluate_array_step im ((init ++ [lp]).length + k + 1)
      ((init ++ [lp]).map (fun p => p.1.toExpr p.2)) s
      ((init ++ [lp]).map (fun p => (p.2, EvalFlow.ok p.1.val))) s
      (array_elems_lits im (init ++ [lp]) k s)]
    have hpairs : (init ++ [lp]).map (fun p => (p.2, EvalFlow.ok p.1.val))
        = ((init.map (fun p => (p.2, p.1.val))) ++ [(lp.2, lp.1.val)]).map
            (fun q => (q.1, EvalFlow.ok q.2)) := by
      simp [List.map_map, Function.comp]
    rw [hpairs, filter_all_ok]
    simp only [List.nil_append, Option.getD_some]
    have hmis : arrayMismatches (init.map (fun p => (p.2, p.1.val)) ++ [(lp.2, lp.1.val)])
        (lp.1.val.getType) lp.2
        = (init ++ [lp]).filterMap (fun p =>
            if p.1.rty = lp.1.rty then none
            else some (arrayMismatchDiag p.1.rty p.2 lp.1.rty lp.2)) := by
      simp only [arrayMismatches]
      rw [show (init.map (fun p => (p.2, p.1.val)) ++ [(lp.2, lp.1.val)])
          = (init ++ [lp]).map (fun p => (p.2, p.1.val)) from by simp]
      rw [List.filterMap_map]
      rfl
    rw [hmis]
    have hmap2 : (init.map (fun p => (p.2, p.1.val)) ++ [(lp.2, lp.1.val)]).map (fun rv => rv.2)
        = (init ++ [lp]).map (fun p => p.1.val) := by
      simp [List.map_map, Function.comp]
    rw [hmap2]
    by_cases hall : ∀ p ∈ init ++ [lp], p.1.rty = lp.1.rty
    · rw [if_pos hall]
      have hnil : (init ++ [lp]).filterMap (fun p =>
          if p.1.rty = lp.1.rty then none
          else some (arrayMismatchDiag p.1.rty p.2 lp.1.rty lp.2)) = [] := by
        rw [List.filterMap_eq_nil_iff]
        intro p hp
        rw [if_pos (hall p hp)]
      rw [hnil]
      simp [Lit.rty]
    · rw [if_neg hall]
      have hne : (init ++ [lp]).filterMap (fun p =>
          if p.1.rty = lp.1.rty then none
          else some (arrayMismatchDiag p.1.rty p.2 lp.1.rty lp.2)) ≠ [] := by
        intro hnil
        rw [List.filterMap_eq_nil_iff] at hnil
        apply hall
        intro p hp
        have := hnil p hp
        by_contra hcon
        rw [if_neg hcon] at this
        simp at this
      rw [if_neg hne]
  · rfl

theorem new_var_shape (name : String) (v : Value) (f : Frame) (t : List Frame) :
    ∃ f2, CallStack.new_var name v (f :: t) = f2 :: t ∧ f2.length = f.length := by
  cases f with
  | nil => exact ⟨[], rfl, rfl⟩
  | cons sc scs => exact ⟨((name, v) :: sc) :: scs, rfl, by simp [CallStack.new_var]⟩

theorem return_check_shape (fl : FunctionLit) (loc : SrcRange) (retV : Value) (s : EvalState)
    (r : EvalFlow) (s2 : EvalState) (h : evaluate_return_check fl loc retV s = some (r, s2)) :
    s2 = s ∧ (∀ ds, r = EvalFlow.err ds → ds ≠ []) := by
  simp only [evaluate_return_check] at h
  split at h
  · simp only [Option.some.injEq, Prod.mk.injEq] at h
    obtain ⟨rfl, rfl⟩ := h
    exact ⟨rfl, fun ds hd => by simp at hd⟩
  · simp only [Option.some.injEq, Prod.mk.injEq] at h
    obtain ⟨rfl, rfl⟩ := h
    refine ⟨rfl, ?_⟩
    intro ds hd
    injection hd with h2
    rw [← h2]
    simp

theorem balStep_blockStmts (im : ItemMap) (n : Nat) (ih : BalAll im n) :
    BalBlockStmts im (n + 1) := by
  intro stmts errs s f t res hs h
  cases stmts with
  | nil =>
    simp only [evaluate_block_stmts] at h
    obtain rfl := Option.some.inj h
    refine ⟨fun fl s2 hres => by simp at hres, ?_⟩
    intro errs2 s2 hres
    simp only [StmtLoopRes.done.injEq] at hres
    obtain ⟨-, rfl⟩ := hres
    exact ⟨f, hs, le_refl _⟩
  | cons stmt rest =>
    cases stmt with
    | decl name nameRange value range =>
      cases value with
      | none =>
        simp only [evaluate_block_stmts] at h
        obtain ⟨fnv, hnv, hnvlen⟩ := new_var_shape name .none f t
        have hstk2 : ({ s with stack := s.stack.new_var name Value.none } : EvalState).stack
            = fnv :: t := by
          show s.stack.new_var name Value.none = fnv :: t
          rw [hs]; exact hnv
        obtain ⟨hearly, hdone⟩ := ih.blockStmts rest errs _ fnv t res hstk2 h
        refine ⟨?_, ?_⟩
        · intro fl s2 hres
          obtain ⟨⟨f2, hf2, hle⟩, herr⟩ := hearly fl s2 hres
          rw [hnvlen] at hle
          exact ⟨⟨f2, hf2, hle⟩, herr⟩
        · intro errs2 s2 hres
          obtain ⟨f2, hf2, hle⟩ := hdone errs2 s2 hres
          rw [hnvlen] at hle
          exact ⟨f2, hf2, hle⟩
      | some e =>
        simp only [evaluate_block_stmts] at h
        cases he : evaluate_expression im n e s with
        | none => rw [he] at h; simp at h
        | some pr =>
          obtain ⟨flw, s1⟩ := pr
          obtain ⟨⟨f1, hs1, hle1⟩, herr1⟩ := ih.expr e s f t flw s1 hs he
          cases flw with
          | ok v =>
            simp only [he] at h
            obtain ⟨fnv, hnv, hnvlen⟩ := new_var_shape name v f1 t
            have hstk2 : ({ s1 with stack := s1.stack.new_var name v } : EvalState).stack
                = fnv :: t := by
              show s1.stack.new_var name v = fnv :: t
              rw [hs1]; exact hnv
            obtain ⟨hearly, hdone⟩ := ih.blockStmts rest errs _ fnv t res hstk2 h
            refine ⟨?_, ?_⟩
            · intro fl s2 hres
              obtain ⟨⟨f2, hf2, hle⟩, herr⟩ := hearly fl s2 hres
              rw [hnvlen] at hle
              exact ⟨⟨f2, hf2, le_trans hle1 hle⟩, herr⟩
            · intro errs2 s2 hres
              obtain ⟨f2, hf2, hle⟩ := hdone errs2 s2 hres
              rw [hnvlen] at hle
              exact ⟨f2, hf2, le_trans hle1 hle⟩
          | err ds =>
            simp only [he] at h
            obtain ⟨hearly, hdone⟩ := ih.blockStmts rest (errs ++ ds) s1 f1 t res hs1 h
            refine ⟨?_, ?_⟩
            · intro fl s2 hres
              obtain ⟨⟨f2, hf2, hle⟩, herr⟩ := hearly fl s2 hres
              exact ⟨⟨f2, hf2, le_trans hle1 hle⟩, herr⟩
            · intro errs2 s2 hres
              obtain ⟨f2, hf2, hle⟩ := hdone errs2 s2 hres
              exact ⟨f2, hf2, le_trans hle1 hle⟩
          | ret loc v =>
            simp only [he] at h
            obtain rfl := Option.some.inj h
            refine ⟨?_, fun errs2 s2 hres => by simp at hres⟩
            intro fl s2 hres
            simp only [StmtLoopRes.early.injEq] at hres
            obtain ⟨rfl, rfl⟩ := hres
            exact ⟨⟨f1, hs1, hle1⟩, fun ds hd => by simp at hd⟩
          | brk loc v =>
            simp only [he] at h
            obtain rfl := Option.some.inj h
            refine ⟨?_, fun errs2 s2 hres => by simp at hres⟩
            intro fl s2 hres
            simp only [StmtLoopRes.early.injEq] at hres
            obtain ⟨rfl, rfl⟩ := hres
            exact ⟨⟨f1, hs1, hle1⟩, fun ds hd => by simp at hd⟩
    | exprS e range =>
      simp only [evaluate_block_stmts] at h
      cases he : evaluate_expression im n e s with
      | none => rw [he] at h; simp at h
      | some pr =>
        obtain ⟨flw, s1⟩ := pr
        obtain ⟨⟨f1, hs1, hle1⟩, herr1⟩ := ih.expr e s f t flw s1 hs he
        cases flw with
        | ok v =>
          simp only [he] at h
          obtain ⟨hearly, hdone⟩ := ih.blockStmts rest errs s1 f1 t res hs1 h
          refine ⟨?_, ?_⟩
          · intro fl s2 hres
            obtain ⟨⟨f2, hf2, hle⟩, herr⟩ := hearly fl s2 hres
            exact ⟨⟨f2, hf2, le_trans hle1 hle⟩, herr⟩
          · intro errs2 s2 hres
            obtain ⟨f2, hf2, hle⟩ := hdone errs2 s2 hres
            exact ⟨f2, hf2, le_trans hle1 hle⟩
        | err ds =>
          simp only [he] at h
          obtain ⟨hearly, hdone⟩ := ih.blockStmts rest (errs ++ ds) s1 f1 t res hs1 h
          refine ⟨?_, ?_⟩
          · intro fl s2 hres
            obtain ⟨⟨f2, hf2, hle⟩, herr⟩ := hearly fl s2 hres
            exact ⟨⟨f2, hf2, le_trans hle1 hle⟩, herr⟩
          · intro errs2 s2 hres
            obtain ⟨f2, hf2, hle⟩ := hdone errs2 s2 hres
            exact ⟨f2, hf2, le_trans hle1 hle⟩
        | ret loc v =>
          simp only [he] at h
          obtain rfl := Option.some.inj h
          refine ⟨?_, fun errs2 s2 hres => by simp at hres⟩
          intro fl s2 hres
          simp only [StmtLoopRes.early.injEq] at hres
          obtain ⟨rfl, rfl⟩ := hres
          exact ⟨⟨f1, hs1, hle1⟩, fun ds hd => by simp at hd⟩
        | brk loc v =>
          simp only [he] at h
          obtain rfl := Option.some.inj h
          refine ⟨?_, fun errs2 s2 hres => by simp at hres⟩
          intro fl s2 hres
          simp only [StmtLoopRes.early.injEq] at hres
          obtain ⟨rfl, rfl⟩ := hres
          exact ⟨⟨f1, hs1, hle1⟩, fun ds hd => by simp at hd⟩

theorem balStep_block (im : ItemMap) (n : Nat) (ih : BalAll im n) :
    BalBlock im (n + 1) := by
  intro b s f t r s2 hs h
  simp only [evaluate_block] at h
  have hstk1 : ({ s with stack := s.stack.scope } : EvalState).stack = ([] :: f) :: t := by
    show s.stack.scope = ([] :: f) :: t
    rw [hs]; rfl
  cases hl : evaluate_block_stmts im n b.statements [] { s with stack := s.stack.scope } with
  | none => rw [hl] at h; simp at h
  | some res =>
    obtain ⟨hearly, hdone⟩ := ih.blockStmts b.statements [] _ ([] :: f) t res hstk1 hl
    cases res with
    | early fl s1 =>
      simp only [hl] at h
      simp only [Option.some.injEq, Prod.mk.injEq] at h
      obtain ⟨rfl, rfl⟩ := h
      obtain ⟨⟨f1, hf1, hle⟩, herr⟩ := hearly fl s1 rfl
      exact ⟨⟨f1, hf1, Nat.le_of_succ_le (by simpa using hle)⟩, herr⟩
    | done errs2 s1 =>
      simp only [hl] at h
      obtain ⟨f2, hf2, hle⟩ := hdone errs2 s1 rfl
      cases hbe : b.expression with
      | none =>
        simp only [hbe] at h
        have hle4 : f.length ≤ f2.tail.length := by
          have h1 : f.length + 1 ≤ f2.length := by simpa using hle
          simp [List.length_tail]
          omega
        have hstail : (CallStack.end_scope s1.stack) = f2.tail :: t := by
          rw [hf2]; rfl
        by_cases herrs : errs2 = []
        · rw [if_pos herrs] at h
          simp only [Option.some.injEq, Prod.mk.injEq] at h
          obtain ⟨rfl, rfl⟩ := h
          exact ⟨⟨f2.tail, hstail, hle4⟩, fun ds hd => by simp at hd⟩
        · rw [if_neg herrs] at h
          simp only [Option.some.injEq, Prod.mk.injEq] at h
          obtain ⟨rfl, rfl⟩ := h
          refine ⟨⟨f2.tail, hstail, hle4⟩, ?_⟩
          intro ds hd
          injection hd with h2
          rw [← h2]
          exact herrs
      | some e2 =>
        simp only [hbe] at h
        cases he2 : evaluate_expression im n e2 s1 with
        | none => rw [he2] at h; simp at h
        | some pr =>
          obtain ⟨retF, s3⟩ := pr
          simp only [he2] at h
          obtain ⟨⟨f3, hf3, hle3⟩, herr3⟩ := ih.expr e2 s1 f2 t retF s3 hf2 he2
          have hle4 : f.length ≤ f3.tail.length := by
            have h1 : f.length + 1 ≤ f2.length := by simpa using hle
            have h2 : f2.length ≤ f3.length := hle3
            simp [List.length_tail]
            omega
          have hstail : (CallStack.end_scope s3.stack) = f3.tail :: t := by
            rw [hf3]; rfl
          by_cases herrs : errs2 = []
          · rw [if_pos herrs] at h
            simp only [Option.some.injEq, Prod.mk.injEq] at h
            obtain ⟨rfl, rfl⟩ := h
            exact ⟨⟨f3.tail, hstail, hle4⟩, herr3⟩
          · rw [if_neg herrs] at h
            simp only [Option.some.injEq, Prod.mk.injEq] at h
            obtain ⟨rfl, rfl⟩ := h
            refine ⟨⟨f3.tail, hstail, hle4⟩, ?_⟩
            intro ds hd
            injection hd with h2
            rw [← h2]
            exact herrs

theorem balStep_tplStmts (im : ItemMap) (n : Nat) (ih : BalAll im n) :
    BalTplStmts im (n + 1) := by
  intro stmts errs values s f t res hs h
  cases stmts with
  | nil =>
    simp only [evaluate_tpl_stmts] at h
    obtain rfl := Option.some.inj h
    refine ⟨fun fl s2 hres => by simp at hres, ?_⟩
    intro errs2 values2 s2 hres
    simp only [TplLoopRes.done.injEq] at hres
    obtain ⟨-, -, rfl⟩ := hres
    exact ⟨f, hs, le_refl _⟩
  | cons stmt rest =>
    cases stmt with
    | decl name nameRange value range =>
      cases value with
      | none =>
        simp only [evaluate_tpl_stmts] at h
        obtain ⟨fnv, hnv, hnvlen⟩ := new_var_shape name .none f t
        have hstk2 : ({ s with stack := s.stack.new_var name Value.none } : EvalState).stack
            = fnv :: t := by
          show s.stack.new_var name Value.none = fnv :: t
          rw [hs]; exact hnv
        obtain ⟨hearly, hdone⟩ := ih.tplStmts rest errs values _ fnv t res hstk2 h
        refine ⟨?_, ?_⟩
        · intro fl s2 hres
          obtain ⟨⟨f2, hf2, hle⟩, herr⟩ := hearly fl s2 hres
          rw [hnvlen] at hle
          exact ⟨⟨f2, hf2, hle⟩, herr⟩
        · intro errs2 values2 s2 hres
          obtain ⟨f2, hf2, hle⟩ := hdone errs2 values2 s2 hres
          rw [hnvlen] at hle
          exact ⟨f2, hf2, hle⟩
      | some e =>
        simp only [evaluate_tpl_stmts] at h
        cases he : evaluate_expression im n e s with
        | none => rw [he] at h; simp at h
        | some pr =>
          obtain ⟨flw, s1⟩ := pr
          obtain ⟨⟨f1, hs1, hle1⟩, herr1⟩ := ih.expr e s f t flw s1 hs he
          cases flw with
          | ok v =>
            simp only [he] at h
            obtain ⟨fnv, hnv, hnvlen⟩ := new_var_shape name v f1 t
            have hstk2 : ({ s1 with stack := s1.stack.new_var name v } : EvalState).stack
                = fnv :: t := by
              show s1.stack.new_var name v = fnv :: t
              rw [hs1]; exact hnv
            obtain ⟨hearly, hdone⟩ := ih.tplStmts rest errs values _ fnv t res hstk2 h
            refine ⟨?_, ?_⟩
            · intro fl s2 hres
              obtain ⟨⟨f2, hf2, hle⟩, herr⟩ := hearly fl s2 hres
              rw [hnvlen] at hle
              exact ⟨⟨f2, hf2, le_trans hle1 hle⟩, herr⟩
            · intro errs2 values2 s2 hres
              obtain ⟨f2, hf2, hle⟩ := hdone errs2 values2 s2 hres
              rw [hnvlen] at hle
              exact ⟨f2, hf2, le_trans hle1 hle⟩
          | err ds =>
            simp only [he] at h
            obtain ⟨hearly, hdone⟩ := ih.tplStmts rest (errs ++ ds) values s1 f1 t res hs1 h
            refine ⟨?_, ?_⟩
            · intro fl s2 hres
              obtain ⟨⟨f2, hf2, hle⟩, herr⟩ := hearly fl s2 hres
              exact ⟨⟨f2, hf2, le_trans hle1 hle⟩, herr⟩
            · intro errs2 values2 s2 hres
              obtain ⟨f2, hf2, hle⟩ := hdone errs2 values2 s2 hres
              exact ⟨f2, hf2, le_trans hle1 hle⟩
          | ret loc v =>
            simp only [he] at h
            obtain rfl := Option.some.inj h
            refine ⟨?_, fun errs2 values2 s2 hres => by simp at hres⟩
            intro fl s2 hres
            simp only [TplLoopRes.early.injEq] at hres
            obtain ⟨rfl, rfl⟩ := hres
            exact ⟨⟨f1, hs1, hle1⟩, fun ds hd => by simp at hd⟩
          | brk loc v =>
            simp only [he] at h
            obtain rfl := Option.some.inj h
            refine ⟨?_, fun errs2 values2 s2 hres => by simp at hres⟩
            intro fl s2 hres
            simp only [TplLoopRes.early.injEq] at hres
            obtain ⟨rfl, rfl⟩ := hres
            exact ⟨⟨f1, hs1, hle1⟩, fun ds hd => by simp at hd⟩
    | exprS e range =>
      simp only [evaluate_tpl_stmts] at h
      cases he : evaluate_expression im n e s with
      | none => rw [he] at h; simp at h
      | some pr =>
        obtain ⟨flw, s1⟩ := pr
        obtain ⟨⟨f1, hs1, hle1⟩, herr1⟩ := ih.expr e s f t flw s1 hs he
        cases flw with
        | ok v =>
          cases v with
          | template tv =>
            simp only [he] at h
            obtain ⟨hearly, hdone⟩ := ih.tplStmts rest errs (values ++ [tv]) s1 f1 t res hs1 h
            refine ⟨?_, ?_⟩
            · intro fl s2 hres
              obtain ⟨⟨f2, hf2, hle⟩, herr⟩ := hearly fl s2 hres
              exact ⟨⟨f2, hf2, le_trans hle1 hle⟩, herr⟩
            · intro errs2 values2 s2 hres
              obtain ⟨f2, hf2, hle⟩ := hdone errs2 values2 s2 hres
              exact ⟨f2, hf2, le_trans hle1 hle⟩
          | none => simp only [he] at h; simp at h
          | number m => simp only [he] at h; simp at h
          | boolean b2 => simp only [he] at h; simp at h
          | string str => simp only [he] at h; simp at h
          | array ty vs => simp only [he] at h; simp at h
          | enumValue eid val => simp only [he] at h; simp at h
          | function fv => simp only [he] at h; simp at h
          | code cty rpn => simp only [he] at h; simp at h
        | err ds =>
          simp only [he] at h
          obtain ⟨hearly, hdone⟩ := ih.tplStmts rest (errs ++ ds) values s1 f1 t res hs1 h
          refine ⟨?_, ?_⟩
          · intro fl s2 hres
            obtain ⟨⟨f2, hf2, hle⟩, herr⟩ := hearly fl s2 hres
            exact ⟨⟨f2, hf2, le_trans hle1 hle⟩, herr⟩
          · intro errs2 values2 s2 hres
            obtain ⟨f2, hf2, hle⟩ := hdone errs2 values2 s2 hres
            exact ⟨f2, hf2, le_trans hle1 hle⟩
        | ret loc v =>
          simp only [he] at h
          obtain rfl := Option.some.inj h
          refine ⟨?_, fun errs2 values2 s2 hres => by simp at hres⟩
          intro fl s2 hres
          simp only [TplLoopRes.early.injEq] at hres
          obtain ⟨rfl, rfl⟩ := hres
          exact ⟨⟨f1, hs1, hle1⟩, fun ds hd => by simp at hd⟩
        | brk loc v =>
          simp only [he] at h
          obtain rfl := Option.some.inj h
          refine ⟨?_, fun errs2 values2 s2 hres => by simp at hres⟩
          intro fl s2 hres
          simp only [TplLoopRes.early.injEq] at hres
          obtain ⟨rfl, rfl⟩ := hres
          exact ⟨⟨f1, hs1, hle1⟩, fun ds hd => by simp at hd⟩

theorem balStep_tplBlock (im : ItemMap) (n : Nat) (ih : BalAll im n) :
    BalTplBlock im (n + 1) := by
  intro stmts s f t r s2 hs h
  simp only [evaluate_template_block] at h
  have hstk1 : ({ s with stack := s.stack.scope } : EvalState).stack = ([] :: f) :: t := by
    show s.stack.scope = ([] :: f) :: t
    rw [hs]; rfl
  cases hl : evaluate_tpl_stmts im n stmts [] [] { s with stack := s.stack.scope } with
  | none => rw [hl] at h; simp at h
  | some res =>
    obtain ⟨hearly, hdone⟩ := ih.tplStmts stmts [] [] _ ([] :: f) t res hstk1 hl
    cases res with
    | early fl s1 =>
      simp only [hl] at h
      simp only [Option.some.injEq, Prod.mk.injEq] at h
      obtain ⟨rfl, rfl⟩ := h
      obtain ⟨⟨f1, hf1, hle⟩, herr⟩ := hearly fl s1 rfl
      exact ⟨⟨f1, hf1, Nat.le_of_succ_le (by simpa using hle)⟩, herr⟩
    | done errs2 values2 s1 =>
      simp only [hl] at h
      obtain ⟨f2, hf2, hle⟩ := hdone errs2 values2 s1 rfl
      have hle4 : f.length ≤ f2.tail.length := by
        have h1 : f.length + 1 ≤ f2.length := by simpa using hle
        simp [List.length_tail]
        omega
      have hstail : (CallStack.end_scope s1.stack) = f2.tail :: t := by
        rw [hf2]; rfl
      by_cases herrs : errs2 = []
      · rw [if_pos herrs] at h
        simp only [Option.some.injEq, Prod.mk.injEq] at h
        obtain ⟨rfl, rfl⟩ := h
        exact ⟨⟨f2.tail, hstail, hle4⟩, fun ds hd => by simp at hd⟩
      · rw [if_neg herrs] at h
        simp only [Option.some.injEq, Prod.mk.injEq] at h
        obtain ⟨rfl, rfl⟩ := h
        refine ⟨⟨f2.tail, hstail, hle4⟩, ?_⟩
        intro ds hd
        injection hd with h2
        rw [← h2]
        exact herrs

theorem balStep_arrayElems (im : ItemMap) (n : Nat) (ih : BalAll im n) :
    BalArrayElems im (n + 1) := by
  intro es s f t pairs s2 hs h
  cases es with
  | nil =>
    simp only [evaluate_array_elems] at h
    simp only [Option.some.injEq, Prod.mk.injEq] at h
    obtain ⟨rfl, rfl⟩ := h
    exact ⟨⟨f, hs, le_refl _⟩, by simp⟩
  | cons e rest =>
    simp only [evaluate_array_elems] at h
    cases he : evaluate_expression im n e s with
    | none => rw [he] at h; simp at h
    | some pr =>
      obtain ⟨flw, s1⟩ := pr
      simp only [he] at h
      obtain ⟨⟨f1, hs1, hle1⟩, herr1⟩ := ih.expr e s f t flw s1 hs he
      cases hrest : evaluate_array_elems im n rest s1 with
      | none => rw [hrest] at h; simp at h
      | some pr2 =>
        obtain ⟨pairs2, s3⟩ := pr2
        simp only [hrest] at h
        simp only [Option.some.injEq, Prod.mk.injEq] at h
        obtain ⟨rfl, rfl⟩ := h
        obtain ⟨⟨f2, hs3, hle2⟩, herr⟩ := ih.arrayElems rest s1 f1 t pairs2 s3 hs1 hrest
        refine ⟨⟨f2, hs3, le_trans hle1 hle2⟩, ?_⟩
        intro p hp ds hd
        rcases List.mem_cons.mp hp with h1 | h1
        · subst h1; exact herr1 ds hd
        · exact herr p h1 ds hd

theorem balStep_array (im : ItemMap) (n : Nat) (ih : BalAll im n) :
    BalArray im (n + 1) := by
  intro values s f t r s2 hs h
  simp only [evaluate_array] at h
  cases hel : evaluate_array_elems im n values s with
  | none => rw [hel] at h; simp at h
  | some pr =>
    obtain ⟨pairs, s1⟩ := pr
    simp only [hel] at h
    obtain ⟨⟨f1, hs1, hle1⟩, -⟩ := ih.arrayElems values s f t pairs s1 hs hel
    rcases hq : arrayFilterAux pairs [] [] RuntimeType.noneT none with ⟨items, errs, ty, tyLoc⟩
    simp only [hq] at h
    by_cases hz : errs ++ arrayMismatches items ty (tyLoc.getD ⟨0, 0⟩) = []
    · rw [if_pos hz] at h
      simp only [Option.some.injEq, Prod.mk.injEq] at h
      obtain ⟨rfl, rfl⟩ := h
      exact ⟨⟨f1, hs1, hle1⟩, fun ds hd => by simp at hd⟩
    · rw [if_neg hz] at h
      simp only [Option.some.injEq, Prod.mk.injEq] at h
      obtain ⟨rfl, rfl⟩ := h
      refine ⟨⟨f1, hs1, hle1⟩, ?_⟩
      intro ds hd
      injection hd with h2
      rw [← h2]
      exact hz

theorem balStep_switchCases (im : ItemMap) (n : Nat) (ih : BalAll im n) :
    BalSwitchCases im (n + 1) := by
  intro v cs s f t r s2 hs h
  cases cs with
  | nil =>
    simp only [evaluate_switch_cases] at h
    simp only [Option.some.injEq, Prod.mk.injEq] at h
    obtain ⟨rfl, rfl⟩ := h
    exact ⟨⟨f, hs, le_refl _⟩, fun ds hd => by simp at hd⟩
  | cons c rest =>
    simp only [evaluate_switch_cases] at h
    cases he : evaluate_expression im n c.value s with
    | none => rw [he] at h; simp at h
    | some pr =>
      obtain ⟨flw, s1⟩ := pr
      obtain ⟨⟨f1, hs1, hle1⟩, herr1⟩ := ih.expr c.value s f t flw s1 hs he
      cases flw with
      | ok v2 =>
        simp only [he] at h
        by_cases hv : valueEq v v2
        · rw [if_pos hv] at h
          obtain ⟨⟨f2, hs2, hle2⟩, herr2⟩ := ih.expr c.code s1 f1 t r s2 hs1 h
          exact ⟨⟨f2, hs2, le_trans hle1 hle2⟩, herr2⟩
        · rw [if_neg hv] at h
          obtain ⟨⟨f2, hs2, hle2⟩, herr2⟩ := ih.switchCases v rest s1 f1 t r s2 hs1 h
          exact ⟨⟨f2, hs2, le_trans hle1 hle2⟩, herr2⟩
      | ret loc v0 =>
        simp only [he] at h
        simp only [Option.some.injEq, Prod.mk.injEq] at h
        obtain ⟨rfl, rfl⟩ := h
        exact ⟨⟨f1, hs1, hle1⟩, fun ds hd => by simp at hd⟩
      | brk loc v0 =>
        simp only [he] at h
        simp only [Option.some.injEq, Prod.mk.injEq] at h
        obtain ⟨rfl, rfl⟩ := h
        exact ⟨⟨f1, hs1, hle1⟩, fun ds hd => by simp at hd⟩
      | err ds0 =>
        simp only [he] at h
        simp only [Option.some.injEq, Prod.mk.injEq] at h
        obtain ⟨rfl, rfl⟩ := h
        refine ⟨⟨f1, hs1, hle1⟩, ?_⟩
        intro ds hd
        injection hd with h2
        rw [← h2]
        exact herr1 ds0 rfl

theorem balStep_callArgs (im : ItemMap) (n : Nat) (ih : BalAll im n) :
    BalCallArgs im (n + 1) := by
  intro es s f t vals errs s2 hs h
  cases es with
  | nil =>
    simp only [evaluate_call_args] at h
    simp only [Option.some.injEq, Prod.mk.injEq] at h
    obtain ⟨rfl, rfl, rfl⟩ := h
    exact ⟨f, hs, le_refl _⟩
  | cons e rest =>
    simp only [evaluate_call_args] at h
    cases he : evaluate_expression im n e s with
    | none => rw [he] at h; simp at h
    | some pr =>
      obtain ⟨flw, s1⟩ := pr
      simp only [he] at h
      obtain ⟨⟨f1, hs1, hle1⟩, herr1⟩ := ih.expr e s f t flw s1 hs he
      cases hrest : evaluate_call_args im n rest s1 with
      | none => rw [hrest] at h; simp at h
      | some pr2 =>
        obtain ⟨vals2, errs2, s3⟩ := pr2
        simp only [hrest] at h
        obtain ⟨f2, hs3, hle2⟩ := ih.callArgs rest s1 f1 t vals2 errs2 s3 hs1 hrest
        cases flw with
        | ok v =>
          simp only [Option.some.injEq, Prod.mk.injEq] at h
          obtain ⟨-, -, rfl⟩ := h
          exact ⟨f2, hs3, le_trans hle1 hle2⟩
        | ret loc v0 =>
          simp only [Option.some.injEq, Prod.mk.injEq] at h
          obtain ⟨-, -, rfl⟩ := h
          exact ⟨f2, hs3, le_trans hle1 hle2⟩
        | brk loc v0 =>
          simp only [Option.some.injEq, Prod.mk.injEq] at h
          obtain ⟨-, -, rfl⟩ := h
          exact ⟨f2, hs3, le_trans hle1 hle2⟩
        | err ds0 =>
          simp only [Option.some.injEq, Prod.mk.injEq] at h
          obtain ⟨-, -, rfl⟩ := h
          exact ⟨f2, hs3, le_trans hle1 hle2⟩

theorem balStep_userCall (im : ItemMap) (n : Nat) (ih : BalAll im n) :
    BalUserCall im (n + 1) := by
  intro fl argEs vals errs s f t r s2 hs h
  simp only [evaluate_user_call] at h
  by_cases he : errs = []
  · rw [if_pos he] at h
    cases hm : firstArgMismatch fl.args vals 0 with
    | some tri =>
      obtain ⟨i, should, actual⟩ := tri
      simp only [hm] at h
      cases ha : argEs.get? i with
      | none =>
        rw [ha] at h
        simp at h
      | some argE =>
        cases hp : fl.args.get? i with
        | none => rw [ha, hp] at h; simp at h
        | some p =>
          rw [ha, hp] at h
          simp only [Option.some.injEq, Prod.mk.injEq] at h
          obtain ⟨rfl, rfl⟩ := h
          refine ⟨⟨f, hs, le_refl _⟩, ?_⟩
          intro ds hd
          injection hd with h2
          rw [← h2]
          simp
    | none =>
      simp only [hm] at h
      by_cases hlen : fl.args.length < vals.length
      · rw [if_pos hlen] at h; simp at h
      · rw [if_neg hlen] at h
        cases hb : evaluate_block im n fl.block
            { s with stack := s.stack.call ((fl.args.zip vals).map (fun pv => (pv.1.name, pv.2))) } with
        | none => rw [hb] at h; simp at h
        | some pr =>
          obtain ⟨blockRes, s3⟩ := pr
          have hstk1 : ({ s with
                stack := s.stack.call ((fl.args.zip vals).map (fun pv => (pv.1.name, pv.2))) } :
                EvalState).stack
              = [((fl.args.zip vals).map (fun pv => (pv.1.name, pv.2)))] :: (f :: t) := by
            show s.stack.call ((fl.args.zip vals).map (fun pv => (pv.1.name, pv.2)))
                = [((fl.args.zip vals).map (fun pv => (pv.1.name, pv.2)))] :: (f :: t)
            rw [hs]; rfl
          simp only [hb] at h
          obtain ⟨⟨fb, hfb, -⟩, herrb⟩ := ih.block fl.block _ _ (f :: t) blockRes s3 hstk1 hb
          have hend : (CallStack.end_call s3.stack) = f :: t := by rw [hfb]; rfl
          cases blockRes with
          | ok retV =>
            obtain ⟨hs2, herr2⟩ := return_check_shape fl _ retV _ r s2 h
            refine ⟨⟨f, ?_, le_refl _⟩, herr2⟩
            rw [hs2]
            exact hend
          | ret loc retV =>
            obtain ⟨hs2, herr2⟩ := return_check_shape fl loc retV _ r s2 h
            refine ⟨⟨f, ?_, le_refl _⟩, herr2⟩
            rw [hs2]
            exact hend
          | brk loc v0 =>
            simp only [Option.some.injEq, Prod.mk.injEq] at h
            obtain ⟨rfl, rfl⟩ := h
            refine ⟨⟨f, hend, le_refl _⟩, ?_⟩
            intro ds hd
            injection hd with h2
            rw [← h2]
            simp
          | err ds0 =>
            simp only [Option.some.injEq, Prod.mk.injEq] at h
            obtain ⟨rfl, rfl⟩ := h
            refine ⟨⟨f, hend, le_refl _⟩, ?_⟩
            intro ds hd
            injection hd with h2
            rw [← h2]
            exact herrb ds0 rfl
  · rw [if_neg he] at h
    simp only [Option.some.injEq, Prod.mk.injEq] at h
    obtain ⟨rfl, rfl⟩ := h
    refine ⟨⟨f, hs, le_refl _⟩, ?_⟩
    intro ds hd
    injection hd with h2
    rw [← h2]
    exact he

theorem balStep_call (im : ItemMap) (n : Nat) (ih : BalAll im n) :
    BalCall im (n + 1) := by
  intro callee args s f t r s2 hs h
  simp only [evaluate_call] at h
  cases hc : evaluate_expression im n callee s with
  | none => rw [hc] at h; simp at h
  | some pr =>
    obtain ⟨flw, s1⟩ := pr
    obtain ⟨⟨f1, hs1, hle1⟩, herr1⟩ := ih.expr callee s f t flw s1 hs hc
    cases flw with
    | ok calleeV =>
      simp only [hc] at h
      cases ha : evaluate_call_args im n args s1 with
      | none => rw [ha] at h; simp at h
      | some pr2 =>
        obtain ⟨vals, errs, s3⟩ := pr2
        simp only [ha] at h
        obtain ⟨f3, hs3, hle3⟩ := ih.callArgs args s1 f1 t vals errs s3 hs1 ha
        cases calleeV
        case function fv =>
          cases fv with
          | user ufl =>
            obtain ⟨⟨f2, hs2, hle2⟩, herr2⟩ := ih.userCall ufl args vals errs s3 f3 t r s2 hs3 h
            exact ⟨⟨f2, hs2, le_trans hle1 (le_trans hle3 hle2)⟩, herr2⟩
          | inbuilt ib =>
            cases ib
            obtain ⟨⟨f2, hs2, hle2⟩, herr2⟩ := ih.format callee.range args s3 f3 t r s2 hs3 h
            exact ⟨⟨f2, hs2, le_trans hle1 (le_trans hle3 hle2)⟩, herr2⟩
        all_goals
          (simp only [Option.some.injEq, Prod.mk.injEq] at h
           obtain ⟨rfl, rfl⟩ := h
           refine ⟨⟨f3, hs3, le_trans hle1 hle3⟩, ?_⟩
           intro ds hd
           injection hd with h2
           rw [← h2]
           intro hx
           have h3 := (List.append_eq_nil.mp hx).2
           simp at h3)
    | ret loc v0 =>
      simp only [hc] at h
      simp only [Option.some.injEq, Prod.mk.injEq] at h
      obtain ⟨rfl, rfl⟩ := h
      exact ⟨⟨f1, hs1, hle1⟩, fun ds hd => by simp at hd⟩
    | brk loc v0 =>
      simp only [hc] at h
      simp only [Option.some.injEq, Prod.mk.injEq] at h
      obtain ⟨rfl, rfl⟩ := h
      exact ⟨⟨f1, hs1, hle1⟩, fun ds hd => by simp at hd⟩
    | err ds0 =>
      simp only [hc] at h
      simp only [Option.some.injEq, Prod.mk.injEq] at h
      obtain ⟨rfl, rfl⟩ := h
      refine ⟨⟨f1, hs1, hle1⟩, ?_⟩
      intro ds hd
      injection hd with h2
      rw [← h2]
      exact herr1 ds0 rfl

theorem balStep_asString (im : ItemMap) (n : Nat) (ih : BalAll im n) :
    BalAsString im (n + 1) := by
  intro e msg s f t str ds s2 hs h
  simp only [evaluate_as_string_acc] at h
  cases he : evaluate_expression im n e s with
  | none => rw [he] at h; simp at h
  | some pr =>
    obtain ⟨flw, s1⟩ := pr
    obtain ⟨⟨f1, hs1, hle1⟩, -⟩ := ih.expr e s f t flw s1 hs he
    cases flw with
    | ok v =>
      cases v
      all_goals
        (simp only [he] at h
         simp only [Option.some.injEq, Prod.mk.injEq] at h
         obtain ⟨-, -, rfl⟩ := h
         exact ⟨f1, hs1, hle1⟩)
    | ret loc v0 =>
      simp only [he] at h
      simp only [Option.some.injEq, Prod.mk.injEq] at h
      obtain ⟨-, -, rfl⟩ := h
      exact ⟨f1, hs1, hle1⟩
    | brk loc v0 =>
      simp only [he] at h
      simp only [Option.some.injEq, Prod.mk.injEq] at h
      obtain ⟨-, -, rfl⟩ := h
      exact ⟨f1, hs1, hle1⟩
    | err ds0 =>
      simp only [he] at h
      simp only [Option.some.injEq, Prod.mk.injEq] at h
      obtain ⟨-, -, rfl⟩ := h
      exact ⟨f1, hs1, hle1⟩

theorem balStep_asCode (im : ItemMap) (n : Nat) (ih : BalAll im n) :
    BalAsCode im (n + 1) := by
  intro e msg s f t res s2 hs h
  simp only [evaluate_as_code] at h
  cases he : evaluate_expression im n e s with
  | none => rw [he] at h; simp at h
  | some pr =>
    obtain ⟨flw, s1⟩ := pr
    obtain ⟨⟨f1, hs1, hle1⟩, herr1⟩ := ih.expr e s f t flw s1 hs he
    cases flw with
    | ok v =>
      cases v
      case code cty rpn =>
        simp only [he] at h
        simp only [Option.some.injEq, Prod.mk.injEq] at h
        obtain ⟨rfl, rfl⟩ := h
        exact ⟨⟨f1, hs1, hle1⟩, fun ds hd => by simp at hd⟩
      all_goals
        (simp only [he] at h
         simp only [Option.some.injEq, Prod.mk.injEq] at h
         obtain ⟨rfl, rfl⟩ := h
         refine ⟨⟨f1, hs1, hle1⟩, ?_⟩
         intro ds hd
         injection hd with h2
         rw [← h2]
         simp)
    | ret loc v0 =>
      simp only [he] at h
      simp only [Option.some.injEq, Prod.mk.injEq] at h
      obtain ⟨rfl, rfl⟩ := h
      refine ⟨⟨f1, hs1, hle1⟩, ?_⟩
      intro ds hd
      injection hd with h2
      rw [← h2]
      simp
    | brk loc v0 =>
      simp only [he] at h
      simp only [Option.some.injEq, Prod.mk.injEq] at h
      obtain ⟨rfl, rfl⟩ := h
      refine ⟨⟨f1, hs1, hle1⟩, ?_⟩
      intro ds hd
      injection hd with h2
      rw [← h2]
      simp
    | err ds0 =>
      simp only [he] at h
      simp only [Option.some.injEq, Prod.mk.injEq] at h
      obtain ⟨rfl, rfl⟩ := h
      refine ⟨⟨f1, hs1, hle1⟩, ?_⟩
      intro ds hd
      injection hd with h2
      rw [← h2]
      exact herr1 ds0 rfl

theorem balStep_component (im : ItemMap) (n : Nat) (ih : BalAll im n) :
    BalComponent im (n + 1) := by
  intro nameE nodeE body s f t r s2 hs h
  simp only [evaluate_component] at h
  cases hn : evaluate_as_string_acc im n nameE ("component name must be of type `str`")
      { s with info := { s.info with is_in_component := true } } with
  | none => rw [hn] at h; simp at h
  | some prA =>
    obtain ⟨nameStr, errs1, sA⟩ := prA
    simp only [hn] at h
    obtain ⟨fA, hfA, hleA⟩ := ih.asString nameE _
        { s with info := { s.info with is_in_component := true } } f t nameStr errs1 sA hs hn
    split at h
    · exact absurd h (by simp)
    next node errsB sB hB =>
      have hstkB : ∃ fB, sB.stack = fB :: t ∧ fA.length ≤ fB.length := by
        cases hne : nodeE with
        | none =>
          simp only [hne] at hB
          simp only [Option.some.injEq, Prod.mk.injEq] at hB
          obtain ⟨-, -, rfl⟩ := hB
          exact ⟨fA, hfA, le_refl _⟩
        | some ne =>
          simp only [hne] at hB
          cases hx : evaluate_as_string_acc im n ne ("node name must be of type `str`")
              { stack := sA.stack,
                info := { is_in_component := sA.info.is_in_component,
                          component_has_node := true } } with
          | none => simp only [hx] at hB; simp at hB
          | some prX =>
            obtain ⟨nodeStr, errs2, s4⟩ := prX
            simp only [hx] at hB
            simp only [Option.some.injEq, Prod.mk.injEq] at hB
            obtain ⟨-, -, rfl⟩ := hB
            exact ih.asString ne _
                { stack := sA.stack,
                  info := { is_in_component := sA.info.is_in_component,
                            component_has_node := true } } fA t nodeStr
                errs2 s4 hfA hx
      obtain ⟨fB, hfB, hleB⟩ := hstkB
      cases hbody : evaluate_template_block im n body sB with
      | none => rw [hbody] at h; simp at h
      | some prC =>
        obtain ⟨bflw, sC⟩ := prC
        obtain ⟨⟨fC, hfC, hleC⟩, herrC⟩ := ih.tplBlock body sB fB t bflw sC hfB hbody
        cases bflw with
        | ok v =>
          cases v
          case template tv =>
            cases tv
            case block items =>
              simp only [hbody] at h
              by_cases hz : errsB = []
              · rw [if_pos hz] at h
                simp only [Option.some.injEq, Prod.mk.injEq] at h
                obtain ⟨rfl, rfl⟩ := h
                exact ⟨⟨fC, hfC, le_trans hleA (le_trans hleB hleC)⟩, fun ds hd => by simp at hd⟩
              · rw [if_neg hz] at h
                simp only [Option.some.injEq, Prod.mk.injEq] at h
                obtain ⟨rfl, rfl⟩ := h
                refine ⟨⟨fC, hfC, le_trans hleA (le_trans hleB hleC)⟩, ?_⟩
                intro ds hd
                injection hd with h2
                rw [← h2]
                exact hz
            all_goals (simp only [hbody] at h; simp at h)
          all_goals (simp only [hbody] at h; simp at h)
        | ret loc v0 =>
          simp only [hbody] at h
          simp only [Option.some.injEq, Prod.mk.injEq] at h
          obtain ⟨rfl, rfl⟩ := h
          exact ⟨⟨fC, hfC, le_trans hleA (le_trans hleB hleC)⟩, fun ds hd => by simp at hd⟩
        | brk loc v0 =>
          simp only [hbody] at h
          simp only [Option.some.injEq, Prod.mk.injEq] at h
          obtain ⟨rfl, rfl⟩ := h
          exact ⟨⟨fC, hfC, le_trans hleA (le_trans hleB hleC)⟩, fun ds hd => by simp at hd⟩
        | err ds0 =>
          simp only [hbody] at h
          simp only [Option.some.injEq, Prod.mk.injEq] at h
          obtain ⟨rfl, rfl⟩ := h
          exact ⟨⟨fC, hfC, le_trans hleA (le_trans hleB hleC)⟩, herrC⟩

theorem balStep_visibility (im : ItemMap) (n : Nat) (ih : BalAll im n) :
    BalVisibility im (n + 1) := by
  intro e s f t r s2 hs h
  simp only [evaluate_visibility] at h
  by_cases hc : s.info.is_in_component ∧ s.info.component_has_node
  · rw [if_pos hc] at h
    cases hx : evaluate_as_code im n e ("visibility condition must be of type `code`") s with
    | none => rw [hx] at h; simp at h
    | some pr =>
      obtain ⟨res, s1⟩ := pr
      obtain ⟨⟨f1, hs1, hle1⟩, herrx⟩ := ih.asCode e _ s f t res s1 hs hx
      cases res with
      | error ds0 =>
        simp only [hx] at h
        simp only [Option.some.injEq, Prod.mk.injEq] at h
        obtain ⟨rfl, rfl⟩ := h
        refine ⟨⟨f1, hs1, hle1⟩, ?_⟩
        intro ds hd
        injection hd with h2
        rw [← h2]
        exact herrx ds0 rfl
      | ok c =>
        simp only [hx] at h
        by_cases hb : c.1 = RuntimeType.bool
        · rw [if_pos hb] at h
          simp only [Option.some.injEq, Prod.mk.injEq] at h
          obtain ⟨rfl, rfl⟩ := h
          exact ⟨⟨f1, hs1, hle1⟩, fun ds hd => by simp at hd⟩
        · rw [if_neg hb] at h
          simp only [Option.some.injEq, Prod.mk.injEq] at h
          obtain ⟨rfl, rfl⟩ := h
          refine ⟨⟨f1, hs1, hle1⟩, ?_⟩
          intro ds hd
          injection hd with h2
          rw [← h2]
          simp
  · rw [if_neg hc] at h
    simp only [Option.some.injEq, Prod.mk.injEq] at h
    obtain ⟨rfl, rfl⟩ := h
    refine ⟨⟨f, hs, le_refl _⟩, ?_⟩
    intro ds hd
    injection hd with h2
    rw [← h2]
    simp

theorem balStep_formatArgs (im : ItemMap) (n : Nat) (ih : BalAll im n) :
    BalFormatArgs im (n + 1) := by
  intro es out errs s f t res hs h
  cases es with
  | nil =>
    simp only [evaluate_format_args] at h
    obtain rfl := Option.some.inj h
    refine ⟨fun fl s2 hres => by simp at hres, ?_⟩
    intro out2 errs2 s2 hres
    simp only [FormatLoopRes.done.injEq] at hres
    obtain ⟨-, -, rfl⟩ := hres
    exact ⟨f, hs, le_refl _⟩
  | cons e rest =>
    simp only [evaluate_format_args] at h
    cases he : evaluate_expression im n e s with
    | none => rw [he] at h; simp at h
    | some pr =>
      obtain ⟨flw, s1⟩ := pr
      obtain ⟨⟨f1, hs1, hle1⟩, herr1⟩ := ih.expr e s f t flw s1 hs he
      cases flw with
      | ok v =>
        cases v
        all_goals
          (simp only [he] at h
           obtain ⟨hearly2, hdone2⟩ := ih.formatArgs rest _ _ s1 f1 t res hs1 h
           refine ⟨?_, ?_⟩
           · intro fl s2 hres
             obtain ⟨⟨f2, hf2, hle2⟩, herr2⟩ := hearly2 fl s2 hres
             exact ⟨⟨f2, hf2, le_trans hle1 hle2⟩, herr2⟩
           · intro out2 errs2 s2 hres
             obtain ⟨f2, hf2, hle2⟩ := hdone2 out2 errs2 s2 hres
             exact ⟨f2, hf2, le_trans hle1 hle2⟩)
      | ret loc v0 =>
        simp only [he] at h
        obtain rfl := Option.some.inj h
        refine ⟨?_, fun out2 errs2 s2 hres => by simp at hres⟩
        intro fl s2 hres
        simp only [FormatLoopRes.early.injEq] at hres
        obtain ⟨rfl, rfl⟩ := hres
        exact ⟨⟨f1, hs1, hle1⟩, fun ds hd => by simp at hd⟩
      | brk loc v0 =>
        simp only [he] at h
        obtain rfl := Option.some.inj h
        refine ⟨?_, fun out2 errs2 s2 hres => by simp at hres⟩
        intro fl s2 hres
        simp only [FormatLoopRes.early.injEq] at hres
        obtain ⟨rfl, rfl⟩ := hres
        exact ⟨⟨f1, hs1, hle1⟩, fun ds hd => by simp at hd⟩
      | err ds0 =>
        simp only [he] at h
        obtain rfl := Option.some.inj h
        refine ⟨?_, fun out2 errs2 s2 hres => by simp at hres⟩
        intro fl s2 hres
        simp only [FormatLoopRes.early.injEq] at hres
        obtain ⟨rfl, rfl⟩ := hres
        exact ⟨⟨f1, hs1, hle1⟩, herr1⟩

theorem balStep_format (im : ItemMap) (n : Nat) (ih : BalAll im n) :
    BalFormat im (n + 1) := by
  intro loc args s f t r s2 hs h
  cases args with
  | nil =>
    simp only [evaluate_format] at h
    simp only [Option.some.injEq, Prod.mk.injEq] at h
    obtain ⟨rfl, rfl⟩ := h
    refine ⟨⟨f, hs, le_refl _⟩, ?_⟩
    intro ds hd
    injection hd with h2
    rw [← h2]
    simp
  | cons arg0 rest =>
    simp only [evaluate_format] at h
    cases h0 : evaluate_expression im n arg0 s with
    | none => rw [h0] at h; simp at h
    | some pr =>
      obtain ⟨flw, s1⟩ := pr
      obtain ⟨⟨f1, hs1, hle1⟩, herr1⟩ := ih.expr arg0 s f t flw s1 hs h0
      cases flw with
      | ok v =>
        cases v
        case string fstr =>
          simp only [h0] at h
          by_cases ha : countBraces fstr = rest.length
          · rw [if_pos ha] at h
            cases hfa : evaluate_format_args im n rest fstr [] s1 with
            | none => rw [hfa] at h; simp at h
            | some res =>
              obtain ⟨hearly, hdone⟩ := ih.formatArgs rest fstr [] s1 f1 t res hs1 hfa
              cases res with
              | early fl s3 =>
                simp only [hfa] at h
                simp only [Option.some.injEq, Prod.mk.injEq] at h
                obtain ⟨rfl, rfl⟩ := h
                obtain ⟨⟨f2, hf2, hle2⟩, herr2⟩ := hearly fl s3 rfl
                exact ⟨⟨f2, hf2, le_trans hle1 hle2⟩, herr2⟩
              | done outF errs2 s3 =>
                simp only [hfa] at h
                obtain ⟨f2, hf2, hle2⟩ := hdone outF errs2 s3 rfl
                by_cases hz : errs2 = []
                · rw [if_pos hz] at h
                  simp only [Option.some.injEq, Prod.mk.injEq] at h
                  obtain ⟨rfl, rfl⟩ := h
                  exact ⟨⟨f2, hf2, le_trans hle1 hle2⟩, fun ds hd => by simp at hd⟩
                · rw [if_neg hz] at h
                  simp only [Option.some.injEq, Prod.mk.injEq] at h
                  obtain ⟨rfl, rfl⟩ := h
                  refine ⟨⟨f2, hf2, le_trans hle1 hle2⟩, ?_⟩
                  intro ds hd
                  injection hd with h2
                  rw [← h2]
                  exact hz
          · rw [if_neg ha] at h
            simp only [Option.some.injEq, Prod.mk.injEq] at h
            obtain ⟨rfl, rfl⟩ := h
            refine ⟨⟨f1, hs1, hle1⟩, ?_⟩
            intro ds hd
            injection hd with h2
            rw [← h2]
            simp
        all_goals
          (simp only [h0] at h
           simp only [Option.some.injEq, Prod.mk.injEq] at h
           obtain ⟨rfl, rfl⟩ := h
           refine ⟨⟨f1, hs1, hle1⟩, ?_⟩
           intro ds hd
           injection hd with h2
           rw [← h2]
           simp)
      | ret loc2 v0 =>
        simp only [h0] at h
        simp only [Option.some.injEq, Prod.mk.injEq] at h
        obtain ⟨rfl, rfl⟩ := h
        exact ⟨⟨f1, hs1, hle1⟩, fun ds hd => by simp at hd⟩
      | brk loc2 v0 =>
        simp only [h0] at h
        simp only [Option.some.injEq, Prod.mk.injEq] at h
        obtain ⟨rfl, rfl⟩ := h
        exact ⟨⟨f1, hs1, hle1⟩, fun ds hd => by simp at hd⟩
      | err ds0 =>
        simp only [h0] at h
        simp only [Option.some.injEq, Prod.mk.injEq] at h
        obtain ⟨rfl, rfl⟩ := h
        refine ⟨⟨f1, hs1, hle1⟩, ?_⟩
        intro ds hd
        injection hd with h2
        rw [← h2]
        exact herr1 ds0 rfl

theorem balStep_useArgs (im : ItemMap) (n : Nat) (ih : BalAll im n) :
    BalUseArgs im (n + 1) := by
  intro tpl uargs argsMap errs s f t args2 errs2 s2 hs h
  cases uargs with
  | nil =>
    simp only [evaluate_use_args] at h
    simp only [Option.some.injEq, Prod.mk.injEq] at h
    obtain ⟨-, -, rfl⟩ := h
    exact ⟨f, hs, le_refl _⟩
  | cons ua rest =>
    simp only [evaluate_use_args] at h
    cases hfind : tpl.args.find? (fun entry => entry.name = ua.name) with
    | none =>
      simp only [hfind] at h
      exact ih.useArgs tpl rest argsMap _ s f t args2 errs2 s2 hs h
    | some p =>
      simp only [hfind] at h
      cases he : evaluate_expression im n ua.value s with
      | none => rw [he] at h; simp at h
      | some pr =>
        obtain ⟨flw, s1⟩ := pr
        obtain ⟨⟨f1, hs1, hle1⟩, -⟩ := ih.expr ua.value s f t flw s1 hs he
        cases flw with
        | ok v =>
          simp only [he] at h
          by_cases hty : v.getType = rtFromType p.ty
          · rw [if_pos hty] at h
            obtain ⟨f2, hf2, hle2⟩ := ih.useArgs tpl rest _ _ s1 f1 t args2 errs2 s2 hs1 h
            exact ⟨f2, hf2, le_trans hle1 hle2⟩
          · rw [if_neg hty] at h
            obtain ⟨f2, hf2, hle2⟩ := ih.useArgs tpl rest _ _ s1 f1 t args2 errs2 s2 hs1 h
            exact ⟨f2, hf2, le_trans hle1 hle2⟩
        | ret loc v0 =>
          simp only [he] at h
          obtain ⟨f2, hf2, hle2⟩ := ih.useArgs tpl rest _ _ s1 f1 t args2 errs2 s2 hs1 h
          exact ⟨f2, hf2, le_trans hle1 hle2⟩
        | brk loc v0 =>
          simp only [he] at h
          obtain ⟨f2, hf2, hle2⟩ := ih.useArgs tpl rest _ _ s1 f1 t args2 errs2 s2 hs1 h
          exact ⟨f2, hf2, le_trans hle1 hle2⟩
        | err ds0 =>
          simp only [he] at h
          obtain ⟨f2, hf2, hle2⟩ := ih.useArgs tpl rest _ _ s1 f1 t args2 errs2 s2 hs1 h
          exact ⟨f2, hf2, le_trans hle1 hle2⟩

theorem balStep_useDefaults (im : ItemMap) (n : Nat) (ih : BalAll im n) :
    BalUseDefaults im (n + 1) := by
  intro params argsMap errs s f t res hs h
  cases params with
  | nil =>
    simp only [evaluate_use_defaults] at h
    obtain rfl := Option.some.inj h
    refine ⟨fun fl s2 hres => by simp at hres, ?_⟩
    intro args2 errs2 s2 hres
    simp only [UseLoopRes.done.injEq] at hres
    obtain ⟨-, -, rfl⟩ := hres
    exact ⟨f, hs, le_refl _⟩
  | cons p rest =>
    simp only [evaluate_use_defaults] at h
    by_cases hcont : scopeContains argsMap p.name = true
    · rw [if_pos hcont] at h
      exact ih.useDefaults rest argsMap errs s f t res hs h
    · rw [if_neg hcont] at h
      cases hd : p.default with
      | none =>
        simp only [hd] at h
        exact ih.useDefaults rest argsMap _ s f t res hs h
      | some d =>
        simp only [hd] at h
        cases he : evaluate_expression im n d s with
        | none => rw [he] at h; simp at h
        | some pr =>
          obtain ⟨flw, s1⟩ := pr
          obtain ⟨⟨f1, hs1, hle1⟩, herr1⟩ := ih.expr d s f t flw s1 hs he
          cases flw with
          | ok v =>
            simp only [he] at h
            by_cases hty : v.getType = rtFromType p.ty
            · rw [if_pos hty] at h
              obtain ⟨hearly2, hdone2⟩ := ih.useDefaults rest _ _ s1 f1 t res hs1 h
              refine ⟨fun fl s2 hres => ?_, fun a2 e2 s2 hres => ?_⟩
              · obtain ⟨⟨f2, hf2, hle2⟩, herr2⟩ := hearly2 fl s2 hres
                exact ⟨⟨f2, hf2, le_trans hle1 hle2⟩, herr2⟩
              · obtain ⟨f2, hf2, hle2⟩ := hdone2 a2 e2 s2 hres
                exact ⟨f2, hf2, le_trans hle1 hle2⟩
            · rw [if_neg hty] at h
              obtain ⟨hearly2, hdone2⟩ := ih.useDefaults rest _ _ s1 f1 t res hs1 h
              refine ⟨fun fl s2 hres => ?_, fun a2 e2 s2 hres => ?_⟩
              · obtain ⟨⟨f2, hf2, hle2⟩, herr2⟩ := hearly2 fl s2 hres
                exact ⟨⟨f2, hf2, le_trans hle1 hle2⟩, herr2⟩
              · obtain ⟨f2, hf2, hle2⟩ := hdone2 a2 e2 s2 hres
                exact ⟨f2, hf2, le_trans hle1 hle2⟩
          | ret loc v0 =>
            simp only [he] at h
            obtain rfl := Option.some.inj h
            refine ⟨?_, fun a2 e2 s2 hres => by simp at hres⟩
            intro fl s2 hres
            simp only [UseLoopRes.early.injEq] at hres
            obtain ⟨rfl, rfl⟩ := hres
            exact ⟨⟨f1, hs1, hle1⟩, fun ds hd2 => by simp at hd2⟩
          | brk loc v0 =>
            simp only [he] at h
            obtain rfl := Option.some.inj h
            refine ⟨?_, fun a2 e2 s2 hres => by simp at hres⟩
            intro fl s2 hres
            simp only [UseLoopRes.early.injEq] at hres
            obtain ⟨rfl, rfl⟩ := hres
            exact ⟨⟨f1, hs1, hle1⟩, fun ds hd2 => by simp at hd2⟩
          | err ds0 =>
            simp only [he] at h
            obtain rfl := Option.some.inj h
            refine ⟨?_, fun a2 e2 s2 hres => by simp at hres⟩
            intro fl s2 hres
            simp only [UseLoopRes.early.injEq] at hres
            obtain ⟨rfl, rfl⟩ := hres
            exact ⟨⟨f1, hs1, hle1⟩, herr1⟩

theorem balStep_use (im : ItemMap) (n : Nat) (ih : BalAll im n) :
    BalUse im (n + 1) := by
  intro tid uargs s f t r s2 hs h
  simp only [evaluate_use] at h
  cases hT : im.get_template tid with
  | none => rw [hT] at h; simp at h
  | some tpl =>
    simp only [hT] at h
    cases hargs : evaluate_use_args im n tpl uargs [] [] s with
    | none => rw [hargs] at h; simp at h
    | some pr =>
      obtain ⟨argsMap, errs, s1⟩ := pr
      simp only [hargs] at h
      obtain ⟨f1, hs1, hle1⟩ := ih.useArgs tpl uargs [] [] s f t argsMap errs s1 hs hargs
      cases hdef : evaluate_use_defaults im n tpl.args argsMap errs s1 with
      | none => rw [hdef] at h; simp at h
      | some res =>
        obtain ⟨hearly, hdone⟩ := ih.useDefaults tpl.args argsMap errs s1 f1 t res hs1 hdef
        cases res with
        | early fl s3 =>
          simp only [hdef] at h
          simp only [Option.some.injEq, Prod.mk.injEq] at h
          obtain ⟨rfl, rfl⟩ := h
          obtain ⟨⟨f2, hf2, hle2⟩, herr2⟩ := hearly fl s3 rfl
          exact ⟨⟨f2, hf2, le_trans hle1 hle2⟩, herr2⟩
        | done argsMap2 errs2 s3 =>
          simp only [hdef] at h
          obtain ⟨f3, hf3, hle3⟩ := hdone argsMap2 errs2 s3 rfl
          by_cases hz : errs2 = []
          · rw [if_pos hz] at h
            have hstk4 : ({ s3 with stack := s3.stack.call argsMap2 } : EvalState).stack
                = [argsMap2] :: (f3 :: t) := by
              show s3.stack.call argsMap2 = [argsMap2] :: (f3 :: t)
              rw [hf3]; rfl
            cases htb : evaluate_template_block im n tpl.block
                { s3 with stack := s3.stack.call argsMap2 } with
            | none => rw [htb] at h; simp at h
            | some pr3 =>
              obtain ⟨bflw, s5⟩ := pr3
              simp only [htb] at h
              simp only [Option.some.injEq, Prod.mk.injEq] at h
              obtain ⟨rfl, rfl⟩ := h
              obtain ⟨⟨fb, hfb, -⟩, herrb⟩ := ih.tplBlock tpl.block _ _ (f3 :: t) bflw s5 hstk4 htb
              have hend : (CallStack.end_call s5.stack) = f3 :: t := by rw [hfb]; rfl
              exact ⟨⟨f3, hend, le_trans hle1 hle3⟩, herrb⟩
          · rw [if_neg hz] at h
            simp only [Option.some.injEq, Prod.mk.injEq] at h
            obtain ⟨rfl, rfl⟩ := h
            refine ⟨⟨f3, hf3, le_trans hle1 hle3⟩, ?_⟩
            intro ds hd
            injection hd with h2
            rw [← h2]
            exact hz

theorem balStep_expr (im : ItemMap) (n : Nat) (ih : BalAll im n) :
    BalExpr im (n + 1) := by
  intro e s f t r s2 hs h
  cases e with
  | noneE rg =>
    simp only [evaluate_expression] at h
    simp only [Option.some.injEq, Prod.mk.injEq] at h
    obtain ⟨rfl, rfl⟩ := h
    exact ⟨⟨f, hs, le_refl _⟩, fun ds hd => by simp at hd⟩
  | stringE str rg =>
    simp only [evaluate_expression] at h
    simp only [Option.some.injEq, Prod.mk.injEq] at h
    obtain ⟨rfl, rfl⟩ := h
    exact ⟨⟨f, hs, le_refl _⟩, fun ds hd => by simp at hd⟩
  | numberE m rg =>
    simp only [evaluate_expression] at h
    simp only [Option.some.injEq, Prod.mk.injEq] at h
    obtain ⟨rfl, rfl⟩ := h
    exact ⟨⟨f, hs, le_refl _⟩, fun ds hd => by simp at hd⟩
  | booleanE b rg =>
    simp only [evaluate_expression] at h
    simp only [Option.some.injEq, Prod.mk.injEq] at h
    obtain ⟨rfl, rfl⟩ := h
    exact ⟨⟨f, hs, le_refl _⟩, fun ds hd => by simp at hd⟩
  | functionE fl rg =>
    simp only [evaluate_expression] at h
    simp only [Option.some.injEq, Prod.mk.injEq] at h
    obtain ⟨rfl, rfl⟩ := h
    exact ⟨⟨f, hs, le_refl _⟩, fun ds hd => by simp at hd⟩
  | codeE cty rpn rg =>
    simp only [evaluate_expression] at h
    simp only [Option.some.injEq, Prod.mk.injEq] at h
    obtain ⟨rfl, rfl⟩ := h
    exact ⟨⟨f, hs, le_refl _⟩, fun ds hd => by simp at hd⟩
  | blockE b rg =>
    simp only [evaluate_expression] at h
    exact ih.block b s f t r s2 hs h
  | arrayE values rg =>
    simp only [evaluate_expression] at h
    exact ih.array values s f t r s2 hs h
  | accessE ares name nameRange rg =>
    simp only [evaluate_expression, evaluate_access] at h
    cases ares with
    | global g =>
      cases g with
      | function fr =>
        cases fr with
        | user id =>
          cases hf : im.get_function id with
          | none => simp only [hf] at h; simp at h
          | some fn =>
            simp only [hf] at h
            simp only [Option.some.injEq, Prod.mk.injEq] at h
            obtain ⟨rfl, rfl⟩ := h
            exact ⟨⟨f, hs, le_refl _⟩, fun ds hd => by simp at hd⟩
        | inbuilt ib =>
          simp only [Option.some.injEq, Prod.mk.injEq] at h
          obtain ⟨rfl, rfl⟩ := h
          exact ⟨⟨f, hs, le_refl _⟩, fun ds hd => by simp at hd⟩
      | enumAccess eid v =>
        simp only [Option.some.injEq, Prod.mk.injEq] at h
        obtain ⟨rfl, rfl⟩ := h
        exact ⟨⟨f, hs, le_refl _⟩, fun ds hd => by simp at hd⟩
    | localAccess =>
      cases hv : s.stack.var name with
      | some v =>
        simp only [hv] at h
        simp only [Option.some.injEq, Prod.mk.injEq] at h
        obtain ⟨rfl, rfl⟩ := h
        exact ⟨⟨f, hs, le_refl _⟩, fun ds hd => by simp at hd⟩
      | none =>
        simp only [hv] at h
        simp only [Option.some.injEq, Prod.mk.injEq] at h
        obtain ⟨rfl, rfl⟩ := h
        refine ⟨⟨f, hs, le_refl _⟩, ?_⟩
        intro ds hd
        injection hd with h2
        rw [← h2]
        simp
  | callE callee args rg =>
    simp only [evaluate_expression] at h
    exact ih.call callee args s f t r s2 hs h
  | switchE disc cs rg =>
    simp only [evaluate_expression] at h
    cases hd : evaluate_expression im n disc s with
    | none => rw [hd] at h; simp at h
    | some pr =>
      obtain ⟨flw, s1⟩ := pr
      obtain ⟨⟨f1, hs1, hle1⟩, herr1⟩ := ih.expr disc s f t flw s1 hs hd
      cases flw with
      | ok v =>
        simp only [hd] at h
        obtain ⟨⟨f2, hf2, hle2⟩, herr2⟩ := ih.switchCases v cs s1 f1 t r s2 hs1 h
        exact ⟨⟨f2, hf2, le_trans hle1 hle2⟩, herr2⟩
      | ret loc v0 =>
        simp only [hd] at h
        simp only [Option.some.injEq, Prod.mk.injEq] at h
        obtain ⟨rfl, rfl⟩ := h
        exact ⟨⟨f1, hs1, hle1⟩, fun ds hd2 => by simp at hd2⟩
      | brk loc v0 =>
        simp only [hd] at h
        simp only [Option.some.injEq, Prod.mk.injEq] at h
        obtain ⟨rfl, rfl⟩ := h
        exact ⟨⟨f1, hs1, hle1⟩, fun ds hd2 => by simp at hd2⟩
      | err ds0 =>
        simp only [hd] at h
        simp only [Option.some.injEq, Prod.mk.injEq] at h
        obtain ⟨rfl, rfl⟩ := h
        refine ⟨⟨f1, hs1, hle1⟩, ?_⟩
        intro ds hd2
        injection hd2 with h2
        rw [← h2]
        exact herr1 ds0 rfl
  | returnE oe rg =>
    simp only [evaluate_expression] at h
    cases oe with
    | none =>
      simp only [Option.some.injEq, Prod.mk.injEq] at h
      obtain ⟨rfl, rfl⟩ := h
      exact ⟨⟨f, hs, le_refl _⟩, fun ds hd => by simp at hd⟩
    | some e2 =>
      cases he : evaluate_expression im n e2 s with
      | none => simp only [he] at h; simp at h
      | some pr =>
        obtain ⟨flw, s1⟩ := pr
        obtain ⟨⟨f1, hs1, hle1⟩, herr1⟩ := ih.expr e2 s f t flw s1 hs he
        cases flw with
        | ok v =>
          simp only [he] at h
          simp only [Option.some.injEq, Prod.mk.injEq] at h
          obtain ⟨rfl, rfl⟩ := h
          exact ⟨⟨f1, hs1, hle1⟩, fun ds hd => by simp at hd⟩
        | ret loc v0 =>
          simp only [he] at h
          simp only [Option.some.injEq, Prod.mk.injEq] at h
          obtain ⟨rfl, rfl⟩ := h
          exact ⟨⟨f1, hs1, hle1⟩, fun ds hd => by simp at hd⟩
        | brk loc v0 =>
          simp only [he] at h
          simp only [Option.some.injEq, Prod.mk.injEq] at h
          obtain ⟨rfl, rfl⟩ := h
          exact ⟨⟨f1, hs1, hle1⟩, fun ds hd => by simp at hd⟩
        | err ds0 =>
          simp only [he] at h
          simp only [Option.some.injEq, Prod.mk.injEq] at h
          obtain ⟨rfl, rfl⟩ := h
          refine ⟨⟨f1, hs1, hle1⟩, ?_⟩
          intro ds hd
          injection hd with h2
          rw [← h2]
          exact herr1 ds0 rfl
  | breakE oe rg =>
    simp only [evaluate_expression] at h
    cases oe with
    | none =>
      simp only [Option.some.injEq, Prod.mk.injEq] at h
      obtain ⟨rfl, rfl⟩ := h
      exact ⟨⟨f, hs, le_refl _⟩, fun ds hd => by simp at hd⟩
    | some e2 =>
      cases he : evaluate_expression im n e2 s with
      | none => simp only [he] at h; simp at h
      | some pr =>
        obtain ⟨flw, s1⟩ := pr
        obtain ⟨⟨f1, hs1, hle1⟩, herr1⟩ := ih.expr e2 s f t flw s1 hs he
        cases flw with
        | ok v =>
          simp only [he] at h
          simp only [Option.some.injEq, Prod.mk.injEq] at h
          obtain ⟨rfl, rfl⟩ := h
          exact ⟨⟨f1, hs1, hle1⟩, fun ds hd => by simp at hd⟩
        | ret loc v0 =>
          simp only [he] at h
          simp only [Option.some.injEq, Prod.mk.injEq] at h
          obtain ⟨rfl, rfl⟩ := h
          exact ⟨⟨f1, hs1, hle1⟩, fun ds hd => by simp at hd⟩
        | brk loc v0 =>
          simp only [he] at h
          simp only [Option.some.injEq, Prod.mk.injEq] at h
          obtain ⟨rfl, rfl⟩ := h
          exact ⟨⟨f1, hs1, hle1⟩, fun ds hd => by simp at hd⟩
        | err ds0 =>
          simp only [he] at h
          simp only [Option.some.injEq, Prod.mk.injEq] at h
          obtain ⟨rfl, rfl⟩ := h
          refine ⟨⟨f1, hs1, hle1⟩, ?_⟩
          intro ds hd
          injection hd with h2
          rw [← h2]
          exact herr1 ds0 rfl
  | useE tid args rg =>
    simp only [evaluate_expression] at h
    exact ih.use tid args s f t r s2 hs h
  | componentE nameE nodeE body rg =>
    simp only [evaluate_expression] at h
    exact ih.component nameE nodeE body s f t r s2 hs h
  | visibleE e2 rg =>
    simp only [evaluate_expression] at h
    exact ih.visibility e2 s f t r s2 hs h

theorem balAll_zero (im : ItemMap) : BalAll im 0 := by
  refine ⟨fun e s f t r s2 h1 h2 => ?_, fun b s f t r s2 h1 h2 => ?_,
    fun stmts errs s f t res h1 h2 => ?_, fun stmts s f t r s2 h1 h2 => ?_,
    fun stmts errs values s f t res h1 h2 => ?_, fun values s f t r s2 h1 h2 => ?_,
    fun es s f t pairs s2 h1 h2 => ?_, fun v cs s f t r s2 h1 h2 => ?_,
    fun callee args s f t r s2 h1 h2 => ?_, fun es s f t vals errs s2 h1 h2 => ?_,
    fun fl argEs vals errs s f t r s2 h1 h2 => ?_, fun tid uargs s f t r s2 h1 h2 => ?_,
    fun tpl uargs am errs s f t a2 e2 s2 h1 h2 => ?_, fun params am errs s f t res h1 h2 => ?_,
    fun e msg s f t str ds s2 h1 h2 => ?_, fun e msg s f t res s2 h1 h2 => ?_,
    fun nameE nodeE body s f t r s2 h1 h2 => ?_, fun e s f t r s2 h1 h2 => ?_,
    fun loc args s f t r s2 h1 h2 => ?_, fun es out errs s f t res h1 h2 => ?_⟩
  · simp [evaluate_expression] at h2
  · simp [evaluate_block] at h2
  · simp [evaluate_block_stmts] at h2
  · simp [evaluate_template_block] at h2
  · simp [evaluate_tpl_stmts] at h2
  · simp [evaluate_array] at h2
  · simp [evaluate_array_elems] at h2
  · simp [evaluate_switch_cases] at h2
  · simp [evaluate_call] at h2
  · simp [evaluate_call_args] at h2
  · simp [evaluate_user_call] at h2
  · simp [evaluate_use] at h2
  · simp [evaluate_use_args] at h2
  · simp [evaluate_use_defaults] at h2
  · simp [evaluate_as_string_acc] at h2
  · simp [evaluate_as_code] at h2
  · simp [evaluate_component] at h2
  · simp [evaluate_visibility] at h2
  · simp [evaluate_format] at h2
  · simp [evaluate_format_args] at h2

theorem eval_balance (im : ItemMap) : ∀ n, BalAll im n := by
  intro n
  induction n with
  | zero => exact balAll_zero im
  | succ k ihk =>
    exact ⟨balStep_expr im k ihk, balStep_block im k ihk, balStep_blockStmts im k ihk,
      balStep_tplBlock im k ihk, balStep_tplStmts im k ihk, balStep_array im k ihk,
      balStep_arrayElems im k ihk, balStep_switchCases im k ihk, balStep_call im k ihk,
      balStep_callArgs im k ihk, balStep_userCall im k ihk, balStep_use im k ihk,
      balStep_useArgs im k ihk, balStep_useDefaults im k ihk, balStep_asString im k ihk,
      balStep_asCode im k ihk, balStep_component im k ihk, balStep_visibility im k ihk,
      balStep_format im k ihk, balStep_formatArgs im k ihk⟩

/-- **Claim C2** (corrected): whenever an evaluator run returns — with
success, a diagnostic, a `return` or a `break` — the call frames below the
current one are restored exactly (every call frame pushed around a function
or template body during the run is popped again, and outer frames are left
untouched), and the current frame never has more scopes popped than were
pushed: its scope count never decreases.  The original claim's "a scope is
pushed on entry and popped on every exit path" is false on the return and
break paths, which skip `end_scope` and leak the pushed scope — see the
counterexample. -/
theorem c2_scope_frame_balance :
    (∀ im n e s f t r s2, s.stack = f :: t →
        evaluate_expression im n e s = some (r, s2) →
        ∃ f2, s2.stack = f2 :: t ∧ f.length ≤ f2.length)
    ∧ (∀ im n b s f t r s2, s.stack = f :: t →
        evaluate_block im n b s = some (r, s2) →
        ∃ f2, s2.stack = f2 :: t ∧ f.length ≤ f2.length)
    ∧ (∀ im n stmts s f t r s2, s.stack = f :: t →
        evaluate_template_block im n stmts s = some (r, s2) →
        ∃ f2, s2.stack = f2 :: t ∧ f.length ≤ f2.length) :=
  ⟨fun im n e s f t r s2 hs h => ((eval_balance im n).expr e s f t r s2 hs h).1,
   fun im n b s f t r s2 hs h => ((eval_balance im n).block b s f t r s2 hs h).1,
   fun im n stmts s f t r s2 hs h => ((eval_balance im n).tplBlock stmts s f t r s2 hs h).1⟩

/-- Witness for the C2 balance theorem at a concrete run: evaluating the
`None` literal from the fresh state keeps the fresh stack. -/
theorem c2_scope_frame_balance_witness :
    ∃ f2, initState.stack = f2 :: ([] : List Frame) ∧ ([] : Frame).length ≤ f2.length :=
  c2_scope_frame_balance.1 emptyItemMap 1 (.noneE ⟨0, 1⟩) initState [] []
    (.ok .none) initState rfl rfl

/-- **Claim C2** counterexample: a block whose statement list hits a
`return` exits through the early path of the statement loop, which skips
`end_scope`: from the fresh stack (one frame with zero scopes), evaluating
`{ return; }` yields the `Return` flow with the pushed scope still on the
frame — the scope count went from 0 to 1 on this exit path, so the pushed
scope was not popped. -/
theorem c2_counterexample :
    evaluate_block emptyItemMap 3
        (Block.mk [Statement.exprS (.returnE none ⟨2, 8⟩) ⟨2, 8⟩] none ⟨0, 10⟩)
        initState
      = some (.ret ⟨2, 8⟩ .none, ⟨[[[]]], ⟨false, false⟩⟩)
    ∧ topScopesOf initState = 0
    ∧ topScopesOf ⟨[[[]]], ⟨false, false⟩⟩ = 1 := ⟨rfl, rfl, rfl⟩
